import Mathlib

/-! Guard-channel CTMC simulator (`UR3.c`): embedding and verified properties.

Conventions of the embedding.

* C `int` values (`x1`, `x2`, `x3`, `S`) are integers of `ℤ`; signed overflow is undefined
  behaviour in C and no state reachable in a run comes near the 32-bit range.
* C `double` values (`lambda_e`, `lambda_u`, `mu`, `G`, the holding time, the accumulators)
  are elements of an arbitrary linearly ordered field `K` (exact arithmetic).  Taking `K = ℚ`
  makes every definition executable; taking `K = ℝ` gives the real-number reading.  The
  values `inf` and NaN of a `double` are not elements of `K` : namespace `UR3IEEE` embeds
  the same source lines with them.
* the library function `log` of `<math.h>` is a parameter `log : K → K`.
* `(double)rand() / RAND_MAX` is read from a stream `rnd : ℕ → K`; the `k`-th call of
  `transition` made by `simu` consumes `rnd (2*k)` and then `rnd (2*k+1)`.
-/

set_option linter.unusedVariables false

namespace UR3

/-- The three counters `int etat[3]` : URLLC in service, eMBB in service, eMBB waiting. -/
structure Etat where
  x1 : ℤ
  x2 : ℤ
  x3 : ℤ
deriving DecidableEq, Repr

variable {K : Type} [LinearOrderedField K]

/-- The arrays `taux[5]` and `etats[5][3]` after the four `if` blocks of `transition`
(lines 39-89): entry `i` is `(taux[i], etats[i])`, and the length of the list is `count`. -/
def candidats (lambda_e lambda_u mu : K) (S : ℤ) (G : K) (x1 x2 x3 : ℤ) : List (K × Etat) :=
  (if 0 < x1 then [(2 * mu * (x1 : K), Etat.mk (x1 - 1) x2 x3)] else []) ++
  ((if 0 < x2 then
      [(mu * (x2 : K),
        if ((x1 + x2 : ℤ) : K) ≤ (S : K) - G ∧ 0 < x3 then Etat.mk x1 x2 (x3 - 1)
        else Etat.mk x1 (x2 - 1) x3)]
    else []) ++
  ((if x1 + x2 < S then [(lambda_u, Etat.mk (x1 + 1) x2 x3)] else []) ++
  [(lambda_e,
    if ((x1 + x2 : ℤ) : K) < (S : K) - G then Etat.mk x1 (x2 + 1) x3
    else Etat.mk x1 x2 (x3 + 1))]))

/-- The loop of lines 91-95: `param_expo = 0.0; for i < count: param_expo += taux[i]`. -/
def param_expo (taux : List K) : K :=
  taux.foldl (fun acc r => acc + r) 0

/-- The selection loop of lines 102-110, started at index `i` with the running value
`cumulative_sum`: the result is `some i` when the loop executes `index = i; break`, and
`none` when it runs to the end without assigning `index`. -/
def selection (p u : K) : List K → K → ℕ → Option ℕ
  | [], _, _ => none
  | r :: rest, cumulative_sum, i =>
    if u ≤ cumulative_sum + r / p then some i
    else selection p u rest (cumulative_sum + r / p) (i + 1)

/-- The value of `index` after the selection loop: initialised to `0`, overwritten by the
loop when it breaks. -/
def indexChoisi (taux : List K) (u : K) : ℕ :=
  (selection (param_expo taux) u taux 0 0).getD 0

/-- The function `transition` of `UR3.c`: returns `(*duree, etat)`.  `U1` and `U2` are the
two values `(double)rand() / RAND_MAX`, in the order in which they are drawn. -/
def transition (log : K → K) (lambda_e lambda_u mu : K) (S : ℤ) (G : K) (x1 x2 x3 : ℤ)
    (U1 U2 : K) : K × Etat :=
  let ev := candidats lambda_e lambda_u mu S G x1 x2 x3
  let taux := ev.map Prod.fst
  let duree := -1 / param_expo taux * log U1
  let index := indexChoisi taux U2
  (duree, (ev.map Prod.snd).getD index (Etat.mk 0 0 0))

/-- The result record `struct res_sim` of `UR3.c`. -/
structure res_sim (K : Type) where
  loss : K
  wait_avg : K
  wait_max : K
  urllc_tot : K
  urllc_max : K
  embb_tot : K

/-- The local variables of `simu` that live across iterations of its `while` loop
(lines 119-128). -/
structure Locals (K : Type) where
  e : Etat
  cumul : K
  temps_total : K
  t : K
  wait_avg : K
  wait_max : K
  urllc_tot : K
  urllc_max : K
  embb_tot : K

/-- The values of the locals of `simu` on entry to the loop (lines 119-128). -/
def simuInit : Locals K :=
  { e := Etat.mk 0 0 0, cumul := 0, temps_total := 0, t := 0, wait_avg := 0, wait_max := 0,
    urllc_tot := 0, urllc_max := 0, embb_tot := 0 }

/-- One execution of the body of the `while` loop of `simu` (lines 132-156), the call of
`transition` drawing `U1` then `U2`. -/
def simuCorps (log : K → K) (lambda_e lambda_u mu : K) (S : ℤ) (G : K) (U1 U2 : K)
    (v : Locals K) : Locals K :=
  let r := transition log lambda_e lambda_u mu S G v.e.x1 v.e.x2 v.e.x3 U1 U2
  let t := r.1
  let e_new := r.2
  { e := e_new
    cumul := if v.e.x1 + v.e.x2 = S then v.cumul + t else v.cumul
    temps_total := v.temps_total + t
    t := t
    wait_avg := v.wait_avg + (v.e.x3 : K) * t
    wait_max := if v.wait_max > (v.e.x3 : K) then v.wait_max else (v.e.x3 : K)
    urllc_tot := if e_new.x1 > v.e.x1 then v.urllc_tot + 1 else v.urllc_tot
    urllc_max := if (e_new.x1 : K) > v.urllc_max then (e_new.x1 : K) else v.urllc_max
    embb_tot := if e_new.x2 > v.e.x2 then v.embb_tot + 1 else v.embb_tot }

/-- The `while (temps_total < horizon)` loop of `simu`, entered for the `k`-th time with
locals `v`; `fuel` bounds the number of iterations, `none` means the bound was reached
with the guard still true. -/
def simuLoop (log : K → K) (lambda_e lambda_u mu : K) (S : ℤ) (G : K) (horizon : K)
    (rnd : ℕ → K) : ℕ → ℕ → Locals K → Option (Locals K)
  | 0, _, v => if v.temps_total < horizon then none else some v
  | fuel + 1, k, v =>
    if v.temps_total < horizon then
      simuLoop log lambda_e lambda_u mu S G horizon rnd fuel (k + 1)
        (simuCorps log lambda_e lambda_u mu S G (rnd (2 * k)) (rnd (2 * k + 1)) v)
    else some v

/-- The code of `simu` after its loop (lines 159-169). -/
def simuFin (S : ℤ) (horizon : K) (v : Locals K) : res_sim K :=
  let cumul :=
    if v.e.x1 + v.e.x2 = S then v.cumul + (v.t - (v.temps_total - horizon)) else v.cumul
  { loss := cumul / horizon
    wait_avg := v.wait_avg / horizon
    wait_max := v.wait_max
    urllc_tot := v.urllc_tot
    urllc_max := v.urllc_max
    embb_tot := v.embb_tot }

/-- The function `simu` of `UR3.c`, its loop bounded by `fuel` iterations. -/
def simu (log : K → K) (lambda_e lambda_u mu : K) (S : ℤ) (G : K) (NbIter : K)
    (rnd : ℕ → K) (fuel : ℕ) : Option (res_sim K) :=
  let horizon := NbIter / (lambda_e + lambda_u)
  (simuLoop log lambda_e lambda_u mu S G horizon rnd fuel 0 simuInit).map (simuFin S horizon)

/-- The locals of `simu` after `n` further iterations of its loop, entered for the `k`-th
time with locals `v`: `none` when the loop stops before completing `n` more iterations. -/
def simuSteps (log : K → K) (lambda_e lambda_u mu : K) (S : ℤ) (G : K) (horizon : K)
    (rnd : ℕ → K) : ℕ → ℕ → Locals K → Option (Locals K)
  | 0, _, v => some v
  | n + 1, k, v =>
    if v.temps_total < horizon then
      simuSteps log lambda_e lambda_u mu S G horizon rnd n (k + 1)
        (simuCorps log lambda_e lambda_u mu S G (rnd (2 * k)) (rnd (2 * k + 1)) v)
    else none

/-- The locals of `simu` after `n` iterations of its loop on the draws `rnd`, when the
trajectory has at least `n` transitions: the state `e` of the result is the state entered
by the `n`-th transition (the initial state for `n = 0`). -/
def simuAfter (log : K → K) (lambda_e lambda_u mu : K) (S : ℤ) (G : K) (NbIter : K)
    (rnd : ℕ → K) (n : ℕ) : Option (Locals K) :=
  simuSteps log lambda_e lambda_u mu S G (NbIter / (lambda_e + lambda_u)) rnd n 0 simuInit

/-- A state of the model as the data model describes it: non-negative counters and at
most `S` units in service. -/
def Etat.valide (S : ℤ) (e : Etat) : Prop :=
  0 ≤ e.x1 ∧ 0 ≤ e.x2 ∧ 0 ≤ e.x3 ∧ e.x1 + e.x2 ≤ S

/-- The transition changes exactly one counter, by one unit up or down. -/
def unPas (x1 x2 x3 : ℤ) (e : Etat) : Prop :=
  ((e.x1 = x1 + 1 ∨ e.x1 = x1 - 1) ∧ e.x2 = x2 ∧ e.x3 = x3) ∨
  (e.x1 = x1 ∧ (e.x2 = x2 + 1 ∨ e.x2 = x2 - 1) ∧ e.x3 = x3) ∨
  (e.x1 = x1 ∧ e.x2 = x2 ∧ (e.x3 = x3 + 1 ∨ e.x3 = x3 - 1))

/-- Rows of the transition table of the specification (section 3), in the order of the
table: guard, rate, effect on the state.  Written from the words of the specification,
for comparison with `candidats`. -/
def tableSpec (lambda_e lambda_u mu : K) (S : ℤ) (G : K) (x1 x2 x3 : ℤ) :
    List (Bool × K × Etat) :=
  [ (decide (x1 > 0), 2 * mu * (x1 : K), Etat.mk (x1 - 1) x2 x3),
    (decide (x2 > 0 ∧ (((x1 + x2 : ℤ) : K) ≤ (S : K) - G ∧ x3 > 0)), mu * (x2 : K),
      Etat.mk x1 x2 (x3 - 1)),
    (decide (x2 > 0 ∧ ¬ (((x1 + x2 : ℤ) : K) ≤ (S : K) - G ∧ x3 > 0)), mu * (x2 : K),
      Etat.mk x1 (x2 - 1) x3),
    (decide (x1 + x2 < S), lambda_u, Etat.mk (x1 + 1) x2 x3),
    (decide (((x1 + x2 : ℤ) : K) < (S : K) - G), lambda_e, Etat.mk x1 (x2 + 1) x3),
    (decide (((x1 + x2 : ℤ) : K) ≥ (S : K) - G), lambda_e, Etat.mk x1 x2 (x3 + 1)) ]

/-- The enabled events of the specification's table, as (rate, next state) pairs in the
table's order. -/
def enabledSpec (lambda_e lambda_u mu : K) (S : ℤ) (G : K) (x1 x2 x3 : ℤ) : List (K × Etat) :=
  ((tableSpec lambda_e lambda_u mu S G x1 x2 x3).filter (fun r => r.1)).map (fun r => r.2)

/-- The total rate as the specification writes it: all departure terms, the URLLC arrival
rate when a unit is free, the eMBB arrival rate always. -/
def totalRateSpec (lambda_e lambda_u mu : K) (S : ℤ) (x1 x2 : ℤ) : K :=
  2 * mu * (x1 : K) + mu * (x2 : K) + (if x1 + x2 < S then lambda_u else 0) + lambda_e

instance (S : ℤ) (e : Etat) : Decidable (Etat.valide S e) := by
  unfold Etat.valide
  infer_instance

instance (x1 x2 x3 : ℤ) (e : Etat) : Decidable (unPas x1 x2 x3 e) := by
  unfold unPas
  infer_instance

/-- The transition from `e` to `e'` has the effect of a URLLC arrival (`x1 += 1`). -/
def estArriveeUrllc (e e' : Etat) : Bool :=
  decide (e' = Etat.mk (e.x1 + 1) e.x2 e.x3)

/-- The transition from `e` to `e'` has the effect of a direct eMBB arrival (`x2 += 1`). -/
def estArriveeEmbbDirecte (e e' : Etat) : Bool :=
  decide (e' = Etat.mk e.x1 (e.x2 + 1) e.x3)

/-- Number of transitions, among the first `n` of the trajectory of `simu` on the draws
`rnd`, whose pre- and post-transition states satisfy `p`. -/
def compteTransitions (p : Etat → Etat → Bool) (log : K → K) (lambda_e lambda_u mu : K)
    (S : ℤ) (G : K) (NbIter : K) (rnd : ℕ → K) : ℕ → ℕ
  | 0 => 0
  | n + 1 =>
    compteTransitions p log lambda_e lambda_u mu S G NbIter rnd n +
      (match simuAfter log lambda_e lambda_u mu S G NbIter rnd n,
          simuAfter log lambda_e lambda_u mu S G NbIter rnd (n + 1) with
        | some w, some w' => if p w.e w'.e then 1 else 0
        | _, _ => 0)

/-- The constant `#define NB_SIM 50000`. -/
def NB_SIM : ℕ := 50000

/-- The six `res_mean->f += res.f` of lines 206-211. -/
def res_sim.ajoute (a r : res_sim K) : res_sim K :=
  { loss := a.loss + r.loss
    wait_avg := a.wait_avg + r.wait_avg
    wait_max := a.wait_max + r.wait_max
    urllc_tot := a.urllc_tot + r.urllc_tot
    urllc_max := a.urllc_max + r.urllc_max
    embb_tot := a.embb_tot + r.embb_tot }

/-- The six `res_mean->f /= (double)NB_SIM` of lines 214-219, for a divisor `n`. -/
def res_sim.divise (a : res_sim K) (n : K) : res_sim K :=
  { loss := a.loss / n
    wait_avg := a.wait_avg / n
    wait_max := a.wait_max / n
    urllc_tot := a.urllc_tot / n
    urllc_max := a.urllc_max / n
    embb_tot := a.embb_tot / n }

/-- The value of `*res_mean` after `n` iterations of the `for` loop of lines 202-212,
started from the zeroed record of line 200; `appel i` is the result written by the `i`-th
call of `simu` (`none` when that call does not return). -/
def boucleSimulations (appel : ℕ → Option (res_sim K)) : ℕ → Option (res_sim K)
  | 0 => some { loss := 0, wait_avg := 0, wait_max := 0, urllc_tot := 0, urllc_max := 0,
                embb_tot := 0 }
  | n + 1 =>
    match boucleSimulations appel n with
    | none => none
    | some acc =>
      match appel n with
      | none => none
      | some r => some (acc.ajoute r)

/-- One iteration of the `while` loop of `valeur_canaux_garde_1` for the candidate `G`
(lines 200-219): `nb_sim` calls of `simu`, accumulated then divided by `nb_sim`, where
`nb_sim` stands for the macro `NB_SIM`.  The `i`-th call made for candidate `G` reads its
draws from the stream `rnd G i` and its loop is bounded by `fuelSimu`. -/
def evalueCandidat (log : K → K) (lambda_e lambda_u mu : K) (S : ℤ) (NbIter : K)
    (nb_sim : ℕ) (rnd : ℤ → ℕ → ℕ → K) (fuelSimu : ℕ) (G : ℤ) : Option (res_sim K) :=
  (boucleSimulations
    (fun i => simu log lambda_e lambda_u mu S (G : K) NbIter (rnd G i) fuelSimu) nb_sim).map
    (fun acc => acc.divise (nb_sim : K))

/-- The `while (a > seuil)` loop of `valeur_canaux_garde_1` (lines 197-222), entered with
the current values of `G`, `a` and `*res_mean`; `fuel` bounds the number of iterations,
`none` means that the loop has not ended within the bound (or that a call of `simu` has
not returned). -/
def gardeLoop (log : K → K) (lambda_e lambda_u mu : K) (S : ℤ) (NbIter seuil : K)
    (nb_sim : ℕ) (rnd : ℤ → ℕ → ℕ → K) (fuelSimu : ℕ) :
    ℕ → ℤ → K → res_sim K → Option (ℤ × res_sim K)
  | 0, G, a, res_mean => if a > seuil then none else some (G, res_mean)
  | fuel + 1, G, a, res_mean =>
    if a > seuil then
      match evalueCandidat log lambda_e lambda_u mu S NbIter nb_sim rnd fuelSimu (G + 1) with
      | none => none
      | some m =>
        gardeLoop log lambda_e lambda_u mu S NbIter seuil nb_sim rnd fuelSimu fuel (G + 1)
          m.loss m
    else some (G, res_mean)

/-- The function `valeur_canaux_garde_1` of `UR3.c`: returns the value of `G` and the
final content of `*res_mean` (whose content on entry is `res_mean`).  The macro `NB_SIM`
is the argument `nb_sim`. -/
def valeur_canaux_garde_1 (log : K → K) (lambda_e lambda_u mu : K) (S : ℤ) (NbIter seuil : K)
    (nb_sim : ℕ) (res_mean : res_sim K) (rnd : ℤ → ℕ → ℕ → K) (fuelSimu fuel : ℕ) :
    Option (ℤ × res_sim K) :=
  gardeLoop log lambda_e lambda_u mu S NbIter seuil nb_sim rnd fuelSimu fuel (-1) 1 res_mean

/-- The field-wise arithmetic mean of the `n` records `r 0, ..., r (n-1)`, as the
specification words the averaging step. -/
def moyenneSpec (r : ℕ → res_sim K) (n : ℕ) : res_sim K :=
  { loss := (∑ i in Finset.range n, (r i).loss) / (n : K)
    wait_avg := (∑ i in Finset.range n, (r i).wait_avg) / (n : K)
    wait_max := (∑ i in Finset.range n, (r i).wait_max) / (n : K)
    urllc_tot := (∑ i in Finset.range n, (r i).urllc_tot) / (n : K)
    urllc_max := (∑ i in Finset.range n, (r i).urllc_max) / (n : K)
    embb_tot := (∑ i in Finset.range n, (r i).embb_tot) / (n : K) }

/-- The computation of `num_steps` in `main` (line 253), for the values `START`, `END`
and `STEP` of the macros; `/` of C truncates toward zero. -/
def num_steps (START END STEP : ℤ) : ℤ :=
  (END - START).tdiv STEP + 1

/-- The `for` loop of a child process (lines 279-291), entered with the value `i` of its
loop variable: the list of the values of `index` it computes (the slots it writes), in
order.  `fuel` bounds the number of iterations, `none` means the bound was reached. -/
def boucleEnfant (START END STEP NB_PROCESS : ℤ) : ℕ → ℤ → Option (List ℤ)
  | 0, i => if i ≤ END then none else some []
  | fuel + 1, i =>
    if i ≤ END then
      (boucleEnfant START END STEP NB_PROCESS fuel (i + NB_PROCESS * STEP)).map
        (fun l => (i - START).tdiv STEP :: l)
    else some []

/-- The slots written by the child process forked at iteration `p` of the loop of line
273, whose loop starts at `i = START + p * STEP`. -/
def indicesEnfant (START END STEP NB_PROCESS : ℤ) (fuel : ℕ) (p : ℤ) : Option (List ℤ) :=
  boucleEnfant START END STEP NB_PROCESS fuel (START + p * STEP)

/-- The generator states inherited by the children created by `n` iterations of the `fork`
loop of `main` (line 273), the generator of the parent being in state `parent`: `fork`
gives the child a copy of the memory of the parent, which itself draws nothing in the
loop. -/
def forkLoop {σ : Type} (parent : σ) : ℕ → List σ
  | 0 => []
  | n + 1 => forkLoop parent n ++ [parent]

/-- The generator state from which each of the `nb` children of `main` starts drawing:
`srand(time(NULL))` is executed once (line 236), before the `fork` loop; `t` is the value
of `time(NULL)` and `srand` the library function, as a map from seeds to states. -/
def etatsEnfants {σ : Type} (srand : ℕ → σ) (t : ℕ) (nb : ℕ) : List σ :=
  forkLoop (srand t) nb

/-- The `n`-th value returned by `rand()` in a process whose generator is in state `g`,
`rand` being the library function as a map from a state to a value and the next state. -/
def tirage {σ : Type} (rand : σ → ℕ × σ) : σ → ℕ → ℕ
  | g, 0 => (rand g).1
  | g, n + 1 => tirage rand (rand g).2 n

/-- The constant `#define NB_PROCESS 64`. -/
def NB_PROCESS : ℕ := 64

end UR3

/-! Slotted packet-level simulator (`sim.c`): embedding.

* `uint32_t` values are naturals; an operation that can leave the range `0 .. 2^32 - 1` is
  reduced modulo `2^32`.  The counters `urllc_o`, `embb_o` and `embb_q_leave` start at `0`
  and grow by at most one per iteration of a loop of `params.S < 2^32` iterations, and the
  increments of `urllc_e` and `embb_q` are guarded by `< params.G` and `< params.max_q` :
  these additions are written without reduction.  `uint8_t cycles` is reduced modulo `256`.
* the array `servers` is a list of packets; the linked queue `q` (a head cell followed by
  the waiting packets) is the list of the `time` fields of the waiting packets, first in
  first.
* a division by zero and a read through a null `q->next` end the program: the functions
  return `none`.
-/

namespace Sim

/-- The enumeration `p_type`. -/
inductive p_type where
  | NONE
  | URLLC
  | EMBB
deriving DecidableEq, Repr

/-- The record `sim_params`. -/
structure sim_params where
  mu_e : ℕ
  mu_u : ℕ
  S : ℕ
  G : ℕ
  max_q : ℕ
  sn_u : ℕ
  sn_e : ℕ
deriving DecidableEq, Repr

/-- The record `packet`. -/
structure packet where
  type : p_type
  cycles : ℕ
deriving DecidableEq, Repr

/-- The record `res_sim` of `sim.c`. -/
structure res_sim where
  urllc_lost : ℕ
  embb_lost : ℕ
  urllc_transmited : ℕ
  embb_transmited : ℕ
  embb_leaving_q : ℕ
  total_wait : ℕ
deriving DecidableEq, Repr

/-- The arrays `in_state[3]`, `out_state[3]`, `state[3]` : URLLC in treatment, eMBB in
treatment, eMBB in queue. -/
structure Etat3 where
  s0 : ℕ
  s1 : ℕ
  s2 : ℕ
deriving DecidableEq, Repr

/-- The function `urllc_arrival` (lines 88-90). -/
def urllc_arrival (time sn_u : ℕ) : ℕ :=
  (sn_u / 10 + (if time % 10 = 0 then sn_u % 10 else 0)) % 2 ^ 32

/-- The function `embb_arrival` (lines 92-94). -/
def embb_arrival (time sn_e : ℕ) : ℕ :=
  (sn_e / 10 + (if time % 10 = 0 then sn_e % 10 else 0)) % 2 ^ 32

/-- The local variables of `transition` (lines 114-124) and the content of the queue. -/
structure Locaux where
  urllc_a : ℕ
  urllc_e : ℕ
  urllc_o : ℕ
  embb_a : ℕ
  embb_e : ℕ
  embb_o : ℕ
  embb_q : ℕ
  embb_q_leave : ℕ
  embb_q_time : ℕ
  q : List ℕ
deriving DecidableEq, Repr

/-- The body of the `for` loop of `transition` (lines 127-174) for the server `s` :
the new locals and the new content of `servers[i]`. -/
def serveur (params : sim_params) (v : Locaux) (s : packet) : Option (Locaux × packet) :=
  match s.type with
  | p_type.URLLC =>
    if params.mu_u = 0 then none
    else if (s.cycles + 1) % 256 ≥ 10000 / params.mu_u then
      some ({ v with urllc_o := v.urllc_o + 1 }, { type := p_type.NONE, cycles := 0 })
    else some (v, { type := p_type.URLLC, cycles := (s.cycles + 1) % 256 })
  | p_type.EMBB =>
    if params.mu_e = 0 then none
    else if (s.cycles + 1) % 256 ≥ 10000 / params.mu_e then
      some ({ v with embb_o := v.embb_o + 1 }, { type := p_type.NONE, cycles := 0 })
    else some (v, { type := p_type.EMBB, cycles := (s.cycles + 1) % 256 })
  | p_type.NONE =>
    if v.urllc_e < params.G ∧ v.urllc_a > 0 then
      some ({ v with urllc_a := v.urllc_a - 1, urllc_e := v.urllc_e + 1 },
        { type := p_type.URLLC, cycles := 0 })
    else if v.embb_q > 0 then
      match v.q with
      | [] => none
      | old :: suite =>
        some ({ v with embb_q := v.embb_q - 1, embb_e := (v.embb_e + 1) % 2 ^ 32,
                       embb_q_leave := v.embb_q_leave + 1,
                       embb_q_time := (v.embb_q_time + old) % 2 ^ 32, q := suite },
          { type := p_type.EMBB, cycles := 0 })
    else if v.embb_a > 0 then
      some ({ v with embb_a := v.embb_a - 1, embb_e := (v.embb_e + 1) % 2 ^ 32 },
        { type := p_type.EMBB, cycles := 0 })
    else some (v, s)

/-- The `for` loop of `transition` over the servers (lines 126-175), on the servers that
remain to be visited. -/
def boucleServeurs (params : sim_params) : Locaux → List packet → Option (Locaux × List packet)
  | v, [] => some (v, [])
  | v, s :: reste =>
    match serveur params v s with
    | none => none
    | some (v', s') =>
      match boucleServeurs params v' reste with
      | none => none
      | some (v'', reste') => some (v'', s' :: reste')

/-- The `while (embb_a > 0 && embb_q < params.max_q)` loop of lines 189-196: returns the
final `embb_a`, `embb_q` and queue. -/
def remplir (max_q : ℕ) : ℕ → ℕ → List ℕ → ℕ × ℕ × List ℕ
  | 0, embb_q, q => (0, embb_q, q)
  | embb_a + 1, embb_q, q =>
    if embb_q < max_q then remplir max_q embb_a (embb_q + 1) (q ++ [0])
    else (embb_a + 1, embb_q, q)

/-- The subtraction of two `uint32_t`. -/
def sub32 (a b : ℕ) : ℕ :=
  (a + 2 ^ 32 - b) % 2 ^ 32

/-- What a call of `transition` leaves: the array `servers`, the queue, `out_state` and
`*res`. -/
structure Sortie where
  servers : List packet
  q : List ℕ
  out_state : Etat3
  res : res_sim
deriving DecidableEq, Repr

/-- The function `transition` of `sim.c` (lines 113-208).  The loop `i < params.S` visits
the first `params.S` cells of `servers`. -/
def transition (time : ℕ) (params : sim_params) (servers : List packet) (q : List ℕ)
    (in_state : Etat3) : Option Sortie :=
  match boucleServeurs params
      { urllc_a := urllc_arrival time params.sn_u, urllc_e := in_state.s0, urllc_o := 0,
        embb_a := embb_arrival time params.sn_e, embb_e := in_state.s1, embb_o := 0,
        embb_q := in_state.s2, embb_q_leave := 0, embb_q_time := 0, q := q }
      (servers.take params.S) with
  | none => none
  | some (v, srv) =>
    let r := remplir params.max_q v.embb_a v.embb_q (v.q.map (fun t => (t + 1) % 2 ^ 32))
    some { servers := srv ++ servers.drop params.S
           q := r.2.2
           out_state := { s0 := sub32 v.urllc_e v.urllc_o, s1 := sub32 v.embb_e v.embb_o,
                          s2 := r.2.1 }
           res := { urllc_lost := v.urllc_a, embb_lost := r.1, urllc_transmited := v.urllc_o,
                    embb_transmited := v.embb_o, embb_leaving_q := v.embb_q_leave,
                    total_wait := v.embb_q_time } }

/-- The variables of `simulation` that live across iterations of its loop. -/
structure SimVars where
  servers : List packet
  q : List ℕ
  state : Etat3
  sim_results : res_sim
deriving DecidableEq, Repr

/-- The body of the loop of `simulation` (lines 231-246) at time `time`. -/
def simulationCorps (params : sim_params) (time : ℕ) (σ : SimVars) : Option SimVars :=
  match transition time params σ.servers σ.q σ.state with
  | none => none
  | some out =>
    some { servers := out.servers
           q := out.q
           state := out.out_state
           sim_results :=
             { embb_leaving_q :=
                 (σ.sim_results.embb_leaving_q + out.res.embb_leaving_q) % 2 ^ 32
               embb_lost := (σ.sim_results.embb_lost + out.res.embb_lost) % 2 ^ 32
               embb_transmited :=
                 (σ.sim_results.embb_transmited + out.res.embb_transmited) % 2 ^ 32
               urllc_lost := (σ.sim_results.urllc_lost + out.res.urllc_lost) % 2 ^ 32
               urllc_transmited :=
                 (σ.sim_results.urllc_transmited + out.res.urllc_transmited) % 2 ^ 32
               total_wait := (σ.sim_results.total_wait + out.res.total_wait) % 2 ^ 32 } }

/-- The variables of `simulation` after `k` iterations of its loop (times `0 .. k-1`).
`servers0` and `q0` are the contents of the two blocks returned by `malloc` (lines
227-228), which the function does not initialise. -/
def simulationAfter (params : sim_params) (servers0 : List packet) (q0 : List ℕ) :
    ℕ → Option SimVars
  | 0 => some { servers := servers0, q := q0, state := { s0 := 0, s1 := 0, s2 := 0 },
                sim_results := { urllc_lost := 0, embb_lost := 0, urllc_transmited := 0,
                                 embb_transmited := 0, embb_leaving_q := 0, total_wait := 0 } }
  | k + 1 =>
    match simulationAfter params servers0 q0 k with
    | none => none
    | some σ => simulationCorps params k σ

/-- The function `simulation` of `sim.c` (lines 224-249): the final `*sim_results`. -/
def simulation (sim_duration : ℕ) (params : sim_params) (servers0 : List packet)
    (q0 : List ℕ) : Option res_sim :=
  (simulationAfter params servers0 q0 sim_duration).map (fun σ => σ.sim_results)

/-- Number of servers whose type is `URLLC`. -/
def nbUrllc (servers : List packet) : ℕ :=
  servers.countP (fun s => s.type = p_type.URLLC)

/-- Number of positions at which the server was empty before and holds an eMBB packet
after. -/
def nbNouveauxEmbb : List packet → List packet → ℕ
  | a :: avant, b :: apres =>
    (if a.type = p_type.NONE ∧ b.type = p_type.EMBB then 1 else 0) + nbNouveauxEmbb avant apres
  | _, _ => 0

/-- A small parameter set for example runs: two servers, one of them open to URLLC, a
queue of one place, 20 URLLC UEs and 31 eMBB UEs. -/
def paramsExemple : sim_params :=
  { mu_e := 1000, mu_u := 5000, S := 2, G := 1, max_q := 1, sn_u := 20, sn_e := 31 }

end Sim

/-! `UR3.c` with the special values of C `double`.

The embedding of namespace `UR3` reads a `double` as an element of an ordered field, where
every value is finite.  In the program a draw `(double)rand() / RAND_MAX` can be `0`, and
`log(0)` is `-inf`: the holding time is then `+inf`, and `0 * inf` and `inf - inf` are NaN.
This second embedding follows the same source lines with a `double` read as a finite value,
`+inf`, `-inf` or NaN.

* arithmetic on finite values is exact (no rounding, no overflow to an infinity), as in
  namespace `UR3`; the results involving an infinity or a NaN are those of IEEE 754.
* the sign of a zero is not represented: a zero divisor counts as `+0`.
* a comparison with a NaN operand is false.
* `logPos x` is the value returned by `log` of `<math.h>` at a finite `x > 0`; `log(0)` is
  `-inf` and `log` of a negative value is NaN.
* the draws `(double)rand() / RAND_MAX` are finite: the stream is `rnd : ℕ → K`.
* C `int` values, the record `res_sim`, the locals of `simu` and the fuel of the loops are
  as in namespace `UR3`.
-/

namespace UR3IEEE

/-- A value of type `double` : finite, `+inf`, `-inf` or NaN. -/
inductive Dbl (K : Type) where
  | fin (x : K)
  | pinf
  | ninf
  | nan

variable {K : Type} [LinearOrderedField K]

/-- Unary minus on `double`. -/
def Dbl.neg : Dbl K → Dbl K
  | Dbl.fin x => Dbl.fin (-x)
  | Dbl.pinf => Dbl.ninf
  | Dbl.ninf => Dbl.pinf
  | Dbl.nan => Dbl.nan

/-- Addition on `double` : `inf + (-inf)` is NaN, a NaN operand gives NaN. -/
def Dbl.add : Dbl K → Dbl K → Dbl K
  | Dbl.fin x, Dbl.fin y => Dbl.fin (x + y)
  | Dbl.fin _, Dbl.pinf => Dbl.pinf
  | Dbl.fin _, Dbl.ninf => Dbl.ninf
  | Dbl.fin _, Dbl.nan => Dbl.nan
  | Dbl.pinf, Dbl.fin _ => Dbl.pinf
  | Dbl.pinf, Dbl.pinf => Dbl.pinf
  | Dbl.pinf, Dbl.ninf => Dbl.nan
  | Dbl.pinf, Dbl.nan => Dbl.nan
  | Dbl.ninf, Dbl.fin _ => Dbl.ninf
  | Dbl.ninf, Dbl.pinf => Dbl.nan
  | Dbl.ninf, Dbl.ninf => Dbl.ninf
  | Dbl.ninf, Dbl.nan => Dbl.nan
  | Dbl.nan, _ => Dbl.nan

/-- Subtraction on `double` : `a - b` is `a + (-b)`, so `inf - inf` is NaN. -/
def Dbl.sub (a b : Dbl K) : Dbl K :=
  a.add b.neg

/-- Multiplication on `double` : `0 * inf` is NaN, a NaN operand gives NaN, otherwise the
product with an infinity is the infinity of the product of the signs. -/
def Dbl.mul : Dbl K → Dbl K → Dbl K
  | Dbl.fin x, Dbl.fin y => Dbl.fin (x * y)
  | Dbl.fin x, Dbl.pinf => if x = 0 then Dbl.nan else if 0 < x then Dbl.pinf else Dbl.ninf
  | Dbl.fin x, Dbl.ninf => if x = 0 then Dbl.nan else if 0 < x then Dbl.ninf else Dbl.pinf
  | Dbl.fin _, Dbl.nan => Dbl.nan
  | Dbl.pinf, Dbl.fin y => if y = 0 then Dbl.nan else if 0 < y then Dbl.pinf else Dbl.ninf
  | Dbl.pinf, Dbl.pinf => Dbl.pinf
  | Dbl.pinf, Dbl.ninf => Dbl.ninf
  | Dbl.pinf, Dbl.nan => Dbl.nan
  | Dbl.ninf, Dbl.fin y => if y = 0 then Dbl.nan else if 0 < y then Dbl.ninf else Dbl.pinf
  | Dbl.ninf, Dbl.pinf => Dbl.ninf
  | Dbl.ninf, Dbl.ninf => Dbl.pinf
  | Dbl.ninf, Dbl.nan => Dbl.nan
  | Dbl.nan, _ => Dbl.nan

/-- Division on `double` : `0 / 0` and `inf / inf` are NaN, a non-zero finite value divided
by zero is an infinity, a finite value divided by an infinity is zero, a NaN operand gives
NaN. -/
def Dbl.div : Dbl K → Dbl K → Dbl K
  | Dbl.fin x, Dbl.fin y =>
    if y = 0 then (if x = 0 then Dbl.nan else if 0 < x then Dbl.pinf else Dbl.ninf)
    else Dbl.fin (x / y)
  | Dbl.fin _, Dbl.pinf => Dbl.fin 0
  | Dbl.fin _, Dbl.ninf => Dbl.fin 0
  | Dbl.fin _, Dbl.nan => Dbl.nan
  | Dbl.pinf, Dbl.fin y => if 0 ≤ y then Dbl.pinf else Dbl.ninf
  | Dbl.pinf, Dbl.pinf => Dbl.nan
  | Dbl.pinf, Dbl.ninf => Dbl.nan
  | Dbl.pinf, Dbl.nan => Dbl.nan
  | Dbl.ninf, Dbl.fin y => if 0 ≤ y then Dbl.ninf else Dbl.pinf
  | Dbl.ninf, Dbl.pinf => Dbl.nan
  | Dbl.ninf, Dbl.ninf => Dbl.nan
  | Dbl.ninf, Dbl.nan => Dbl.nan
  | Dbl.nan, _ => Dbl.nan

/-- The comparison `a < b` on `double` : false as soon as an operand is NaN. -/
def Dbl.lt : Dbl K → Dbl K → Bool
  | Dbl.fin x, Dbl.fin y => decide (x < y)
  | Dbl.fin _, Dbl.pinf => true
  | Dbl.fin _, Dbl.ninf => false
  | Dbl.fin _, Dbl.nan => false
  | Dbl.pinf, _ => false
  | Dbl.ninf, Dbl.fin _ => true
  | Dbl.ninf, Dbl.pinf => true
  | Dbl.ninf, Dbl.ninf => false
  | Dbl.ninf, Dbl.nan => false
  | Dbl.nan, _ => false

/-- The comparison `a <= b` on `double` : false as soon as an operand is NaN. -/
def Dbl.le : Dbl K → Dbl K → Bool
  | Dbl.fin x, Dbl.fin y => decide (x ≤ y)
  | Dbl.fin _, Dbl.pinf => true
  | Dbl.fin _, Dbl.ninf => false
  | Dbl.fin _, Dbl.nan => false
  | Dbl.pinf, Dbl.fin _ => false
  | Dbl.pinf, Dbl.pinf => true
  | Dbl.pinf, Dbl.ninf => false
  | Dbl.pinf, Dbl.nan => false
  | Dbl.ninf, Dbl.fin _ => true
  | Dbl.ninf, Dbl.pinf => true
  | Dbl.ninf, Dbl.ninf => true
  | Dbl.ninf, Dbl.nan => false
  | Dbl.nan, _ => false

/-- The comparison `a > b` on `double`, that is `b < a`. -/
def Dbl.gt (a b : Dbl K) : Bool :=
  b.lt a

/-- The library function `log` : `logPos` at a finite positive argument, `-inf` at `0`, NaN
at a negative argument, at `-inf` and at NaN, `+inf` at `+inf`. -/
def Dbl.log (logPos : K → K) : Dbl K → Dbl K
  | Dbl.fin x => if x = 0 then Dbl.ninf else if x < 0 then Dbl.nan else Dbl.fin (logPos x)
  | Dbl.pinf => Dbl.pinf
  | Dbl.ninf => Dbl.nan
  | Dbl.nan => Dbl.nan

/-- The conversion of an `int` to `double`. -/
def Dbl.ofInt (n : ℤ) : Dbl K :=
  Dbl.fin (n : K)

/-- The arrays `taux[5]` and `etats[5][3]` after the four `if` blocks of `transition`
(lines 39-89): entry `i` is `(taux[i], etats[i])`, and the length of the list is `count`. -/
def candidats (lambda_e lambda_u mu : Dbl K) (S : ℤ) (G : Dbl K) (x1 x2 x3 : ℤ) :
    List (Dbl K × UR3.Etat) :=
  (if 0 < x1 then [(((Dbl.ofInt 2).mul mu).mul (Dbl.ofInt x1), UR3.Etat.mk (x1 - 1) x2 x3)]
    else []) ++
  ((if 0 < x2 then
      [(mu.mul (Dbl.ofInt x2),
        if (Dbl.ofInt (x1 + x2)).le ((Dbl.ofInt S).sub G) = true ∧ 0 < x3 then
          UR3.Etat.mk x1 x2 (x3 - 1)
        else UR3.Etat.mk x1 (x2 - 1) x3)]
    else []) ++
  ((if x1 + x2 < S then [(lambda_u, UR3.Etat.mk (x1 + 1) x2 x3)] else []) ++
  [(lambda_e,
    if (Dbl.ofInt (x1 + x2)).lt ((Dbl.ofInt S).sub G) = true then UR3.Etat.mk x1 (x2 + 1) x3
    else UR3.Etat.mk x1 x2 (x3 + 1))]))

/-- The loop of lines 91-95: `param_expo = 0.0; for i < count: param_expo += taux[i]`. -/
def param_expo (taux : List (Dbl K)) : Dbl K :=
  taux.foldl (fun acc r => acc.add r) (Dbl.fin 0)

/-- The selection loop of lines 102-110, started at index `i` with the running value
`cumulative_sum`: the result is `some i` when the loop executes `index = i; break`, and
`none` when it runs to the end without assigning `index`. -/
def selection (p u : Dbl K) : List (Dbl K) → Dbl K → ℕ → Option ℕ
  | [], _, _ => none
  | r :: rest, cumulative_sum, i =>
    if u.le (cumulative_sum.add (r.div p)) = true then some i
    else selection p u rest (cumulative_sum.add (r.div p)) (i + 1)

/-- The value of `index` after the selection loop: initialised to `0`, overwritten by the
loop when it breaks. -/
def indexChoisi (taux : List (Dbl K)) (u : Dbl K) : ℕ :=
  (selection (param_expo taux) u taux (Dbl.fin 0) 0).getD 0

/-- The function `transition` of `UR3.c`: returns `(*duree, etat)`.  `U1` and `U2` are the
two values `(double)rand() / RAND_MAX`, in the order in which they are drawn. -/
def transition (logPos : K → K) (lambda_e lambda_u mu : Dbl K) (S : ℤ) (G : Dbl K)
    (x1 x2 x3 : ℤ) (U1 U2 : K) : Dbl K × UR3.Etat :=
  let ev := candidats lambda_e lambda_u mu S G x1 x2 x3
  let taux := ev.map Prod.fst
  let duree := ((Dbl.fin (-1)).div (param_expo taux)).mul (Dbl.log logPos (Dbl.fin U1))
  let index := indexChoisi taux (Dbl.fin U2)
  (duree, (ev.map Prod.snd).getD index (UR3.Etat.mk 0 0 0))

/-- The values of the locals of `simu` on entry to the loop (lines 119-128). -/
def simuInit : UR3.Locals (Dbl K) :=
  { e := UR3.Etat.mk 0 0 0, cumul := Dbl.fin 0, temps_total := Dbl.fin 0, t := Dbl.fin 0,
    wait_avg := Dbl.fin 0, wait_max := Dbl.fin 0, urllc_tot := Dbl.fin 0,
    urllc_max := Dbl.fin 0, embb_tot := Dbl.fin 0 }

/-- One execution of the body of the `while` loop of `simu` (lines 132-156), the call of
`transition` drawing `U1` then `U2`. -/
def simuCorps (logPos : K → K) (lambda_e lambda_u mu : Dbl K) (S : ℤ) (G : Dbl K) (U1 U2 : K)
    (v : UR3.Locals (Dbl K)) : UR3.Locals (Dbl K) :=
  let r := transition logPos lambda_e lambda_u mu S G v.e.x1 v.e.x2 v.e.x3 U1 U2
  let t := r.1
  let e_new := r.2
  { e := e_new
    cumul := if v.e.x1 + v.e.x2 = S then v.cumul.add t else v.cumul
    temps_total := v.temps_total.add t
    t := t
    wait_avg := v.wait_avg.add ((Dbl.ofInt v.e.x3).mul t)
    wait_max := if v.wait_max.gt (Dbl.ofInt v.e.x3) = true then v.wait_max
      else Dbl.ofInt v.e.x3
    urllc_tot := if e_new.x1 > v.e.x1 then v.urllc_tot.add (Dbl.fin 1) else v.urllc_tot
    urllc_max := if (Dbl.ofInt e_new.x1).gt v.urllc_max = true then Dbl.ofInt e_new.x1
      else v.urllc_max
    embb_tot := if e_new.x2 > v.e.x2 then v.embb_tot.add (Dbl.fin 1) else v.embb_tot }

/-- The `while (temps_total < horizon)` loop of `simu`, entered for the `k`-th time with
locals `v`; `fuel` bounds the number of iterations, `none` means the bound was reached
with the guard still true. -/
def simuLoop (logPos : K → K) (lambda_e lambda_u mu : Dbl K) (S : ℤ) (G : Dbl K)
    (horizon : Dbl K) (rnd : ℕ → K) : ℕ → ℕ → UR3.Locals (Dbl K) → Option (UR3.Locals (Dbl K))
  | 0, _, v => if v.temps_total.lt horizon = true then none else some v
  | fuel + 1, k, v =>
    if v.temps_total.lt horizon = true then
      simuLoop logPos lambda_e lambda_u mu S G horizon rnd fuel (k + 1)
        (simuCorps logPos lambda_e lambda_u mu S G (rnd (2 * k)) (rnd (2 * k + 1)) v)
    else some v

/-- The code of `simu` after its loop (lines 159-169). -/
def simuFin (S : ℤ) (horizon : Dbl K) (v : UR3.Locals (Dbl K)) : UR3.res_sim (Dbl K) :=
  let cumul :=
    if v.e.x1 + v.e.x2 = S then v.cumul.add (v.t.sub (v.temps_total.sub horizon)) else v.cumul
  { loss := cumul.div horizon
    wait_avg := v.wait_avg.div horizon
    wait_max := v.wait_max
    urllc_tot := v.urllc_tot
    urllc_max := v.urllc_max
    embb_tot := v.embb_tot }

/-- The function `simu` of `UR3.c`, its loop bounded by `fuel` iterations. -/
def simu (logPos : K → K) (lambda_e lambda_u mu : Dbl K) (S : ℤ) (G : Dbl K) (NbIter : Dbl K)
    (rnd : ℕ → K) (fuel : ℕ) : Option (UR3.res_sim (Dbl K)) :=
  let horizon := NbIter.div (lambda_e.add lambda_u)
  (simuLoop logPos lambda_e lambda_u mu S G horizon rnd fuel 0 simuInit).map (simuFin S horizon)

/-- The six `res_mean->f += res.f` of lines 206-211. -/
def ajoute (a r : UR3.res_sim (Dbl K)) : UR3.res_sim (Dbl K) :=
  { loss := a.loss.add r.loss
    wait_avg := a.wait_avg.add r.wait_avg
    wait_max := a.wait_max.add r.wait_max
    urllc_tot := a.urllc_tot.add r.urllc_tot
    urllc_max := a.urllc_max.add r.urllc_max
    embb_tot := a.embb_tot.add r.embb_tot }

/-- The six `res_mean->f /= (double)NB_SIM` of lines 214-219, for a divisor `n`. -/
def divise (a : UR3.res_sim (Dbl K)) (n : Dbl K) : UR3.res_sim (Dbl K) :=
  { loss := a.loss.div n
    wait_avg := a.wait_avg.div n
    wait_max := a.wait_max.div n
    urllc_tot := a.urllc_tot.div n
    urllc_max := a.urllc_max.div n
    embb_tot := a.embb_tot.div n }

/-- The value of `*res_mean` after `n` iterations of the `for` loop of lines 202-212,
started from the zeroed record of line 200; `appel i` is the result written by the `i`-th
call of `simu` (`none` when that call does not return). -/
def boucleSimulations (appel : ℕ → Option (UR3.res_sim (Dbl K))) :
    ℕ → Option (UR3.res_sim (Dbl K))
  | 0 => some { loss := Dbl.fin 0, wait_avg := Dbl.fin 0, wait_max := Dbl.fin 0,
                urllc_tot := Dbl.fin 0, urllc_max := Dbl.fin 0, embb_tot := Dbl.fin 0 }
  | n + 1 =>
    match boucleSimulations appel n with
    | none => none
    | some acc =>
      match appel n with
      | none => none
      | some r => some (ajoute acc r)

/-- One iteration of the `while` loop of `valeur_canaux_garde_1` for the candidate `G`
(lines 200-219): `nb_sim` calls of `simu`, accumulated then divided by `nb_sim`, where
`nb_sim` stands for the macro `NB_SIM`.  The `i`-th call made for candidate `G` reads its
draws from the stream `rnd G i` and its loop is bounded by `fuelSimu`. -/
def evalueCandidat (logPos : K → K) (lambda_e lambda_u mu : Dbl K) (S : ℤ) (NbIter : Dbl K)
    (nb_sim : ℕ) (rnd : ℤ → ℕ → ℕ → K) (fuelSimu : ℕ) (G : ℤ) :
    Option (UR3.res_sim (Dbl K)) :=
  (boucleSimulations
    (fun i => simu logPos lambda_e lambda_u mu S (Dbl.ofInt G) NbIter (rnd G i) fuelSimu)
    nb_sim).map
    (fun acc => divise acc (Dbl.fin (nb_sim : K)))

/-- The `while (a > seuil)` loop of `valeur_canaux_garde_1` (lines 197-222), entered with
the current values of `G`, `a` and `*res_mean`; `fuel` bounds the number of iterations,
`none` means that the loop has not ended within the bound (or that a call of `simu` has
not returned). -/
def gardeLoop (logPos : K → K) (lambda_e lambda_u mu : Dbl K) (S : ℤ) (NbIter seuil : Dbl K)
    (nb_sim : ℕ) (rnd : ℤ → ℕ → ℕ → K) (fuelSimu : ℕ) :
    ℕ → ℤ → Dbl K → UR3.res_sim (Dbl K) → Option (ℤ × UR3.res_sim (Dbl K))
  | 0, G, a, res_mean => if a.gt seuil = true then none else some (G, res_mean)
  | fuel + 1, G, a, res_mean =>
    if a.gt seuil = true then
      match evalueCandidat logPos lambda_e lambda_u mu S NbIter nb_sim rnd fuelSimu (G + 1) with
      | none => none
      | some m =>
        gardeLoop logPos lambda_e lambda_u mu S NbIter seuil nb_sim rnd fuelSimu fuel (G + 1)
          m.loss m
    else some (G, res_mean)

/-- The function `valeur_canaux_garde_1` of `UR3.c`: returns the value of `G` and the
final content of `*res_mean` (whose content on entry is `res_mean`).  The macro `NB_SIM`
is the argument `nb_sim`. -/
def valeur_canaux_garde_1 (logPos : K → K) (lambda_e lambda_u mu : Dbl K) (S : ℤ)
    (NbIter seuil : Dbl K) (nb_sim : ℕ) (res_mean : UR3.res_sim (Dbl K))
    (rnd : ℤ → ℕ → ℕ → K) (fuelSimu fuel : ℕ) : Option (ℤ × UR3.res_sim (Dbl K)) :=
  gardeLoop logPos lambda_e lambda_u mu S NbIter seuil nb_sim rnd fuelSimu fuel (-1)
    (Dbl.fin 1) res_mean

/-- Draws of a trajectory whose first value of `rand()` is `0` : `0`, then `1/2`
throughout. -/
def tiragesZero : ℕ → K :=
  fun k => if k = 0 then 0 else 1 / 2

/-- Draws of a run of the guard search in which one call of `simu`, the first one made for
the candidate `0`, starts on the value `0` of `rand()` : that call draws `0` then `1/2`
throughout, every other call draws `1/2` throughout. -/
def tiragesUnZero : ℤ → ℕ → ℕ → K :=
  fun G i k => if G = 0 ∧ i = 0 ∧ k = 0 then 0 else 1 / 2

end UR3IEEE

namespace UR3

variable {K : Type} [LinearOrderedField K]

/-! ## Lemmas on `transition` -/

theorem candidats_ne_nil (lambda_e lambda_u mu : K) (S : ℤ) (G : K) (x1 x2 x3 : ℤ) :
    candidats lambda_e lambda_u mu S G x1 x2 x3 ≠ [] := by
  unfold candidats
  simp

theorem selection_bounds (p u : K) (l : List K) (c : K) (i j : ℕ)
    (h : selection p u l c i = some j) : i ≤ j ∧ j < i + l.length := by
  induction l generalizing c i with
  | nil => simp [selection] at h
  | cons r rest ih =>
    simp only [selection] at h
    split_ifs at h with hu
    · simp at h
      subst h
      simp
    · have := ih _ _ h
      simp only [List.length_cons]
      omega

theorem indexChoisi_lt (taux : List K) (u : K) (hne : taux ≠ []) :
    indexChoisi taux u < taux.length := by
  have hlen : 0 < taux.length := List.length_pos.mpr hne
  unfold indexChoisi
  cases h : selection (param_expo taux) u taux 0 0 with
  | none => simpa using hlen
  | some j =>
    have := selection_bounds _ _ _ _ _ _ h
    simp only [Option.getD_some]
    omega

theorem transition_snd_mem (log : K → K) (lambda_e lambda_u mu : K) (S : ℤ) (G : K)
    (x1 x2 x3 : ℤ) (U1 U2 : K) :
    (transition log lambda_e lambda_u mu S G x1 x2 x3 U1 U2).2 ∈
      (candidats lambda_e lambda_u mu S G x1 x2 x3).map Prod.snd := by
  have hne := candidats_ne_nil lambda_e lambda_u mu S G x1 x2 x3
  have hlt := indexChoisi_lt ((candidats lambda_e lambda_u mu S G x1 x2 x3).map Prod.fst) U2
    (by simpa using hne)
  have hlt2 : indexChoisi ((candidats lambda_e lambda_u mu S G x1 x2 x3).map Prod.fst) U2 <
      ((candidats lambda_e lambda_u mu S G x1 x2 x3).map Prod.snd).length := by
    simpa using hlt
  simp only [transition]
  rw [List.getD_eq_getElem _ _ hlt2]
  exact List.getElem_mem _

theorem candidats_unPas (lambda_e lambda_u mu : K) (S : ℤ) (G : K) (x1 x2 x3 : ℤ)
    (e : Etat) (he : e ∈ (candidats lambda_e lambda_u mu S G x1 x2 x3).map Prod.snd) :
    unPas x1 x2 x3 e := by
  unfold candidats at he
  simp only [List.map_append, List.mem_append, List.map_cons, List.map_nil,
    List.mem_singleton] at he
  unfold unPas
  rcases he with he | he | he | he
  · split_ifs at he <;> simp at he
    subst he; simp
  · split_ifs at he <;> simp at he <;> subst he <;> simp
  · split_ifs at he <;> simp at he
    subst he; simp
  · split_ifs at he <;> subst he <;> simp

/-- C1. For every parameter set, state and pair of draws, the state returned by
`transition` differs from `(x1, x2, x3)` in exactly one coordinate, and that coordinate
moves by exactly one unit; the default index `0` of the selection loop is covered, the
statement holding whatever the loop finds. -/
theorem transition_changes_one_coordinate (log : K → K) (lambda_e lambda_u mu : K) (S : ℤ)
    (G : K) (x1 x2 x3 : ℤ) (U1 U2 : K) :
    unPas x1 x2 x3 (transition log lambda_e lambda_u mu S G x1 x2 x3 U1 U2).2 :=
  candidats_unPas lambda_e lambda_u mu S G x1 x2 x3 _
    (transition_snd_mem log lambda_e lambda_u mu S G x1 x2 x3 U1 U2)

theorem candidats_valide (lambda_e lambda_u mu : K) (S : ℤ) (G : K) (hG0 : 0 ≤ G)
    (x1 x2 x3 : ℤ) (hv : Etat.valide S (Etat.mk x1 x2 x3)) (e : Etat)
    (he : e ∈ (candidats lambda_e lambda_u mu S G x1 x2 x3).map Prod.snd) :
    Etat.valide S e := by
  obtain ⟨h1, h2, h3, h4⟩ := hv
  simp only at h1 h2 h3 h4
  unfold candidats at he
  simp only [List.map_append, List.mem_append, List.map_cons, List.map_nil,
    List.mem_singleton] at he
  unfold Etat.valide
  rcases he with he | he | he | he
  · split_ifs at he <;> simp at he
    subst he
    refine ⟨?_, ?_, ?_, ?_⟩ <;> simp only <;> omega
  · split_ifs at he with ha hb <;> simp at he <;> subst he
    · refine ⟨?_, ?_, ?_, ?_⟩ <;> simp only <;> omega
    · refine ⟨?_, ?_, ?_, ?_⟩ <;> simp only <;> omega
  · split_ifs at he <;> simp at he
    subst he
    refine ⟨?_, ?_, ?_, ?_⟩ <;> simp only <;> omega
  · split_ifs at he with ha <;> subst he
    · have hlt : ((x1 + x2 : ℤ) : K) < ((S : ℤ) : K) := by linarith
      have hlt2 : x1 + x2 < S := Int.cast_lt.mp hlt
      refine ⟨?_, ?_, ?_, ?_⟩ <;> simp only <;> omega
    · refine ⟨?_, ?_, ?_, ?_⟩ <;> simp only <;> omega

theorem simuCorps_e (log : K → K) (lambda_e lambda_u mu : K) (S : ℤ) (G : K) (U1 U2 : K)
    (v : Locals K) :
    (simuCorps log lambda_e lambda_u mu S G U1 U2 v).e =
      (transition log lambda_e lambda_u mu S G v.e.x1 v.e.x2 v.e.x3 U1 U2).2 := rfl

theorem simuCorps_valide (log : K → K) (lambda_e lambda_u mu : K) (S : ℤ) (G : K)
    (hG0 : 0 ≤ G) (U1 U2 : K) (v : Locals K) (hv : Etat.valide S v.e) :
    Etat.valide S (simuCorps log lambda_e lambda_u mu S G U1 U2 v).e := by
  rw [simuCorps_e]
  exact candidats_valide lambda_e lambda_u mu S G hG0 v.e.x1 v.e.x2 v.e.x3 hv _
    (transition_snd_mem log lambda_e lambda_u mu S G v.e.x1 v.e.x2 v.e.x3 U1 U2)

theorem simuSteps_valide (log : K → K) (lambda_e lambda_u mu : K) (S : ℤ) (G : K)
    (hG0 : 0 ≤ G) (horizon : K) (rnd : ℕ → K) (n k : ℕ) (v w : Locals K)
    (hv : Etat.valide S v.e)
    (h : simuSteps log lambda_e lambda_u mu S G horizon rnd n k v = some w) :
    Etat.valide S w.e := by
  induction n generalizing k v with
  | zero =>
    simp only [simuSteps, Option.some.injEq] at h
    subst h
    exact hv
  | succ n ih =>
    simp only [simuSteps] at h
    split_ifs at h with hg
    exact ih _ _ (simuCorps_valide log lambda_e lambda_u mu S G hG0 _ _ v hv) h

/-- C2. With `0 ≤ G ≤ S`, `transition` maps a valid state (non-negative counters,
`x1 + x2 ≤ S`) to a valid state for any draws, and every state visited by `simu` from
`(0,0,0)` is valid. -/
theorem transition_preserves_validity (log : K → K) (lambda_e lambda_u mu : K) (S : ℤ)
    (G : K) (hG0 : 0 ≤ G) (hGS : G ≤ (S : K)) (x1 x2 x3 : ℤ)
    (hv : Etat.valide S (Etat.mk x1 x2 x3)) :
    (∀ U1 U2 : K,
      Etat.valide S (transition log lambda_e lambda_u mu S G x1 x2 x3 U1 U2).2) ∧
    (∀ (NbIter : K) (rnd : ℕ → K) (n : ℕ) (v : Locals K),
      simuAfter log lambda_e lambda_u mu S G NbIter rnd n = some v → Etat.valide S v.e) := by
  refine ⟨fun U1 U2 => ?_, fun NbIter rnd n v h => ?_⟩
  · exact candidats_valide lambda_e lambda_u mu S G hG0 x1 x2 x3 hv _
      (transition_snd_mem log lambda_e lambda_u mu S G x1 x2 x3 U1 U2)
  · have hS : (0 : K) ≤ ((S : ℤ) : K) := le_trans hG0 hGS
    have hS0 : (0 : ℤ) ≤ S := Int.cast_nonneg.mp hS
    refine simuSteps_valide log lambda_e lambda_u mu S G hG0 _ rnd n 0 simuInit v ?_ h
    exact ⟨le_refl _, le_refl _, le_refl _, by simpa [simuInit] using hS0⟩

/-- C3. The list of (rate, next state) candidates that `transition` builds is the list of
enabled rows of the specification's transition table, in the table's order. -/
theorem candidats_eq_spec_table (lambda_e lambda_u mu : K) (S : ℤ) (G : K) (x1 x2 x3 : ℤ) :
    candidats lambda_e lambda_u mu S G x1 x2 x3 =
      enabledSpec lambda_e lambda_u mu S G x1 x2 x3 := by
  unfold candidats enabledSpec tableSpec
  have h6 : (((x1 + x2 : ℤ) : K) ≥ (S : K) - G) ↔ ¬ (((x1 + x2 : ℤ) : K) < (S : K) - G) :=
    not_lt.symm
  simp only [List.filter_cons, List.filter_nil, h6, gt_iff_lt]
  by_cases h1 : 0 < x1 <;> by_cases h2 : 0 < x2 <;> by_cases h3 : x1 + x2 < S <;>
    by_cases h4 : ((x1 + x2 : ℤ) : K) < (S : K) - G <;>
    by_cases h5 : ((x1 + x2 : ℤ) : K) ≤ (S : K) - G ∧ 0 < x3 <;>
    simp only [h1, h2, h3, h4, h5, if_true, if_false, decide_True, decide_False, true_and,
      Bool.false_eq_true, reduceIte,
      false_and, not_true_eq_false, not_false_eq_true, List.map_cons, List.map_nil,
      List.cons_append, List.nil_append, List.append_nil]

theorem foldl_add_eq_sum (l : List K) (a : K) :
    l.foldl (fun acc r => acc + r) a = a + l.sum := by
  induction l generalizing a with
  | nil => simp
  | cons r rest ih =>
    simp only [List.foldl_cons, List.sum_cons, ih]
    ring

theorem param_expo_eq_sum (l : List K) : param_expo l = l.sum := by
  unfold param_expo
  rw [foldl_add_eq_sum, zero_add]

theorem param_expo_candidats (lambda_e lambda_u mu : K) (S : ℤ) (G : K) (x1 x2 x3 : ℤ) :
    param_expo ((candidats lambda_e lambda_u mu S G x1 x2 x3).map Prod.fst) =
      (if 0 < x1 then 2 * mu * (x1 : K) else 0) + (if 0 < x2 then mu * (x2 : K) else 0) +
        (if x1 + x2 < S then lambda_u else 0) + lambda_e := by
  rw [param_expo_eq_sum]
  unfold candidats
  split_ifs <;> simp <;> ring

theorem param_expo_candidats_spec (lambda_e lambda_u mu : K) (S : ℤ) (G : K) (x1 x2 x3 : ℤ)
    (hx1 : 0 ≤ x1) (hx2 : 0 ≤ x2) :
    param_expo ((candidats lambda_e lambda_u mu S G x1 x2 x3).map Prod.fst) =
      totalRateSpec lambda_e lambda_u mu S x1 x2 := by
  rw [param_expo_candidats]
  unfold totalRateSpec
  have e1 : (if 0 < x1 then 2 * mu * (x1 : K) else 0) = 2 * mu * (x1 : K) := by
    split_ifs with h
    · rfl
    · have : x1 = 0 := by omega
      subst this
      simp
  have e2 : (if 0 < x2 then mu * (x2 : K) else 0) = mu * (x2 : K) := by
    split_ifs with h
    · rfl
    · have : x2 = 0 := by omega
      subst this
      simp
  rw [e1, e2]

theorem transition_duree (log : K → K) (lambda_e lambda_u mu : K) (S : ℤ) (G : K)
    (x1 x2 x3 : ℤ) (U1 U2 : K) :
    (transition log lambda_e lambda_u mu S G x1 x2 x3 U1 U2).1 =
      -log U1 / param_expo ((candidats lambda_e lambda_u mu S G x1 x2 x3).map Prod.fst) := by
  simp only [transition]
  rw [div_mul_eq_mul_div, neg_one_mul]

theorem param_expo_candidats_pos (lambda_e lambda_u mu : K) (S : ℤ) (G : K) (hS : 1 ≤ S)
    (hlu : 0 < lambda_u) (hmu : 0 < mu) (hle : 0 ≤ lambda_e) (x1 x2 x3 : ℤ)
    (hv : Etat.valide S (Etat.mk x1 x2 x3)) :
    0 < param_expo ((candidats lambda_e lambda_u mu S G x1 x2 x3).map Prod.fst) := by
  obtain ⟨h1, h2, _, h4⟩ := hv
  simp only at h1 h2 h4
  rw [param_expo_candidats_spec lambda_e lambda_u mu S G x1 x2 x3 h1 h2]
  unfold totalRateSpec
  have c1 : (0 : K) ≤ (x1 : K) := Int.cast_nonneg.mpr h1
  have c2 : (0 : K) ≤ (x2 : K) := Int.cast_nonneg.mpr h2
  have a1 : 0 ≤ 2 * mu * (x1 : K) := by positivity
  have a2 : 0 ≤ mu * (x2 : K) := by positivity
  split_ifs with h
  · linarith
  · have hfull : x1 + x2 = S := by omega
    have hone : (1 : K) ≤ (x1 : K) + (x2 : K) := by
      have : (1 : ℤ) ≤ x1 + x2 := by omega
      exact_mod_cast this
    nlinarith

/-- C5. For `S ≥ 1`, `0 ≤ G ≤ S`, `lambda_u > 0`, `mu > 0`, `lambda_e ≥ 0` and a valid
state, the rate sum by which `transition` divides is strictly positive, and for `U1` in
`(0,1)` (where the logarithm is negative) the holding time returned is strictly positive;
full states and `lambda_e = 0` are included. -/
theorem total_rate_pos_and_duree_pos (log : K → K)
    (hlog : ∀ u : K, 0 < u → u < 1 → log u < 0) (lambda_e lambda_u mu : K) (S : ℤ) (G : K)
    (hS : 1 ≤ S) (hG0 : 0 ≤ G) (hGS : G ≤ (S : K)) (hlu : 0 < lambda_u) (hmu : 0 < mu)
    (hle : 0 ≤ lambda_e) (x1 x2 x3 : ℤ) (hv : Etat.valide S (Etat.mk x1 x2 x3))
    (U1 U2 : K) (hU0 : 0 < U1) (hU1 : U1 < 1) :
    0 < param_expo ((candidats lambda_e lambda_u mu S G x1 x2 x3).map Prod.fst) ∧
      0 < (transition log lambda_e lambda_u mu S G x1 x2 x3 U1 U2).1 := by
  have hp := param_expo_candidats_pos lambda_e lambda_u mu S G hS hlu hmu hle x1 x2 x3 hv
  refine ⟨hp, ?_⟩
  rw [transition_duree]
  exact div_pos (neg_pos.mpr (hlog U1 hU0 hU1)) hp

theorem selection_spec (p u : K) (l : List K) (c : K) (i : ℕ) (hne : l ≠ [])
    (h : u ≤ c + l.sum / p) :
    ∃ k, k < l.length ∧ selection p u l c i = some (i + k) ∧
      u ≤ c + (l.take (k + 1)).sum / p ∧
      ∀ j, j < k → ¬ u ≤ c + (l.take (j + 1)).sum / p := by
  induction l generalizing c i with
  | nil => exact absurd rfl hne
  | cons r rest ih =>
    by_cases hu : u ≤ c + r / p
    · refine ⟨0, by simp, by simp [selection, hu], by simpa using hu, ?_⟩
      intro j hj
      omega
    · have hrest : rest ≠ [] := by
        rintro rfl
        simp at h
        exact hu h
      have h' : u ≤ (c + r / p) + rest.sum / p := by
        rw [List.sum_cons, add_div] at h
        linarith
      obtain ⟨k, hk, hsel, hle, hmin⟩ := ih (c + r / p) (i + 1) hrest h'
      refine ⟨k + 1, by simpa using hk, ?_, ?_, ?_⟩
      · simp only [selection, if_neg hu]
        rw [hsel]
        congr 1
        omega
      · rw [List.take_succ_cons, List.sum_cons, add_div]
        linarith
      · intro j hj
        cases j with
        | zero => simpa using hu
        | succ j =>
          have := hmin j (by omega)
          rw [List.take_succ_cons, List.sum_cons, add_div]
          intro hc
          exact this (by linarith)

/-- C6. In exact arithmetic, at a state with positive rate sum and for `U2` in `(0,1]`,
the selection loop of `transition` finds an index `k` (so the default index is not used),
`k` is the least index whose cumulated rate divided by the rate sum is at least `U2`, and
the state returned is the target `etats[k]` of that event. -/
theorem selection_is_inverse_cdf (log : K → K) (lambda_e lambda_u mu : K) (S : ℤ) (G : K)
    (x1 x2 x3 : ℤ) (U1 U2 : K)
    (hpos : 0 < param_expo ((candidats lambda_e lambda_u mu S G x1 x2 x3).map Prod.fst))
    (hU0 : 0 < U2) (hU1 : U2 ≤ 1) :
    ∃ k, k < (candidats lambda_e lambda_u mu S G x1 x2 x3).length ∧
      selection (param_expo ((candidats lambda_e lambda_u mu S G x1 x2 x3).map Prod.fst)) U2
        ((candidats lambda_e lambda_u mu S G x1 x2 x3).map Prod.fst) 0 0 = some k ∧
      U2 ≤ (((candidats lambda_e lambda_u mu S G x1 x2 x3).map Prod.fst).take (k + 1)).sum /
        param_expo ((candidats lambda_e lambda_u mu S G x1 x2 x3).map Prod.fst) ∧
      (∀ j, j < k →
        ¬ U2 ≤ (((candidats lambda_e lambda_u mu S G x1 x2 x3).map Prod.fst).take (j + 1)).sum /
          param_expo ((candidats lambda_e lambda_u mu S G x1 x2 x3).map Prod.fst)) ∧
      ((candidats lambda_e lambda_u mu S G x1 x2 x3).map Prod.snd)[k]? =
        some (transition log lambda_e lambda_u mu S G x1 x2 x3 U1 U2).2 := by
  have hne : (candidats lambda_e lambda_u mu S G x1 x2 x3).map Prod.fst ≠ [] := by
    simpa using candidats_ne_nil lambda_e lambda_u mu S G x1 x2 x3
  have hone : U2 ≤ 0 + ((candidats lambda_e lambda_u mu S G x1 x2 x3).map Prod.fst).sum /
      param_expo ((candidats lambda_e lambda_u mu S G x1 x2 x3).map Prod.fst) := by
    rw [← param_expo_eq_sum, div_self (ne_of_gt hpos)]
    linarith
  obtain ⟨k, hk, hsel, hle, hmin⟩ := selection_spec _ U2 _ 0 0 hne hone
  simp only [zero_add] at hsel hle hmin
  have hk' : k < (candidats lambda_e lambda_u mu S G x1 x2 x3).length := by simpa using hk
  refine ⟨k, hk', hsel, hle, hmin, ?_⟩
  have hk2 : k < ((candidats lambda_e lambda_u mu S G x1 x2 x3).map Prod.snd).length := by
    simpa using hk'
  simp only [transition, indexChoisi, hsel, Option.getD_some]
  rw [List.getD_eq_getElem _ _ hk2, List.getElem?_eq_getElem hk2]

/-! ## Lemmas on `simu` -/

theorem simuSteps_succ (log : K → K) (lambda_e lambda_u mu : K) (S : ℤ) (G : K) (horizon : K)
    (rnd : ℕ → K) (n k : ℕ) (v : Locals K) :
    simuSteps log lambda_e lambda_u mu S G horizon rnd (n + 1) k v =
      (simuSteps log lambda_e lambda_u mu S G horizon rnd n k v).bind (fun w =>
        if w.temps_total < horizon then
          some (simuCorps log lambda_e lambda_u mu S G (rnd (2 * (k + n)))
            (rnd (2 * (k + n) + 1)) w)
        else none) := by
  induction n generalizing k v with
  | zero => simp [simuSteps]
  | succ n ih =>
    rw [simuSteps]
    split_ifs with hg
    · rw [ih]
      conv_rhs => rw [simuSteps, if_pos hg]
      have : k + 1 + n = k + (n + 1) := by omega
      rw [this]
    · conv_rhs => rw [simuSteps, if_neg hg]
      rfl

theorem simuLoop_some (log : K → K) (lambda_e lambda_u mu : K) (S : ℤ) (G : K) (horizon : K)
    (rnd : ℕ → K) (fuel k : ℕ) (v w : Locals K)
    (h : simuLoop log lambda_e lambda_u mu S G horizon rnd fuel k v = some w) :
    ∃ n, n ≤ fuel ∧ simuSteps log lambda_e lambda_u mu S G horizon rnd n k v = some w ∧
      ¬ w.temps_total < horizon := by
  induction fuel generalizing k v with
  | zero =>
    simp only [simuLoop] at h
    split_ifs at h with hg
    simp only [Option.some.injEq] at h
    subst h
    exact ⟨0, le_refl _, rfl, hg⟩
  | succ fuel ih =>
    simp only [simuLoop] at h
    split_ifs at h with hg
    · obtain ⟨n, hn, hs, hw⟩ := ih _ _ h
      refine ⟨n + 1, by omega, ?_, hw⟩
      simp only [simuSteps, if_pos hg]
      exact hs
    · simp only [Option.some.injEq] at h
      subst h
      exact ⟨0, Nat.zero_le _, rfl, hg⟩

theorem simu_some (log : K → K) (lambda_e lambda_u mu : K) (S : ℤ) (G : K) (NbIter : K)
    (rnd : ℕ → K) (fuel : ℕ) (res : res_sim K)
    (h : simu log lambda_e lambda_u mu S G NbIter rnd fuel = some res) :
    ∃ n v, n ≤ fuel ∧ simuAfter log lambda_e lambda_u mu S G NbIter rnd n = some v ∧
      ¬ v.temps_total < NbIter / (lambda_e + lambda_u) ∧
      res = simuFin S (NbIter / (lambda_e + lambda_u)) v := by
  simp only [simu, Option.map_eq_some'] at h
  obtain ⟨v, hv, hres⟩ := h
  obtain ⟨n, hn, hs, hg⟩ := simuLoop_some log lambda_e lambda_u mu S G _ rnd fuel 0 simuInit v hv
  exact ⟨n, v, hn, hs, hg, hres.symm⟩

theorem simuAfter_succ (log : K → K) (lambda_e lambda_u mu : K) (S : ℤ) (G : K) (NbIter : K)
    (rnd : ℕ → K) (n : ℕ) (v' : Locals K)
    (h : simuAfter log lambda_e lambda_u mu S G NbIter rnd (n + 1) = some v') :
    ∃ v, simuAfter log lambda_e lambda_u mu S G NbIter rnd n = some v ∧
      v.temps_total < NbIter / (lambda_e + lambda_u) ∧
      v' = simuCorps log lambda_e lambda_u mu S G (rnd (2 * n)) (rnd (2 * n + 1)) v := by
  unfold simuAfter at h ⊢
  rw [simuSteps_succ] at h
  cases hs : simuSteps log lambda_e lambda_u mu S G (NbIter / (lambda_e + lambda_u)) rnd n 0
      simuInit with
  | none => simp [hs] at h
  | some v =>
    rw [hs] at h
    simp only [Option.some_bind, zero_add] at h
    split_ifs at h with hg
    simp only [Option.some.injEq] at h
    exact ⟨v, rfl, hg, h.symm⟩

theorem simuAfter_le (log : K → K) (lambda_e lambda_u mu : K) (S : ℤ) (G : K) (NbIter : K)
    (rnd : ℕ → K) (n m : ℕ) (hm : m ≤ n) (v : Locals K)
    (h : simuAfter log lambda_e lambda_u mu S G NbIter rnd n = some v) :
    ∃ w, simuAfter log lambda_e lambda_u mu S G NbIter rnd m = some w := by
  induction n generalizing v with
  | zero =>
    have : m = 0 := by omega
    subst this
    exact ⟨v, h⟩
  | succ n ih =>
    rcases Nat.lt_or_ge m (n + 1) with hlt | hge
    · obtain ⟨v0, hv0, _, _⟩ := simuAfter_succ log lambda_e lambda_u mu S G NbIter rnd n v h
      exact ih (by omega) v0 hv0
    · have : m = n + 1 := by omega
      subst this
      exact ⟨v, h⟩

theorem simuCorps_urllc_max (log : K → K) (lambda_e lambda_u mu : K) (S : ℤ) (G : K)
    (U1 U2 : K) (v : Locals K) :
    (simuCorps log lambda_e lambda_u mu S G U1 U2 v).urllc_max =
      max v.urllc_max ((simuCorps log lambda_e lambda_u mu S G U1 U2 v).e.x1 : K) := by
  simp only [simuCorps]
  split_ifs with h
  · exact (max_eq_right (le_of_lt h)).symm
  · exact (max_eq_left (not_lt.mp h)).symm

theorem simuAfter_urllc_max (log : K → K) (lambda_e lambda_u mu : K) (S : ℤ) (G : K)
    (NbIter : K) (rnd : ℕ → K) (n : ℕ) (v : Locals K)
    (h : simuAfter log lambda_e lambda_u mu S G NbIter rnd n = some v) :
    (∀ m, m ≤ n → ∀ w, simuAfter log lambda_e lambda_u mu S G NbIter rnd m = some w →
      (w.e.x1 : K) ≤ v.urllc_max) ∧
    (∃ m, m ≤ n ∧ ∃ w, simuAfter log lambda_e lambda_u mu S G NbIter rnd m = some w ∧
      (w.e.x1 : K) = v.urllc_max) := by
  induction n generalizing v with
  | zero =>
    have hv : v = simuInit := by
      simp only [simuAfter, simuSteps, Option.some.injEq] at h
      exact h.symm
    subst hv
    constructor
    · intro m hm w hw
      have : m = 0 := by omega
      subst this
      rw [h] at hw
      simp only [Option.some.injEq] at hw
      subst hw
      simp [simuInit]
    · exact ⟨0, le_refl _, simuInit, h, by simp [simuInit]⟩
  | succ n ih =>
    obtain ⟨v0, hv0, _, hv⟩ := simuAfter_succ log lambda_e lambda_u mu S G NbIter rnd n v h
    obtain ⟨hle, m0, hm0, w0, hw0, heq0⟩ := ih v0 hv0
    have hmax := simuCorps_urllc_max log lambda_e lambda_u mu S G (rnd (2 * n))
      (rnd (2 * n + 1)) v0
    rw [← hv] at hmax
    constructor
    · intro m hm w hw
      rcases Nat.lt_or_ge m (n + 1) with hlt | hge
      · have := hle m (by omega) w hw
        rw [hmax]
        exact le_trans this (le_max_left _ _)
      · have : m = n + 1 := by omega
        subst this
        rw [h] at hw
        simp only [Option.some.injEq] at hw
        subst hw
        rw [hmax]
        exact le_max_right _ _
    · rcases le_total v0.urllc_max (v.e.x1 : K) with hc | hc
      · exact ⟨n + 1, le_refl _, v, h, by rw [hmax, max_eq_right hc]⟩
      · exact ⟨m0, by omega, w0, hw0, by rw [hmax, max_eq_left hc, heq0]⟩

theorem simuCorps_urllc_max_arrival (log : K → K) (lambda_e lambda_u mu : K) (S : ℤ) (G : K)
    (U1 U2 : K) (v : Locals K) (hinv : (v.e.x1 : K) ≤ v.urllc_max) :
    (simuCorps log lambda_e lambda_u mu S G U1 U2 v).urllc_max =
      if (simuCorps log lambda_e lambda_u mu S G U1 U2 v).e.x1 > v.e.x1 then
        max v.urllc_max ((simuCorps log lambda_e lambda_u mu S G U1 U2 v).e.x1 : K)
      else v.urllc_max := by
  rw [simuCorps_urllc_max]
  split_ifs with h
  · rfl
  · apply max_eq_left
    have hle : (simuCorps log lambda_e lambda_u mu S G U1 U2 v).e.x1 ≤ v.e.x1 := not_lt.mp h
    have : (((simuCorps log lambda_e lambda_u mu S G U1 U2 v).e.x1 : ℤ) : K) ≤ (v.e.x1 : K) :=
      Int.cast_le.mpr hle
    exact le_trans this hinv

/-- C10. For `0 ≤ G ≤ S` and a trajectory of `simu` that ends (after `n` transitions),
the returned `urllc_max` is the largest `x1` among the states entered by the trajectory
(it bounds all of them and is attained by one); each loop iteration changes it exactly as
an update made only on URLLC arrivals would; and it is at most `S`. -/
theorem urllc_max_is_largest_x1 (log : K → K) (lambda_e lambda_u mu : K) (S : ℤ) (G : K)
    (hG0 : 0 ≤ G) (hGS : G ≤ (S : K)) (NbIter : K) (rnd : ℕ → K) (fuel : ℕ)
    (res : res_sim K) (h : simu log lambda_e lambda_u mu S G NbIter rnd fuel = some res) :
    ∃ n, n ≤ fuel ∧
      (∃ v, simuAfter log lambda_e lambda_u mu S G NbIter rnd n = some v ∧
        ¬ v.temps_total < NbIter / (lambda_e + lambda_u) ∧
        res = simuFin S (NbIter / (lambda_e + lambda_u)) v) ∧
      (∀ m, m ≤ n → ∀ w, simuAfter log lambda_e lambda_u mu S G NbIter rnd m = some w →
        (w.e.x1 : K) ≤ res.urllc_max) ∧
      (∃ m, m ≤ n ∧ ∃ w, simuAfter log lambda_e lambda_u mu S G NbIter rnd m = some w ∧
        (w.e.x1 : K) = res.urllc_max) ∧
      (∀ m, m < n → ∀ w w', simuAfter log lambda_e lambda_u mu S G NbIter rnd m = some w →
        simuAfter log lambda_e lambda_u mu S G NbIter rnd (m + 1) = some w' →
        w'.urllc_max =
          if w'.e.x1 > w.e.x1 then max w.urllc_max (w'.e.x1 : K) else w.urllc_max) ∧
      res.urllc_max ≤ (S : K) := by
  obtain ⟨n, v, hn, hv, hg, hres⟩ := simu_some log lambda_e lambda_u mu S G NbIter rnd fuel res h
  have hmaxeq : res.urllc_max = v.urllc_max := by rw [hres]; rfl
  obtain ⟨hle, m0, hm0, w0, hw0, heq0⟩ :=
    simuAfter_urllc_max log lambda_e lambda_u mu S G NbIter rnd n v hv
  refine ⟨n, hn, ⟨v, hv, hg, hres⟩, ?_, ?_, ?_, ?_⟩
  · rw [hmaxeq]
    exact hle
  · rw [hmaxeq]
    exact ⟨m0, hm0, w0, hw0, heq0⟩
  · intro m _ w w' hw hw'
    obtain ⟨w1, hw1, _, hw1'⟩ := simuAfter_succ log lambda_e lambda_u mu S G NbIter rnd m w' hw'
    rw [hw] at hw1
    simp only [Option.some.injEq] at hw1
    subst hw1
    have hinv := (simuAfter_urllc_max log lambda_e lambda_u mu S G NbIter rnd m w hw).1 m
      (le_refl _) w hw
    rw [hw1']
    exact simuCorps_urllc_max_arrival log lambda_e lambda_u mu S G _ _ w hinv
  · rw [hmaxeq, ← heq0]
    have hS : (0 : K) ≤ ((S : ℤ) : K) := le_trans hG0 hGS
    have hS0 : (0 : ℤ) ≤ S := Int.cast_nonneg.mp hS
    have hval : Etat.valide S w0.e :=
      simuSteps_valide log lambda_e lambda_u mu S G hG0 _ rnd m0 0 simuInit w0
        ⟨le_refl _, le_refl _, le_refl _, by simpa [simuInit] using hS0⟩ hw0
    obtain ⟨_, h2, _, h4⟩ := hval
    have : w0.e.x1 ≤ S := by omega
    exact Int.cast_le.mpr this

/-! ## Concrete runs -/

theorem transition_empty_S1_G0 (log : K → K) (U1 : K) :
    transition log 5 500 1 1 0 0 0 0 U1 (1 / 2) = (-1 / 505 * log U1, Etat.mk 1 0 0) := by
  simp [transition, candidats, indexChoisi, selection, param_expo]
  norm_num

theorem transition_full_S1_G0 (log : K → K) (U1 : K) :
    transition log 5 500 1 1 0 1 0 0 U1 (1 / 2) = (-1 / 7 * log U1, Etat.mk 1 0 1) := by
  simp [transition, candidats, indexChoisi, selection, param_expo]
  norm_num

theorem transition_wait_S1_G1 (log : K → K) (U1 : K) (x3 : ℤ) :
    transition log 5 1 1 1 1 0 0 x3 U1 (1 / 2) = (-1 / 6 * log U1, Etat.mk 0 0 (x3 + 1)) := by
  simp [transition, candidats, indexChoisi, selection, param_expo]
  norm_num

theorem simuCorps_first_S1_G0 (log : K → K) :
    simuCorps log 5 500 1 1 0 (1 / 2) (1 / 2) simuInit =
      { e := Etat.mk 1 0 0, cumul := 0, temps_total := -1 / 505 * log (1 / 2),
        t := -1 / 505 * log (1 / 2), wait_avg := 0, wait_max := 0, urllc_tot := 1,
        urllc_max := 1, embb_tot := 0 } := by
  simp only [simuCorps, simuInit, transition_empty_S1_G0]
  simp

theorem simuCorps_second_S1_G0 (log : K → K) :
    simuCorps log 5 500 1 1 0 (1 / 2) (1 / 2)
        { e := Etat.mk 1 0 0, cumul := 0, temps_total := -1 / 505 * log (1 / 2),
          t := -1 / 505 * log (1 / 2), wait_avg := 0, wait_max := 0, urllc_tot := 1,
          urllc_max := 1, embb_tot := 0 } =
      { e := Etat.mk 1 0 1, cumul := -1 / 7 * log (1 / 2),
        temps_total := -1 / 505 * log (1 / 2) + -1 / 7 * log (1 / 2),
        t := -1 / 7 * log (1 / 2), wait_avg := 0, wait_max := 0, urllc_tot := 1,
        urllc_max := 1, embb_tot := 0 } := by
  simp only [simuCorps, transition_full_S1_G0]
  simp

/-- The run of `simu` with `S = 1`, `G = 0`, `lambda_e = 5`, `lambda_u = 500`, `mu = 1`,
`NbIter = 1` and all draws `1/2` : two transitions, `(0,0,0) → (1,0,0) → (1,0,1)`. -/
theorem simu_run_S1_G0 (log : K → K) (h1 : -1 < log (1 / 2)) (h2 : log (1 / 2) ≤ -(1 / 2)) :
    simu log 5 500 1 1 0 1 (fun _ => 1 / 2) 2 =
      some { loss := (-1 / 7 * log (1 / 2) + (1 / 505 - -1 / 505 * log (1 / 2))) / (1 / 505),
             wait_avg := 0, wait_max := 0, urllc_tot := 1, urllc_max := 1, embb_tot := 0 } := by
  have hh : (1 : K) / (5 + 500) = 1 / 505 := by norm_num
  have g0 : (simuInit : Locals K).temps_total < 1 / 505 := by
    simp only [simuInit]
    norm_num
  have g1 : -1 / 505 * log (1 / 2) < 1 / 505 := by linarith
  have g2 : ¬ (-1 / 505 * log (1 / 2) + -1 / 7 * log (1 / 2) < 1 / 505) := by
    rw [not_lt]
    linarith
  simp only [simu, hh, simuLoop, if_pos g0, simuCorps_first_S1_G0, if_pos g1,
    simuCorps_second_S1_G0, if_neg g2, Option.map_some', simuFin]
  simp
  ring

theorem simuCorps_first_S1_G1 (log : K → K) :
    simuCorps log 5 1 1 1 1 (1 / 2) (1 / 2) simuInit =
      { e := Etat.mk 0 0 1, cumul := 0, temps_total := -1 / 6 * log (1 / 2),
        t := -1 / 6 * log (1 / 2), wait_avg := 0, wait_max := 0, urllc_tot := 0,
        urllc_max := 0, embb_tot := 0 } := by
  simp only [simuCorps, simuInit, transition_wait_S1_G1]
  simp

theorem simuCorps_second_S1_G1 (log : K → K) :
    simuCorps log 5 1 1 1 1 (1 / 2) (1 / 2)
        { e := Etat.mk 0 0 1, cumul := 0, temps_total := -1 / 6 * log (1 / 2),
          t := -1 / 6 * log (1 / 2), wait_avg := 0, wait_max := 0, urllc_tot := 0,
          urllc_max := 0, embb_tot := 0 } =
      { e := Etat.mk 0 0 2, cumul := 0,
        temps_total := -1 / 6 * log (1 / 2) + -1 / 6 * log (1 / 2),
        t := -1 / 6 * log (1 / 2), wait_avg := -1 / 6 * log (1 / 2), wait_max := 1,
        urllc_tot := 0, urllc_max := 0, embb_tot := 0 } := by
  simp only [simuCorps, transition_wait_S1_G1]
  simp

/-- The run of `simu` with `S = 1`, `G = 1`, `lambda_e = 5`, `lambda_u = 1`, `mu = 1`,
`NbIter = 1` and all draws `1/2` : two transitions, `(0,0,0) → (0,0,1) → (0,0,2)`. -/
theorem simu_run_S1_G1 (log : K → K) (h1 : -1 < log (1 / 2)) (h2 : log (1 / 2) ≤ -(1 / 2)) :
    simu log 5 1 1 1 1 1 (fun _ => 1 / 2) 2 =
      some { loss := 0, wait_avg := -1 / 6 * log (1 / 2) / (1 / 6), wait_max := 1,
             urllc_tot := 0, urllc_max := 0, embb_tot := 0 } := by
  have hh : (1 : K) / (5 + 1) = 1 / 6 := by norm_num
  have g0 : (simuInit : Locals K).temps_total < 1 / 6 := by
    simp only [simuInit]
    norm_num
  have g1 : -1 / 6 * log (1 / 2) < 1 / 6 := by linarith
  have g2 : ¬ (-1 / 6 * log (1 / 2) + -1 / 6 * log (1 / 2) < 1 / 6) := by
    rw [not_lt]
    linarith
  simp only [simu, hh, simuLoop, if_pos g0, simuCorps_first_S1_G1, if_pos g1,
    simuCorps_second_S1_G1, if_neg g2, Option.map_some', simuFin]
  simp

/-- The run of `simu` with `S = 1`, `G = 0`, `lambda_e = 5`, `lambda_u = 500`, `mu = 1`,
`NbIter = 1/2` and all draws `1/2` : one transition, `(0,0,0) → (1,0,0)`. -/
theorem simu_run_short_S1_G0 (log : K → K) (h2 : log (1 / 2) ≤ -(1 / 2)) :
    simu log 5 500 1 1 0 (1 / 2) (fun _ => 1 / 2) 1 =
      some { loss := (0 + (-1 / 505 * log (1 / 2) - (-1 / 505 * log (1 / 2) - 1 / 1010))) /
               (1 / 1010),
             wait_avg := 0, wait_max := 0, urllc_tot := 1, urllc_max := 1, embb_tot := 0 } := by
  have hh : (1 : K) / 2 / (5 + 500) = 1 / 1010 := by norm_num
  have g0 : (simuInit : Locals K).temps_total < 1 / 1010 := by
    simp only [simuInit]
    norm_num
  have g1 : ¬ (-1 / 505 * log (1 / 2) < 1 / 1010) := by
    rw [not_lt]
    linarith
  simp only [simu, hh, simuLoop, if_pos g0, simuCorps_first_S1_G0, if_neg g1,
    Option.map_some', simuFin]
  simp

theorem simuAfter_one_S1_G0 (log : K → K) :
    simuAfter log 5 500 1 1 0 1 (fun _ => 1 / 2) 1 =
      some { e := Etat.mk 1 0 0, cumul := 0, temps_total := -1 / 505 * log (1 / 2),
             t := -1 / 505 * log (1 / 2), wait_avg := 0, wait_max := 0, urllc_tot := 1,
             urllc_max := 1, embb_tot := 0 } := by
  have hh : (1 : K) / (5 + 500) = 1 / 505 := by norm_num
  have g0 : (simuInit : Locals K).temps_total < 1 / 505 := by
    simp only [simuInit]
    norm_num
  simp only [simuAfter, hh, simuSteps, if_pos g0, simuCorps_first_S1_G0]

theorem real_log_half_bounds : -1 < Real.log (1 / 2) ∧ Real.log (1 / 2) < -(1 / 2) := by
  have e : Real.log (1 / 2) = -Real.log 2 := by
    rw [one_div, Real.log_inv]
  have a := Real.log_two_gt_d9
  have b := Real.log_two_lt_d9
  rw [e]
  constructor
  · linarith
  · linarith

/-- C7 (evaluation of the code where the claim fails). With `S = 1`, `G = 0`,
`lambda_e = 5`, `lambda_u = 500`, `mu = 1`, `NbIter = 1`, the real logarithm and all draws
equal to `1/2`, the loop of `simu` ends after two transitions and the returned loss is
greater than `1`. -/
theorem simu_loss_exceeds_one :
    ∃ r : res_sim ℝ, simu Real.log 5 500 1 1 0 1 (fun _ => 1 / 2) 2 = some r ∧ 1 < r.loss := by
  obtain ⟨h1, h2⟩ := real_log_half_bounds
  refine ⟨_, simu_run_S1_G0 Real.log h1 (le_of_lt h2), ?_⟩
  simp only
  rw [lt_div_iff₀ (by norm_num : (0 : ℝ) < 1 / 505)]
  linarith

/-- C8 (evaluation of the code where the claim fails). With `S = 1`, `G = 0`,
`lambda_e = 5`, `lambda_u = 500`, `mu = 1`, `NbIter = 1/2`, the real logarithm and all
draws equal to `1/2`, the trajectory has a single segment, whose pre-transition state
`(0,0,0)` is not full, and the returned loss is `1` (the whole horizon) instead of `0`. -/
theorem simu_loss_credits_post_state :
    simuAfter Real.log 5 500 1 1 0 (1 / 2) (fun _ => 1 / 2) 0 = some simuInit ∧
    (simuInit : Locals ℝ).e.x1 + (simuInit : Locals ℝ).e.x2 ≠ 1 ∧
    simuAfter Real.log 5 500 1 1 0 (1 / 2) (fun _ => 1 / 2) 2 = none ∧
    ∃ r : res_sim ℝ,
      simu Real.log 5 500 1 1 0 (1 / 2) (fun _ => 1 / 2) 1 = some r ∧ r.loss = 1 := by
  obtain ⟨h1, h2⟩ := real_log_half_bounds
  have hh : (1 : ℝ) / 2 / (5 + 500) = 1 / 1010 := by norm_num
  have g0 : (simuInit : Locals ℝ).temps_total < 1 / 1010 := by
    simp only [simuInit]
    norm_num
  have g1 : ¬ (-1 / 505 * Real.log (1 / 2) < 1 / 1010) := by
    rw [not_lt]
    linarith
  refine ⟨rfl, by simp [simuInit], ?_, _, simu_run_short_S1_G0 Real.log (le_of_lt h2), ?_⟩
  · simp only [simuAfter, hh, simuSteps, if_pos g0, simuCorps_first_S1_G0, if_neg g1]
  · simp only
    rw [div_eq_one_iff_eq (by norm_num)]
    ring

/-- C9 (evaluation of the code where the claim fails). With `S = 1`, `G = 1`,
`lambda_e = 5`, `lambda_u = 1`, `mu = 1`, `NbIter = 1` (horizon `1/6`), the real logarithm
and all draws equal to `1/2`, the trajectory is `(0,0,0) → (0,0,1) → (0,0,2)`; the final
segment starts with `x3 = 1` and overshoots the horizon, and `wait_avg * horizon` is its
whole holding time, more than the part of it that lies before the horizon. -/
theorem simu_wait_avg_counts_overshoot :
    ∃ r : res_sim ℝ, simu Real.log 5 1 1 1 1 1 (fun _ => 1 / 2) 2 = some r ∧
      r.wait_avg * (1 / 6) = 0 * (-1 / 6 * Real.log (1 / 2)) + 1 * (-1 / 6 * Real.log (1 / 2)) ∧
      0 * (-1 / 6 * Real.log (1 / 2)) +
          1 * (-1 / 6 * Real.log (1 / 2) -
            ((-1 / 6 * Real.log (1 / 2) + -1 / 6 * Real.log (1 / 2)) - 1 / 6)) <
        r.wait_avg * (1 / 6) := by
  obtain ⟨h1, h2⟩ := real_log_half_bounds
  refine ⟨_, simu_run_S1_G1 Real.log h1 (le_of_lt h2), ?_, ?_⟩
  · simp only
    field_simp
    ring
  · simp only
    rw [div_mul_cancel₀ _ (by norm_num : (1 : ℝ) / 6 ≠ 0)]
    linarith

/-! ## Instances of the theorems at concrete inputs -/

theorem transition_preserves_validity_witness :
    (0 : ℚ) ≤ 0 ∧ (0 : ℚ) ≤ ((1 : ℤ) : ℚ) ∧ Etat.valide 1 (Etat.mk 1 0 0) ∧
    Etat.valide 1 (transition (fun u : ℚ => u - 1) 5 500 1 1 0 1 0 0 (1 / 2) (1 / 2)).2 ∧
    ∃ v : Locals ℚ, simuAfter (fun u => u - 1) 5 500 1 1 0 1 (fun _ => 1 / 2) 1 = some v ∧
      Etat.valide 1 v.e :=
  ⟨le_refl _, by norm_num, by decide,
    (transition_preserves_validity (fun u : ℚ => u - 1) 5 500 1 1 0 (le_refl _) (by norm_num)
      1 0 0 (by decide)).1 (1 / 2) (1 / 2),
    _, simuAfter_one_S1_G0 (fun u : ℚ => u - 1),
    (transition_preserves_validity (fun u : ℚ => u - 1) 5 500 1 1 0 (le_refl _) (by norm_num)
      1 0 0 (by decide)).2 1 (fun _ => 1 / 2) 1 _ (simuAfter_one_S1_G0 (fun u : ℚ => u - 1))⟩

theorem total_rate_pos_and_duree_pos_witness :
    (∀ u : ℚ, 0 < u → u < 1 → (fun u : ℚ => u - 1) u < 0) ∧ (1 : ℤ) ≤ 1 ∧ (0 : ℚ) ≤ 0 ∧
    (0 : ℚ) ≤ ((1 : ℤ) : ℚ) ∧ (0 : ℚ) < 500 ∧ (0 : ℚ) < 1 ∧ (0 : ℚ) ≤ 0 ∧
    Etat.valide 1 (Etat.mk 1 0 0) ∧ (0 : ℚ) < 1 / 2 ∧ (1 / 2 : ℚ) < 1 ∧
    (0 < param_expo ((candidats (0 : ℚ) 500 1 1 0 1 0 0).map Prod.fst) ∧
      0 < (transition (fun u : ℚ => u - 1) 0 500 1 1 0 1 0 0 (1 / 2) (1 / 2)).1) :=
  ⟨fun u _ h => by simp only; linarith, by decide, le_refl _, by norm_num, by norm_num,
    by norm_num, le_refl _, by decide, by norm_num, by norm_num,
    total_rate_pos_and_duree_pos (fun u => u - 1) (fun u _ h => by simp only; linarith)
      0 500 1 1 0 (by decide) (le_refl _) (by norm_num) (by norm_num) (by norm_num)
      (le_refl _) 1 0 0 (by decide) (1 / 2) (1 / 2) (by norm_num) (by norm_num)⟩

theorem selection_is_inverse_cdf_witness :
    (0 : ℚ) < param_expo ((candidats (5 : ℚ) 500 1 1 0 1 0 0).map Prod.fst) ∧
    (0 : ℚ) < 1 / 2 ∧ (1 / 2 : ℚ) ≤ 1 ∧
    ∃ k, k < (candidats (5 : ℚ) 500 1 1 0 1 0 0).length ∧
      selection (param_expo ((candidats (5 : ℚ) 500 1 1 0 1 0 0).map Prod.fst)) (1 / 2)
        ((candidats (5 : ℚ) 500 1 1 0 1 0 0).map Prod.fst) 0 0 = some k ∧
      (1 / 2 : ℚ) ≤ (((candidats (5 : ℚ) 500 1 1 0 1 0 0).map Prod.fst).take (k + 1)).sum /
        param_expo ((candidats (5 : ℚ) 500 1 1 0 1 0 0).map Prod.fst) ∧
      (∀ j, j < k →
        ¬ (1 / 2 : ℚ) ≤ (((candidats (5 : ℚ) 500 1 1 0 1 0 0).map Prod.fst).take (j + 1)).sum /
          param_expo ((candidats (5 : ℚ) 500 1 1 0 1 0 0).map Prod.fst)) ∧
      ((candidats (5 : ℚ) 500 1 1 0 1 0 0).map Prod.snd)[k]? =
        some (transition (fun u : ℚ => u - 1) 5 500 1 1 0 1 0 0 (1 / 2) (1 / 2)).2 :=
  ⟨by norm_num [param_expo, candidats], by norm_num, by norm_num,
    selection_is_inverse_cdf (fun u => u - 1) 5 500 1 1 0 1 0 0 (1 / 2) (1 / 2)
      (by norm_num [param_expo, candidats]) (by norm_num) (by norm_num)⟩

theorem urllc_max_is_largest_x1_witness :
    (0 : ℚ) ≤ 0 ∧ (0 : ℚ) ≤ ((1 : ℤ) : ℚ) ∧
    ∃ res : res_sim ℚ,
      simu (fun u => u - 1) 5 500 1 1 0 1 (fun _ => 1 / 2) 2 = some res ∧
      ∃ n, n ≤ 2 ∧
        (∃ v, simuAfter (fun u : ℚ => u - 1) 5 500 1 1 0 1 (fun _ => 1 / 2) n = some v ∧
          ¬ v.temps_total < 1 / (5 + 500) ∧ res = simuFin 1 (1 / (5 + 500)) v) ∧
        (∀ m, m ≤ n → ∀ w,
          simuAfter (fun u : ℚ => u - 1) 5 500 1 1 0 1 (fun _ => 1 / 2) m = some w →
          (w.e.x1 : ℚ) ≤ res.urllc_max) ∧
        (∃ m, m ≤ n ∧ ∃ w,
          simuAfter (fun u : ℚ => u - 1) 5 500 1 1 0 1 (fun _ => 1 / 2) m = some w ∧
          (w.e.x1 : ℚ) = res.urllc_max) ∧
        (∀ m, m < n → ∀ w w',
          simuAfter (fun u : ℚ => u - 1) 5 500 1 1 0 1 (fun _ => 1 / 2) m = some w →
          simuAfter (fun u : ℚ => u - 1) 5 500 1 1 0 1 (fun _ => 1 / 2) (m + 1) = some w' →
          w'.urllc_max =
            if w'.e.x1 > w.e.x1 then max w.urllc_max (w'.e.x1 : ℚ) else w.urllc_max) ∧
        res.urllc_max ≤ ((1 : ℤ) : ℚ) :=
  ⟨le_refl _, by norm_num, _,
    simu_run_S1_G0 (fun u : ℚ => u - 1) (by norm_num) (by norm_num),
    urllc_max_is_largest_x1 (fun u : ℚ => u - 1) 5 500 1 1 0 (le_refl _) (by norm_num) 1
      (fun _ => 1 / 2) 2 _ (simu_run_S1_G0 (fun u : ℚ => u - 1) (by norm_num) (by norm_num))⟩

/-! ## Counters of `simu` -/

theorem candidats_x2_gt (lambda_e lambda_u mu : K) (S : ℤ) (G : K) (x1 x2 x3 : ℤ)
    (e : Etat) (he : e ∈ (candidats lambda_e lambda_u mu S G x1 x2 x3).map Prod.snd)
    (h : x2 < e.x2) :
    e = Etat.mk x1 (x2 + 1) x3 ∧ ((x1 + x2 : ℤ) : K) < (S : K) - G ∧
      (candidats lambda_e lambda_u mu S G x1 x2 x3).getLast? = some (lambda_e, e) := by
  unfold candidats at he ⊢
  simp only [List.map_append, List.mem_append, List.map_cons, List.map_nil,
    List.mem_singleton] at he
  rcases he with he | he | he | he
  · split_ifs at he <;> simp at he
    subst he
    simp only at h
    omega
  · split_ifs at he <;> simp at he <;> subst he <;> simp only at h <;> omega
  · split_ifs at he <;> simp at he
    subst he
    simp only at h
    omega
  · split_ifs at he with hg
    · subst he
      refine ⟨rfl, hg, ?_⟩
      simp only [if_pos hg]
      split_ifs <;> simp
    · subst he
      simp only at h
      omega

theorem simuCorps_embb_tot (log : K → K) (lambda_e lambda_u mu : K) (S : ℤ) (G : K)
    (U1 U2 : K) (v : Locals K) :
    (simuCorps log lambda_e lambda_u mu S G U1 U2 v).embb_tot =
      v.embb_tot +
        if estArriveeEmbbDirecte v.e (simuCorps log lambda_e lambda_u mu S G U1 U2 v).e then 1
        else 0 := by
  have hu := candidats_unPas lambda_e lambda_u mu S G v.e.x1 v.e.x2 v.e.x3 _
    (transition_snd_mem log lambda_e lambda_u mu S G v.e.x1 v.e.x2 v.e.x3 U1 U2)
  rw [simuCorps_e]
  simp only [simuCorps, estArriveeEmbbDirecte, decide_eq_true_eq]
  generalize (transition log lambda_e lambda_u mu S G v.e.x1 v.e.x2 v.e.x3 U1 U2).2 = e at hu
  obtain ⟨a, b, c⟩ := e
  unfold unPas at hu
  simp only at hu
  simp only [Etat.mk.injEq]
  by_cases hb : b > v.e.x2
  · have : a = v.e.x1 ∧ b = v.e.x2 + 1 ∧ c = v.e.x3 := by
      rcases hu with ⟨_, h2, _⟩ | ⟨h1, h2 | h2, h3⟩ | ⟨_, h2, _⟩ <;>
        first | exact ⟨h1, h2, h3⟩ | omega
    rw [if_pos hb, if_pos this]
  · have : ¬ (a = v.e.x1 ∧ b = v.e.x2 + 1 ∧ c = v.e.x3) := by
      rintro ⟨_, h2, _⟩
      omega
    rw [if_neg hb, if_neg this, add_zero]

theorem simuCorps_urllc_tot (log : K → K) (lambda_e lambda_u mu : K) (S : ℤ) (G : K)
    (U1 U2 : K) (v : Locals K) :
    (simuCorps log lambda_e lambda_u mu S G U1 U2 v).urllc_tot =
      v.urllc_tot +
        if estArriveeUrllc v.e (simuCorps log lambda_e lambda_u mu S G U1 U2 v).e then 1
        else 0 := by
  have hu := candidats_unPas lambda_e lambda_u mu S G v.e.x1 v.e.x2 v.e.x3 _
    (transition_snd_mem log lambda_e lambda_u mu S G v.e.x1 v.e.x2 v.e.x3 U1 U2)
  rw [simuCorps_e]
  simp only [simuCorps, estArriveeUrllc, decide_eq_true_eq]
  generalize (transition log lambda_e lambda_u mu S G v.e.x1 v.e.x2 v.e.x3 U1 U2).2 = e at hu
  obtain ⟨a, b, c⟩ := e
  unfold unPas at hu
  simp only at hu
  simp only [Etat.mk.injEq]
  by_cases ha : a > v.e.x1
  · have : a = v.e.x1 + 1 ∧ b = v.e.x2 ∧ c = v.e.x3 := by
      rcases hu with ⟨h1 | h1, h2, h3⟩ | ⟨h1, _, _⟩ | ⟨h1, _, _⟩ <;>
        first | exact ⟨h1, h2, h3⟩ | omega
    rw [if_pos ha, if_pos this]
  · have : ¬ (a = v.e.x1 + 1 ∧ b = v.e.x2 ∧ c = v.e.x3) := by
      rintro ⟨h1, _, _⟩
      omega
    rw [if_neg ha, if_neg this, add_zero]

theorem compteTransitions_succ (p : Etat → Etat → Bool) (log : K → K)
    (lambda_e lambda_u mu : K) (S : ℤ) (G : K) (NbIter : K) (rnd : ℕ → K) (n : ℕ)
    (w w' : Locals K) (hw : simuAfter log lambda_e lambda_u mu S G NbIter rnd n = some w)
    (hw' : simuAfter log lambda_e lambda_u mu S G NbIter rnd (n + 1) = some w') :
    compteTransitions p log lambda_e lambda_u mu S G NbIter rnd (n + 1) =
      compteTransitions p log lambda_e lambda_u mu S G NbIter rnd n +
        if p w.e w'.e then 1 else 0 := by
  rw [compteTransitions, hw, hw']

theorem simuAfter_counters (log : K → K) (lambda_e lambda_u mu : K) (S : ℤ) (G : K)
    (NbIter : K) (rnd : ℕ → K) (n : ℕ) (v : Locals K)
    (h : simuAfter log lambda_e lambda_u mu S G NbIter rnd n = some v) :
    v.embb_tot =
        (compteTransitions estArriveeEmbbDirecte log lambda_e lambda_u mu S G NbIter rnd n : K) ∧
      v.urllc_tot =
        (compteTransitions estArriveeUrllc log lambda_e lambda_u mu S G NbIter rnd n : K) := by
  induction n generalizing v with
  | zero =>
    simp only [simuAfter, simuSteps, Option.some.injEq] at h
    subst h
    simp [simuInit, compteTransitions]
  | succ n ih =>
    obtain ⟨v0, hv0, _, hv⟩ := simuAfter_succ log lambda_e lambda_u mu S G NbIter rnd n v h
    obtain ⟨ih1, ih2⟩ := ih v0 hv0
    rw [compteTransitions_succ _ log lambda_e lambda_u mu S G NbIter rnd n v0 v hv0 h,
      compteTransitions_succ _ log lambda_e lambda_u mu S G NbIter rnd n v0 v hv0 h]
    constructor
    · rw [hv, simuCorps_embb_tot, ih1]
      split_ifs <;> simp
    · rw [hv, simuCorps_urllc_tot, ih2]
      split_ifs <;> simp

/-- C11. For a trajectory of `simu` that ends (after `n` transitions), `embb_tot` is the
number of transitions whose effect is `x2 += 1` and `urllc_tot` the number of transitions
whose effect is `x1 += 1`; a transition with effect `x2 += 1` is the selected direct eMBB
arrival (its guard `x1 + x2 < S - G` holds and it is the last candidate), so arrivals
routed to `x3` and promotions `x3 -= 1` are not counted. -/
theorem embb_tot_counts_direct_arrivals (log : K → K) (lambda_e lambda_u mu : K) (S : ℤ)
    (G : K) (NbIter : K) (rnd : ℕ → K) (fuel : ℕ) (res : res_sim K)
    (h : simu log lambda_e lambda_u mu S G NbIter rnd fuel = some res) :
    ∃ n, n ≤ fuel ∧
      (∃ v, simuAfter log lambda_e lambda_u mu S G NbIter rnd n = some v ∧
        ¬ v.temps_total < NbIter / (lambda_e + lambda_u) ∧
        res = simuFin S (NbIter / (lambda_e + lambda_u)) v) ∧
      res.embb_tot =
        (compteTransitions estArriveeEmbbDirecte log lambda_e lambda_u mu S G NbIter rnd n : K) ∧
      res.urllc_tot =
        (compteTransitions estArriveeUrllc log lambda_e lambda_u mu S G NbIter rnd n : K) ∧
      (∀ m, m < n → ∀ w w', simuAfter log lambda_e lambda_u mu S G NbIter rnd m = some w →
        simuAfter log lambda_e lambda_u mu S G NbIter rnd (m + 1) = some w' →
        estArriveeEmbbDirecte w.e w'.e = true →
        ((w.e.x1 + w.e.x2 : ℤ) : K) < (S : K) - G ∧
          (candidats lambda_e lambda_u mu S G w.e.x1 w.e.x2 w.e.x3).getLast? =
            some (lambda_e, w'.e)) := by
  obtain ⟨n, v, hn, hv, hg, hres⟩ := simu_some log lambda_e lambda_u mu S G NbIter rnd fuel res h
  obtain ⟨h1, h2⟩ := simuAfter_counters log lambda_e lambda_u mu S G NbIter rnd n v hv
  refine ⟨n, hn, ⟨v, hv, hg, hres⟩, ?_, ?_, ?_⟩
  · rw [hres]
    exact h1
  · rw [hres]
    exact h2
  · intro m _ w w' hw hw' hp
    obtain ⟨w1, hw1, _, hw1'⟩ := simuAfter_succ log lambda_e lambda_u mu S G NbIter rnd m w' hw'
    rw [hw] at hw1
    simp only [Option.some.injEq] at hw1
    subst hw1
    have hmem := transition_snd_mem log lambda_e lambda_u mu S G w.e.x1 w.e.x2 w.e.x3
      (rnd (2 * m)) (rnd (2 * m + 1))
    rw [← simuCorps_e, ← hw1'] at hmem
    simp only [estArriveeEmbbDirecte, decide_eq_true_eq] at hp
    have hgt : w.e.x2 < w'.e.x2 := by
      rw [hp]
      simp
    exact (candidats_x2_gt lambda_e lambda_u mu S G w.e.x1 w.e.x2 w.e.x3 w'.e hmem hgt).2

/-! ## Enabled events and the guard -/

/-- C18 (amended: `S ≥ 1`). For `S ≥ 1`, `0 ≤ G ≤ S` and a valid state, `transition`
enumerates at least 2 and at most 4 candidates, and exactly one of the two eMBB-arrival
targets (`x2 += 1` or `x3 += 1`) is among them. -/
theorem candidats_between_two_and_four (lambda_e lambda_u mu : K) (S : ℤ) (G : K)
    (hS : 1 ≤ S) (hG0 : 0 ≤ G) (hGS : G ≤ (S : K)) (x1 x2 x3 : ℤ)
    (hv : Etat.valide S (Etat.mk x1 x2 x3)) :
    2 ≤ (candidats lambda_e lambda_u mu S G x1 x2 x3).length ∧
    (candidats lambda_e lambda_u mu S G x1 x2 x3).length ≤ 4 ∧
    ((Etat.mk x1 (x2 + 1) x3 ∈ (candidats lambda_e lambda_u mu S G x1 x2 x3).map Prod.snd ∧
        Etat.mk x1 x2 (x3 + 1) ∉ (candidats lambda_e lambda_u mu S G x1 x2 x3).map Prod.snd) ∨
      (Etat.mk x1 (x2 + 1) x3 ∉ (candidats lambda_e lambda_u mu S G x1 x2 x3).map Prod.snd ∧
        Etat.mk x1 x2 (x3 + 1) ∈ (candidats lambda_e lambda_u mu S G x1 x2 x3).map Prod.snd)) := by
  obtain ⟨h1, h2, h3, h4⟩ := hv
  simp only at h1 h2 h3 h4
  unfold candidats
  refine ⟨?_, ?_, ?_⟩
  · simp only [List.length_append, List.length_singleton]
    by_cases a : 0 < x1
    · rw [if_pos a]
      simp only [List.length_singleton]
      omega
    · by_cases b : 0 < x2
      · rw [if_pos b]
        simp only [List.length_singleton]
        omega
      · have c : x1 + x2 < S := by omega
        rw [if_pos c]
        simp only [List.length_singleton]
        omega
  · split_ifs <;> simp
  · by_cases hg : ((x1 + x2 : ℤ) : K) < (S : K) - G
    · left
      simp only [if_pos hg, List.map_append, List.mem_append, List.map_cons, List.map_nil,
        List.mem_singleton]
      constructor
      · right; right; right; trivial
      · split_ifs <;> simp <;> omega
    · right
      simp only [if_neg hg, List.map_append, List.mem_append, List.map_cons, List.map_nil,
        List.mem_singleton]
      constructor
      · split_ifs <;> simp <;> omega
      · right; right; right; trivial

/-- C18 (the claim as stated fails). With `S = 0`, `G = 0` and the valid state `(0,0,0)`
the only candidate is the blocked eMBB arrival: fewer than 2 events are enabled. -/
theorem candidats_single_at_S0 :
    (0 : ℚ) ≤ 0 ∧ (0 : ℚ) ≤ ((0 : ℤ) : ℚ) ∧ Etat.valide 0 (Etat.mk 0 0 0) ∧
    candidats (5 : ℚ) 500 1 0 0 0 0 0 = [(5, Etat.mk 0 0 1)] ∧
    ¬ 2 ≤ (candidats (5 : ℚ) 500 1 0 0 0 0 0).length := by
  refine ⟨le_refl _, by norm_num, by decide, ?_, ?_⟩ <;> simp [candidats]

theorem candidats_nonneg (lambda_e lambda_u mu : K) (S : ℤ) (G : K) (x1 x2 x3 : ℤ)
    (h1 : 0 ≤ x1) (h2 : 0 ≤ x2) (h3 : 0 ≤ x3) (e : Etat)
    (he : e ∈ (candidats lambda_e lambda_u mu S G x1 x2 x3).map Prod.snd) :
    0 ≤ e.x1 ∧ 0 ≤ e.x2 ∧ 0 ≤ e.x3 := by
  unfold candidats at he
  simp only [List.map_append, List.mem_append, List.map_cons, List.map_nil,
    List.mem_singleton] at he
  rcases he with he | he | he | he
  · split_ifs at he <;> simp at he
    subst he
    refine ⟨?_, ?_, ?_⟩ <;> simp only <;> omega
  · split_ifs at he with ha hb <;> simp at he <;> subst he <;>
      refine ⟨?_, ?_, ?_⟩ <;> simp only <;> omega
  · split_ifs at he <;> simp at he
    subst he
    refine ⟨?_, ?_, ?_⟩ <;> simp only <;> omega
  · split_ifs at he with ha <;> subst he <;> refine ⟨?_, ?_, ?_⟩ <;> simp only <;> omega

theorem simuCorps_nonneg (log : K → K) (lambda_e lambda_u mu : K) (S : ℤ) (G : K)
    (U1 U2 : K) (v : Locals K) (h : 0 ≤ v.e.x1 ∧ 0 ≤ v.e.x2 ∧ 0 ≤ v.e.x3) :
    0 ≤ (simuCorps log lambda_e lambda_u mu S G U1 U2 v).e.x1 ∧
      0 ≤ (simuCorps log lambda_e lambda_u mu S G U1 U2 v).e.x2 ∧
      0 ≤ (simuCorps log lambda_e lambda_u mu S G U1 U2 v).e.x3 := by
  rw [simuCorps_e]
  exact candidats_nonneg lambda_e lambda_u mu S G v.e.x1 v.e.x2 v.e.x3 h.1 h.2.1 h.2.2 _
    (transition_snd_mem log lambda_e lambda_u mu S G v.e.x1 v.e.x2 v.e.x3 U1 U2)

theorem candidats_guard_ge_S (lambda_e lambda_u mu : K) (S : ℤ) (G : K) (hG : (S : K) ≤ G)
    (x1 x2 x3 : ℤ) (h1 : 0 ≤ x1) (h2 : 0 ≤ x2) :
    candidats lambda_e lambda_u mu S G x1 x2 x3 =
      candidats lambda_e lambda_u mu S (S : K) x1 x2 x3 := by
  have c1 : (0 : K) ≤ ((x1 + x2 : ℤ) : K) := Int.cast_nonneg.mpr (by omega)
  have a1 : ¬ (((x1 + x2 : ℤ) : K) < (S : K) - G) := by
    rw [not_lt]
    linarith
  have a2 : ¬ (((x1 + x2 : ℤ) : K) < (S : K) - (S : K)) := by
    rw [not_lt]
    linarith
  unfold candidats
  rw [if_neg a1, if_neg a2]
  by_cases hx2 : 0 < x2
  · have c2 : (1 : K) ≤ ((x1 + x2 : ℤ) : K) := by
      have : (1 : ℤ) ≤ x1 + x2 := by omega
      exact_mod_cast this
    have b1 : ¬ (((x1 + x2 : ℤ) : K) ≤ (S : K) - G ∧ 0 < x3) := by
      rintro ⟨h, _⟩
      linarith
    have b2 : ¬ (((x1 + x2 : ℤ) : K) ≤ (S : K) - (S : K) ∧ 0 < x3) := by
      rintro ⟨h, _⟩
      linarith
    rw [if_neg b1, if_neg b2]
  · simp only [if_neg hx2]

theorem transition_guard_ge_S (log : K → K) (lambda_e lambda_u mu : K) (S : ℤ) (G : K)
    (hG : (S : K) ≤ G) (x1 x2 x3 : ℤ) (h1 : 0 ≤ x1) (h2 : 0 ≤ x2) (U1 U2 : K) :
    transition log lambda_e lambda_u mu S G x1 x2 x3 U1 U2 =
      transition log lambda_e lambda_u mu S (S : K) x1 x2 x3 U1 U2 := by
  simp only [transition, candidats_guard_ge_S lambda_e lambda_u mu S G hG x1 x2 x3 h1 h2]

theorem simuCorps_guard_ge_S (log : K → K) (lambda_e lambda_u mu : K) (S : ℤ) (G : K)
    (hG : (S : K) ≤ G) (U1 U2 : K) (v : Locals K) (h1 : 0 ≤ v.e.x1) (h2 : 0 ≤ v.e.x2) :
    simuCorps log lambda_e lambda_u mu S G U1 U2 v =
      simuCorps log lambda_e lambda_u mu S (S : K) U1 U2 v := by
  simp only [simuCorps,
    transition_guard_ge_S log lambda_e lambda_u mu S G hG v.e.x1 v.e.x2 v.e.x3 h1 h2]

theorem simuLoop_guard_ge_S (log : K → K) (lambda_e lambda_u mu : K) (S : ℤ) (G : K)
    (hG : (S : K) ≤ G) (horizon : K) (rnd : ℕ → K) (fuel k : ℕ) (v : Locals K)
    (h : 0 ≤ v.e.x1 ∧ 0 ≤ v.e.x2 ∧ 0 ≤ v.e.x3) :
    simuLoop log lambda_e lambda_u mu S G horizon rnd fuel k v =
      simuLoop log lambda_e lambda_u mu S (S : K) horizon rnd fuel k v := by
  induction fuel generalizing k v with
  | zero => simp only [simuLoop]
  | succ fuel ih =>
    simp only [simuLoop]
    split_ifs with hg
    · rw [simuCorps_guard_ge_S log lambda_e lambda_u mu S G hG _ _ v h.1 h.2.1]
      exact ih _ _ (simuCorps_nonneg log lambda_e lambda_u mu S (S : K) _ _ v h)
    · rfl

/-- C20. For `G ≥ S` and a state with `x1, x2 ≥ 0`, `transition` called with `G` returns
the same holding time and the same next state as called with `G = S`, for every pair of
draws; hence `simu` run with a guard `G ≥ S` returns, on the same draws, exactly what it
returns with `G = S`: later candidates of the guard search re-run the same model. -/
theorem guard_beyond_S_changes_nothing (log : K → K) (lambda_e lambda_u mu : K) (S : ℤ)
    (G : K) (hG : (S : K) ≤ G) (x1 x2 x3 : ℤ) (h1 : 0 ≤ x1) (h2 : 0 ≤ x2) :
    (∀ U1 U2 : K, transition log lambda_e lambda_u mu S G x1 x2 x3 U1 U2 =
      transition log lambda_e lambda_u mu S (S : K) x1 x2 x3 U1 U2) ∧
    (∀ (NbIter : K) (rnd : ℕ → K) (fuel : ℕ),
      simu log lambda_e lambda_u mu S G NbIter rnd fuel =
        simu log lambda_e lambda_u mu S (S : K) NbIter rnd fuel) := by
  refine ⟨fun U1 U2 =>
    transition_guard_ge_S log lambda_e lambda_u mu S G hG x1 x2 x3 h1 h2 U1 U2, ?_⟩
  intro NbIter rnd fuel
  simp only [simu]
  rw [simuLoop_guard_ge_S log lambda_e lambda_u mu S G hG _ rnd fuel 0 simuInit
    ⟨le_refl _, le_refl _, le_refl _⟩]

theorem candidats_x2_le_guard (lambda_e lambda_u mu : K) (S g : ℤ) (x1 x2 x3 : ℤ)
    (h1 : 0 ≤ x1) (h2 : x2 ≤ S - g) (e : Etat)
    (he : e ∈ (candidats lambda_e lambda_u mu S (g : K) x1 x2 x3).map Prod.snd) :
    e.x2 ≤ S - g := by
  unfold candidats at he
  simp only [List.map_append, List.mem_append, List.map_cons, List.map_nil,
    List.mem_singleton] at he
  rcases he with he | he | he | he
  · split_ifs at he <;> simp at he
    subst he
    exact h2
  · split_ifs at he with ha hb <;> simp at he <;> subst he <;> simp only <;> omega
  · split_ifs at he <;> simp at he
    subst he
    exact h2
  · split_ifs at he with ha
    · subst he
      have hlt : ((x1 + x2 : ℤ) : K) < ((S - g : ℤ) : K) := by
        push_cast
        push_cast at ha
        exact ha
      have hlt2 : x1 + x2 < S - g := Int.cast_lt.mp hlt
      simp only
      omega
    · subst he
      exact h2

theorem simuAfter_nonneg (log : K → K) (lambda_e lambda_u mu : K) (S : ℤ) (G : K)
    (NbIter : K) (rnd : ℕ → K) (n : ℕ) (v : Locals K)
    (h : simuAfter log lambda_e lambda_u mu S G NbIter rnd n = some v) :
    0 ≤ v.e.x1 ∧ 0 ≤ v.e.x2 ∧ 0 ≤ v.e.x3 := by
  induction n generalizing v with
  | zero =>
    simp only [simuAfter, simuSteps, Option.some.injEq] at h
    subst h
    exact ⟨le_refl _, le_refl _, le_refl _⟩
  | succ n ih =>
    obtain ⟨v0, hv0, _, hv⟩ := simuAfter_succ log lambda_e lambda_u mu S G NbIter rnd n v h
    rw [hv]
    exact simuCorps_nonneg log lambda_e lambda_u mu S G _ _ v0 (ih v0 hv0)

/-- C19 (amended: the guard is an integer).  For an integer guard `0 ≤ G ≤ S`, every
state visited by `simu` from `(0,0,0)` has `x2 ≤ S - G` : eMBB never occupies a guard
channel.  The URLLC arrival stays enabled whenever `x1 + x2 < S`, whatever `G`, so
`x1 + x2` itself is not bounded by `S - G`. -/
theorem embb_never_in_guard_channel (log : K → K) (lambda_e lambda_u mu : K) (S g : ℤ)
    (hg0 : 0 ≤ g) (hgS : g ≤ S) (NbIter : K) (rnd : ℕ → K) (n : ℕ) (v : Locals K)
    (h : simuAfter log lambda_e lambda_u mu S (g : K) NbIter rnd n = some v) :
    v.e.x2 ≤ S - g ∧
    (∀ x1 x2 x3 : ℤ, x1 + x2 < S →
      (lambda_u, Etat.mk (x1 + 1) x2 x3) ∈ candidats lambda_e lambda_u mu S (g : K) x1 x2 x3) := by
  constructor
  · induction n generalizing v with
    | zero =>
      simp only [simuAfter, simuSteps, Option.some.injEq] at h
      subst h
      simp only [simuInit]
      omega
    | succ n ih =>
      obtain ⟨v0, hv0, _, hv⟩ :=
        simuAfter_succ log lambda_e lambda_u mu S (g : K) NbIter rnd n v h
      have hn := simuAfter_nonneg log lambda_e lambda_u mu S (g : K) NbIter rnd n v0 hv0
      rw [hv, simuCorps_e]
      exact candidats_x2_le_guard lambda_e lambda_u mu S g v0.e.x1 v0.e.x2 v0.e.x3 hn.1
        (ih v0 hv0) _
        (transition_snd_mem log lambda_e lambda_u mu S (g : K) v0.e.x1 v0.e.x2 v0.e.x3 _ _)
  · intro x1 x2 x3 hlt
    unfold candidats
    simp only [if_pos hlt, List.mem_append, List.mem_singleton, List.mem_cons]
    right; right; left; left
    trivial

theorem candidats_degenerate (lambda_e lambda_u mu : K) (S : ℤ) (x1 x3 : ℤ) (h1 : 0 ≤ x1) :
    (∀ e ∈ (candidats lambda_e lambda_u mu S (S : K) x1 0 x3).map Prod.snd,
      e.x2 = 0 ∧ x3 ≤ e.x3) ∧
    Etat.mk x1 (0 + 1) x3 ∉ (candidats lambda_e lambda_u mu S (S : K) x1 0 x3).map Prod.snd ∧
    (candidats lambda_e lambda_u mu S (S : K) x1 0 x3).getLast? =
      some (lambda_e, Etat.mk x1 0 (x3 + 1)) := by
  have c1 : (0 : K) ≤ ((x1 + 0 : ℤ) : K) := Int.cast_nonneg.mpr (by omega)
  have a2 : ¬ (((x1 + 0 : ℤ) : K) < (S : K) - (S : K)) := by
    rw [not_lt]
    linarith
  have hall : ∀ e ∈ (candidats lambda_e lambda_u mu S (S : K) x1 0 x3).map Prod.snd,
      e.x2 = 0 ∧ x3 ≤ e.x3 := by
    intro e he
    unfold candidats at he
    simp only [if_neg a2, lt_self_iff_false, if_false, List.nil_append, List.map_append,
      List.mem_append, List.map_cons, List.map_nil, List.mem_singleton] at he
    rcases he with he | he | he
    · split_ifs at he <;> simp at he
      subst he
      simp
    · split_ifs at he <;> simp at he
      subst he
      simp
    · subst he
      simp
  refine ⟨hall, ?_, ?_⟩
  · intro hmem
    have := (hall _ hmem).1
    simp at this
  · unfold candidats
    simp only [if_neg a2, lt_self_iff_false, if_false, List.nil_append]
    split_ifs <;> simp

/-- C17. With `G = S` (and `S ≥ 0`), for every sequence of draws: every state visited by
`simu` from `(0,0,0)` has `x2 = 0` and `embb_tot` stays `0`; at every visited state the
direct eMBB arrival is not among the candidates and the eMBB arrival candidate is the one
that increments `x3`; `x3` never decreases from a state to the next; the returned
`embb_tot` is `0`. -/
theorem degenerate_guard_only_queues (log : K → K) (lambda_e lambda_u mu : K) (S : ℤ)
    (hS : 0 ≤ S) (NbIter : K) (rnd : ℕ → K) :
    (∀ n v, simuAfter log lambda_e lambda_u mu S (S : K) NbIter rnd n = some v →
      v.e.x2 = 0 ∧ v.embb_tot = 0 ∧
      Etat.mk v.e.x1 (v.e.x2 + 1) v.e.x3 ∉
        (candidats lambda_e lambda_u mu S (S : K) v.e.x1 v.e.x2 v.e.x3).map Prod.snd ∧
      (candidats lambda_e lambda_u mu S (S : K) v.e.x1 v.e.x2 v.e.x3).getLast? =
        some (lambda_e, Etat.mk v.e.x1 v.e.x2 (v.e.x3 + 1))) ∧
    (∀ n v v', simuAfter log lambda_e lambda_u mu S (S : K) NbIter rnd n = some v →
      simuAfter log lambda_e lambda_u mu S (S : K) NbIter rnd (n + 1) = some v' →
      v.e.x3 ≤ v'.e.x3) ∧
    (∀ fuel res, simu log lambda_e lambda_u mu S (S : K) NbIter rnd fuel = some res →
      res.embb_tot = 0) := by
  have hinv : ∀ n v, simuAfter log lambda_e lambda_u mu S (S : K) NbIter rnd n = some v →
      v.e.x2 = 0 ∧ v.embb_tot = 0 := by
    intro n
    induction n with
    | zero =>
      intro v h
      simp only [simuAfter, simuSteps, Option.some.injEq] at h
      subst h
      simp [simuInit]
    | succ n ih =>
      intro v h
      obtain ⟨v0, hv0, _, hv⟩ :=
        simuAfter_succ log lambda_e lambda_u mu S (S : K) NbIter rnd n v h
      obtain ⟨i1, i2⟩ := ih v0 hv0
      have hn := simuAfter_nonneg log lambda_e lambda_u mu S (S : K) NbIter rnd n v0 hv0
      have hmem := transition_snd_mem log lambda_e lambda_u mu S (S : K) v0.e.x1 v0.e.x2
        v0.e.x3 (rnd (2 * n)) (rnd (2 * n + 1))
      rw [← simuCorps_e, ← hv, i1] at hmem
      have hx2 := ((candidats_degenerate lambda_e lambda_u mu S v0.e.x1 v0.e.x3 hn.1).1 _
        hmem).1
      refine ⟨hx2, ?_⟩
      rw [hv, simuCorps_embb_tot, ← hv, i2]
      simp only [estArriveeEmbbDirecte, decide_eq_true_eq]
      rw [if_neg, add_zero]
      intro heq
      rw [heq] at hx2
      simp only at hx2
      omega
  refine ⟨?_, ?_, ?_⟩
  · intro n v h
    obtain ⟨i1, i2⟩ := hinv n v h
    have hn := simuAfter_nonneg log lambda_e lambda_u mu S (S : K) NbIter rnd n v h
    have hd := candidats_degenerate lambda_e lambda_u mu S v.e.x1 v.e.x3 hn.1
    rw [i1]
    exact ⟨rfl, i2, hd.2.1, hd.2.2⟩
  · intro n v v' h h'
    obtain ⟨v0, hv0, _, hv⟩ :=
      simuAfter_succ log lambda_e lambda_u mu S (S : K) NbIter rnd n v' h'
    rw [h] at hv0
    simp only [Option.some.injEq] at hv0
    subst hv0
    obtain ⟨i1, _⟩ := hinv n v h
    have hn := simuAfter_nonneg log lambda_e lambda_u mu S (S : K) NbIter rnd n v h
    have hmem := transition_snd_mem log lambda_e lambda_u mu S (S : K) v.e.x1 v.e.x2
      v.e.x3 (rnd (2 * n)) (rnd (2 * n + 1))
    rw [← simuCorps_e, ← hv, i1] at hmem
    exact ((candidats_degenerate lambda_e lambda_u mu S v.e.x1 v.e.x3 hn.1).1 _ hmem).2
  · intro fuel res h
    obtain ⟨n, v, _, hv, _, hres⟩ :=
      simu_some log lambda_e lambda_u mu S (S : K) NbIter rnd fuel res h
    rw [hres]
    exact (hinv n v hv).2

/-! ## URLLC-only system -/

theorem selection_le (p u : K) (l : List K) (c : K) (i j : ℕ) (hj : j < l.length)
    (h : u ≤ c + (l.take (j + 1)).sum / p) :
    ∃ k, k ≤ j ∧ selection p u l c i = some (i + k) := by
  induction l generalizing c i j with
  | nil => simp at hj
  | cons r rest ih =>
    by_cases hu : u ≤ c + r / p
    · exact ⟨0, Nat.zero_le _, by simp [selection, hu]⟩
    · cases j with
      | zero =>
        exfalso
        apply hu
        simpa using h
      | succ j =>
        have hj' : j < rest.length := by simpa using hj
        have h' : u ≤ (c + r / p) + (rest.take (j + 1)).sum / p := by
          rw [List.take_succ_cons, List.sum_cons, add_div] at h
          linarith
        obtain ⟨k, hk, hsel⟩ := ih (c + r / p) (i + 1) j hj' h'
        refine ⟨k + 1, by omega, ?_⟩
        simp only [selection, if_neg hu]
        rw [hsel]
        congr 1
        omega

theorem transition_zero_rate_last (log : K → K) (D : List (K × Etat)) (dernier : Etat)
    (hD : D ≠ []) (hp : 0 < param_expo ((D ++ [((0 : K), dernier)]).map Prod.fst))
    (u : K) (hu : u ≤ 1) (d : Etat) :
    ((D ++ [((0 : K), dernier)]).map Prod.snd).getD
        (indexChoisi ((D ++ [((0 : K), dernier)]).map Prod.fst) u) d ∈ D.map Prod.snd := by
  have hlen : 0 < D.length := List.length_pos.mpr hD
  have hsum : (D.map Prod.fst).sum =
      param_expo ((D ++ [((0 : K), dernier)]).map Prod.fst) := by
    rw [param_expo_eq_sum]
    simp
  have htake : ((D ++ [((0 : K), dernier)]).map Prod.fst).take (D.length - 1 + 1) =
      D.map Prod.fst := by
    have : D.length - 1 + 1 = (D.map Prod.fst).length := by
      simp only [List.length_map]
      omega
    rw [this, List.map_append, List.take_left]
  have hj : D.length - 1 < ((D ++ [((0 : K), dernier)]).map Prod.fst).length := by
    simp only [List.length_map, List.length_append, List.length_singleton]
    omega
  have hle : u ≤ 0 + (((D ++ [((0 : K), dernier)]).map Prod.fst).take (D.length - 1 + 1)).sum /
      param_expo ((D ++ [((0 : K), dernier)]).map Prod.fst) := by
    rw [htake, hsum, div_self (ne_of_gt hp)]
    linarith
  obtain ⟨k, hk, hsel⟩ := selection_le _ u _ 0 0 (D.length - 1) hj hle
  have hk' : k < (D.map Prod.snd).length := by
    simp only [List.length_map]
    omega
  simp only [indexChoisi, hsel, Option.getD_some, zero_add]
  rw [List.map_append, List.getD_append _ _ _ _ hk', List.getD_eq_getElem _ _ hk']
  exact List.getElem_mem _

theorem transition_lambda_e_zero (log : K → K) (lambda_u mu : K) (S : ℤ) (G : K) (hS : 1 ≤ S)
    (hlu : 0 < lambda_u) (hmu : 0 < mu) (x1 : ℤ) (h0 : 0 ≤ x1) (hx : x1 ≤ S) (U1 U2 : K)
    (hU : U2 ≤ 1) :
    (transition log 0 lambda_u mu S G x1 0 0 U1 U2).2.x2 = 0 ∧
      (transition log 0 lambda_u mu S G x1 0 0 U1 U2).2.x3 = 0 := by
  obtain ⟨D, dernier, hD, hDne, hDmem⟩ : ∃ (D : List (K × Etat)) (dernier : Etat),
      candidats 0 lambda_u mu S G x1 0 0 = D ++ [((0 : K), dernier)] ∧ D ≠ [] ∧
      ∀ e ∈ D.map Prod.snd, e.x2 = 0 ∧ e.x3 = 0 := by
    refine ⟨(if 0 < x1 then [(2 * mu * (x1 : K), Etat.mk (x1 - 1) 0 0)] else []) ++
      (if x1 + 0 < S then [(lambda_u, Etat.mk (x1 + 1) 0 0)] else []),
      (if ((x1 + 0 : ℤ) : K) < (S : K) - G then Etat.mk x1 (0 + 1) 0 else Etat.mk x1 0 (0 + 1)),
      ?_, ?_, ?_⟩
    · unfold candidats
      simp only [lt_self_iff_false, if_false, List.nil_append, List.append_assoc]
    · by_cases a : 0 < x1
      · simp [a]
      · have c : x1 + 0 < S := by omega
        rw [if_neg a, if_pos c]
        simp
    · intro e he
      simp only [List.map_append, List.mem_append] at he
      rcases he with he | he
      · split_ifs at he <;> simp at he
        subst he
        simp
      · split_ifs at he <;> simp at he
        subst he
        simp
  have hp := param_expo_candidats_pos (0 : K) lambda_u mu S G hS hlu hmu (le_refl _) x1 0 0
    ⟨h0, le_refl _, le_refl _, by simpa using hx⟩
  have hmem : (transition log 0 lambda_u mu S G x1 0 0 U1 U2).2 ∈ D.map Prod.snd := by
    simp only [transition]
    rw [hD] at hp ⊢
    exact transition_zero_rate_last log D dernier hDne hp U2 hU _
  exact hDmem _ hmem

/-- URLLC-only system in exact arithmetic, where every holding time is finite (the reading
of C16 that the program meets as long as no draw is `0` and `NbIter` is not `0`).  With
`lambda_e = 0`, `S ≥ 1`, `0 ≤ G ≤ S`, `lambda_u > 0`, `mu > 0` and every second draw `U2`
in `(0,1)`, every state visited by `simu` from `(0,0,0)` has `x2 = 0` and `x3 = 0` (no
transition is an eMBB arrival, direct or blocked), the running `embb_tot`, `wait_avg` and
`wait_max` stay `0`, and the returned `embb_tot`, `wait_avg` and `wait_max` are `0`.  The
states, `embb_tot` and `wait_max` involve no holding time; for `wait_avg` with an infinite
holding time see namespace `UR3IEEE`. -/
theorem urllc_only_keeps_embb_empty (log : K → K) (lambda_u mu : K) (S : ℤ) (G : K)
    (hS : 1 ≤ S) (hG0 : 0 ≤ G) (hGS : G ≤ (S : K)) (hlu : 0 < lambda_u) (hmu : 0 < mu)
    (NbIter : K) (rnd : ℕ → K) (hrnd : ∀ k, 0 < rnd (2 * k + 1) ∧ rnd (2 * k + 1) < 1) :
    (∀ n v, simuAfter log 0 lambda_u mu S G NbIter rnd n = some v →
      v.e.x2 = 0 ∧ v.e.x3 = 0 ∧ v.embb_tot = 0 ∧ v.wait_avg = 0 ∧ v.wait_max = 0) ∧
    (∀ n v v', simuAfter log 0 lambda_u mu S G NbIter rnd n = some v →
      simuAfter log 0 lambda_u mu S G NbIter rnd (n + 1) = some v' →
      v'.e ≠ Etat.mk v.e.x1 (v.e.x2 + 1) v.e.x3 ∧ v'.e ≠ Etat.mk v.e.x1 v.e.x2 (v.e.x3 + 1)) ∧
    (∀ fuel res, simu log 0 lambda_u mu S G NbIter rnd fuel = some res →
      res.embb_tot = 0 ∧ res.wait_avg = 0 ∧ res.wait_max = 0) := by
  have hS0 : (0 : ℤ) ≤ S := by omega
  have hinv : ∀ n v, simuAfter log 0 lambda_u mu S G NbIter rnd n = some v →
      v.e.x2 = 0 ∧ v.e.x3 = 0 ∧ v.embb_tot = 0 ∧ v.wait_avg = 0 ∧ v.wait_max = 0 := by
    intro n
    induction n with
    | zero =>
      intro v h
      simp only [simuAfter, simuSteps, Option.some.injEq] at h
      subst h
      simp [simuInit]
    | succ n ih =>
      intro v h
      obtain ⟨v0, hv0, _, hv⟩ := simuAfter_succ log 0 lambda_u mu S G NbIter rnd n v h
      obtain ⟨i1, i2, i3, i4, i5⟩ := ih v0 hv0
      have hval : Etat.valide S v0.e :=
        simuSteps_valide log 0 lambda_u mu S G hG0 _ rnd n 0 simuInit v0
          ⟨le_refl _, le_refl _, le_refl _, by simpa [simuInit] using hS0⟩ hv0
      obtain ⟨p1, _, _, p4⟩ := hval
      have ht := transition_lambda_e_zero log lambda_u mu S G hS hlu hmu v0.e.x1 p1
        (by omega) (rnd (2 * n)) (rnd (2 * n + 1)) (le_of_lt (hrnd n).2)
      have hx2 : v.e.x2 = 0 := by
        rw [hv, simuCorps_e, i1, i2]
        exact ht.1
      have hx3 : v.e.x3 = 0 := by
        rw [hv, simuCorps_e, i1, i2]
        exact ht.2
      refine ⟨hx2, hx3, ?_, ?_, ?_⟩
      · rw [hv, simuCorps_embb_tot, ← hv, i3]
        simp only [estArriveeEmbbDirecte, decide_eq_true_eq]
        rw [if_neg, add_zero]
        intro heq
        rw [heq] at hx2
        simp only at hx2
        omega
      · rw [hv]
        simp only [simuCorps, i4, i2]
        simp
      · rw [hv]
        simp only [simuCorps, i5, i2]
        simp
  refine ⟨hinv, ?_, ?_⟩
  · intro n v v' h h'
    obtain ⟨a1, a2, _⟩ := hinv n v h
    obtain ⟨b1, b2, _⟩ := hinv (n + 1) v' h'
    constructor
    · intro heq
      rw [heq] at b1
      simp only at b1
      omega
    · intro heq
      rw [heq] at b2
      simp only at b2
      omega
  · intro fuel res h
    obtain ⟨n, v, _, hv, _, hres⟩ := simu_some log 0 lambda_u mu S G NbIter rnd fuel res h
    obtain ⟨_, _, i3, i4, i5⟩ := hinv n v hv
    rw [hres]
    simp only [simuFin, i3, i4, i5]
    simp

/-! ## Guard search -/

theorem boucleSimulations_some (appel : ℕ → Option (res_sim K)) (n : ℕ) (acc : res_sim K)
    (h : boucleSimulations appel n = some acc) :
    ∃ r : ℕ → res_sim K, (∀ i, i < n → appel i = some (r i)) ∧
      acc.loss = ∑ i in Finset.range n, (r i).loss ∧
      acc.wait_avg = ∑ i in Finset.range n, (r i).wait_avg ∧
      acc.wait_max = ∑ i in Finset.range n, (r i).wait_max ∧
      acc.urllc_tot = ∑ i in Finset.range n, (r i).urllc_tot ∧
      acc.urllc_max = ∑ i in Finset.range n, (r i).urllc_max ∧
      acc.embb_tot = ∑ i in Finset.range n, (r i).embb_tot := by
  induction n generalizing acc with
  | zero =>
    simp only [boucleSimulations, Option.some.injEq] at h
    subst h
    exact ⟨fun _ => ⟨0, 0, 0, 0, 0, 0⟩, fun i hi => absurd hi (Nat.not_lt_zero i), by simp⟩
  | succ n ih =>
    simp only [boucleSimulations] at h
    cases h0 : boucleSimulations appel n with
    | none => simp [h0] at h
    | some acc0 =>
      cases h1 : appel n with
      | none => simp [h0, h1] at h
      | some rn =>
        simp only [h0, h1, Option.some.injEq] at h
        obtain ⟨r, hr, e1, e2, e3, e4, e5, e6⟩ := ih acc0 h0
        refine ⟨fun i => if i < n then r i else rn, ?_, ?_⟩
        · intro i hi
          by_cases hlt : i < n
          · simp only [if_pos hlt]
            exact hr i hlt
          · have : i = n := by omega
            subst this
            simp only [lt_self_iff_false, if_false]
            exact h1
        · have hs : ∀ f : res_sim K → K,
              ∑ i in Finset.range (n + 1), f (if i < n then r i else rn) =
                (∑ i in Finset.range n, f (r i)) + f rn := by
            intro f
            rw [Finset.sum_range_succ]
            congr 1
            · apply Finset.sum_congr rfl
              intro i hi
              rw [if_pos (Finset.mem_range.mp hi)]
            · simp
          subst h
          simp only [res_sim.ajoute, hs, e1, e2, e3, e4, e5, e6]
          simp

theorem evalueCandidat_some (log : K → K) (lambda_e lambda_u mu : K) (S : ℤ) (NbIter : K)
    (nb : ℕ) (rnd : ℤ → ℕ → ℕ → K) (fuelSimu : ℕ) (G : ℤ) (m : res_sim K)
    (h : evalueCandidat log lambda_e lambda_u mu S NbIter nb rnd fuelSimu G = some m) :
    ∃ r : ℕ → res_sim K,
      (∀ i, i < nb →
        simu log lambda_e lambda_u mu S (G : K) NbIter (rnd G i) fuelSimu = some (r i)) ∧
      m = moyenneSpec r nb := by
  simp only [evalueCandidat, Option.map_eq_some'] at h
  obtain ⟨acc, hacc, hm⟩ := h
  obtain ⟨r, hr, e1, e2, e3, e4, e5, e6⟩ := boucleSimulations_some _ nb acc hacc
  refine ⟨r, hr, ?_⟩
  rw [← hm]
  simp only [res_sim.divise, moyenneSpec, e1, e2, e3, e4, e5, e6]

theorem gardeLoop_stop (log : K → K) (lambda_e lambda_u mu : K) (S : ℤ) (NbIter seuil : K)
    (nb : ℕ) (rnd : ℤ → ℕ → ℕ → K) (fuelSimu fuel : ℕ) (G : ℤ) (a : K) (rm : res_sim K)
    (ha : ¬ a > seuil) :
    gardeLoop log lambda_e lambda_u mu S NbIter seuil nb rnd fuelSimu fuel G a rm = some (G,
      rm) := by
  cases fuel <;> simp only [gardeLoop, if_neg ha]

theorem gardeLoop_some (log : K → K) (lambda_e lambda_u mu : K) (S : ℤ) (NbIter seuil : K)
    (nb : ℕ) (rnd : ℤ → ℕ → ℕ → K) (fuelSimu fuel : ℕ) (G : ℤ) (a : K) (rm : res_sim K) (G' : ℤ)
    (m' : res_sim K)
    (h : gardeLoop log lambda_e lambda_u mu S NbIter seuil nb rnd fuelSimu fuel G a rm =
      some (G', m')) :
    (¬ a > seuil ∧ G' = G ∧ m' = rm) ∨
    (a > seuil ∧ G < G' ∧
      evalueCandidat log lambda_e lambda_u mu S NbIter nb rnd fuelSimu G' = some m' ∧
      ¬ m'.loss > seuil ∧
      ∀ g, G < g → g < G' →
        ∃ m, evalueCandidat log lambda_e lambda_u mu S NbIter nb rnd fuelSimu g = some m ∧
          m.loss > seuil) := by
  induction fuel generalizing G a rm with
  | zero =>
    simp only [gardeLoop] at h
    split_ifs at h with ha
    simp only [Option.some.injEq, Prod.mk.injEq] at h
    exact Or.inl ⟨ha, h.1.symm, h.2.symm⟩
  | succ fuel ih =>
    simp only [gardeLoop] at h
    split_ifs at h with ha
    · right
      cases he : evalueCandidat log lambda_e lambda_u mu S NbIter nb rnd fuelSimu (G + 1) with
      | none => simp [he] at h
      | some m =>
        simp only [he] at h
        rcases ih (G + 1) m.loss m h with ⟨hs, hG, hm⟩ | ⟨hs, hG, hev, hle, hall⟩
        · subst hG
          subst hm
          refine ⟨ha, by omega, he, hs, ?_⟩
          intro g h1 h2
          omega
        · refine ⟨ha, by omega, hev, hle, ?_⟩
          intro g h1 h2
          by_cases hg : g = G + 1
          · subst hg
            exact ⟨m, he, hs⟩
          · exact hall g (by omega) h2
    · simp only [Option.some.injEq, Prod.mk.injEq] at h
      exact Or.inl ⟨ha, h.1.symm, h.2.symm⟩

theorem gardeLoop_find (log : K → K) (lambda_e lambda_u mu : K) (S : ℤ) (NbIter seuil : K)
    (nb : ℕ) (rnd : ℤ → ℕ → ℕ → K) (fuelSimu fuel : ℕ) (G : ℤ) (a : K) (rm : res_sim K) (G' : ℤ)
    (m' : res_sim K) (ha : a > seuil) (hG : G < G')
    (hall : ∀ g, G < g → g < G' →
      ∃ m, evalueCandidat log lambda_e lambda_u mu S NbIter nb rnd fuelSimu g = some m ∧
        m.loss > seuil)
    (hev : evalueCandidat log lambda_e lambda_u mu S NbIter nb rnd fuelSimu G' = some m')
    (hle : ¬ m'.loss > seuil) (hfuel : G' - G ≤ fuel) :
    gardeLoop log lambda_e lambda_u mu S NbIter seuil nb rnd fuelSimu fuel G a rm =
      some (G', m') := by
  induction fuel generalizing G a rm with
  | zero =>
    exfalso
    simp only [Nat.cast_zero] at hfuel
    omega
  | succ fuel ih =>
    by_cases hg : G + 1 = G'
    · subst hg
      simp only [gardeLoop, if_pos ha, hev]
      exact gardeLoop_stop log lambda_e lambda_u mu S NbIter seuil nb rnd fuelSimu fuel _ _ _ hle
    · obtain ⟨m, he, hm⟩ := hall (G + 1) (by omega) (by omega)
      simp only [gardeLoop, if_pos ha, he]
      apply ih (G + 1) m.loss m hm (by omega)
      · intro g h1 h2
        exact hall g (by omega) h2
      · push_cast at hfuel
        omega

/-- Guard search in exact arithmetic, where every averaged loss is a number (the reading of
C12 that the program meets as long as no trajectory returns a NaN).  For `seuil < 1` and
a run of `valeur_canaux_garde_1` that returns `G` with the accumulator `m` : `G ≥ 0`; `m`
is the field-wise arithmetic mean of the `NB_SIM` results of the calls of `simu` made for
`G`, and of nothing else; `m.loss ≤ seuil`; every candidate `0 ≤ G' < G` was evaluated
with averaged loss `> seuil`; and when the averaged loss of candidate `0` is `≤ seuil`,
the function returns `0` with that average after one iteration.  For a NaN average, which
also ends the loop, see namespace `UR3IEEE`. -/
theorem guard_search_returns_first_candidate (log : K → K) (lambda_e lambda_u mu : K)
    (S : ℤ) (NbIter seuil : K) (res_mean : res_sim K) (rnd : ℤ → ℕ → ℕ → K)
    (fuelSimu fuel : ℕ) (G : ℤ) (m : res_sim K) (hseuil : seuil < 1)
    (h : valeur_canaux_garde_1 log lambda_e lambda_u mu S NbIter seuil NB_SIM res_mean rnd fuelSimu
      fuel = some (G, m)) :
    0 ≤ G ∧
    (∃ r : ℕ → res_sim K,
      (∀ i, i < NB_SIM →
        simu log lambda_e lambda_u mu S (G : K) NbIter (rnd G i) fuelSimu = some (r i)) ∧
      m = moyenneSpec r NB_SIM) ∧
    m.loss ≤ seuil ∧
    (∀ g, 0 ≤ g → g < G →
      ∃ m', evalueCandidat log lambda_e lambda_u mu S NbIter NB_SIM rnd fuelSimu g = some m' ∧
        m'.loss > seuil) ∧
    (∀ m0, evalueCandidat log lambda_e lambda_u mu S NbIter NB_SIM rnd fuelSimu 0 = some m0 →
      m0.loss ≤ seuil →
      G = 0 ∧ m = m0 ∧
        valeur_canaux_garde_1 log lambda_e lambda_u mu S NbIter seuil NB_SIM res_mean rnd
          fuelSimu 1 =
          some (0, m0)) := by
  have h1 : (1 : K) > seuil := hseuil
  unfold valeur_canaux_garde_1 at h
  rcases gardeLoop_some log lambda_e lambda_u mu S NbIter seuil NB_SIM rnd fuelSimu fuel (-1) 1
    res_mean G m h with ⟨hs, _, _⟩ | ⟨_, hG, hev, hle, hall⟩
  · exact absurd h1 hs
  · refine ⟨by omega, evalueCandidat_some log lambda_e lambda_u mu S NbIter NB_SIM rnd fuelSimu
    G m hev,
      not_lt.mp hle, fun g hg0 hgG => hall g (by omega) hgG, ?_⟩
    intro m0 hm0 hle0
    have hG0 : G = 0 := by
      by_contra hne
      obtain ⟨m', hm', hgt⟩ := hall 0 (by omega) (by omega)
      rw [hm0] at hm'
      simp only [Option.some.injEq] at hm'
      subst hm'
      exact absurd hgt (not_lt.mpr hle0)
    subst hG0
    rw [hm0] at hev
    simp only [Option.some.injEq] at hev
    refine ⟨rfl, hev.symm, ?_⟩
    unfold valeur_canaux_garde_1
    exact gardeLoop_find log lambda_e lambda_u mu S NbIter seuil NB_SIM rnd fuelSimu 1 (-1) 1
      res_mean 0 m0 h1 (by omega) (fun g h1 h2 => by omega) hm0 (not_lt.mpr hle0)
      (by norm_num)

theorem boucleSimulations_const (appel : ℕ → Option (res_sim K)) (c : res_sim K) (n : ℕ)
    (h : ∀ i, i < n → appel i = some c) :
    boucleSimulations appel n =
      some { loss := (n : K) * c.loss, wait_avg := (n : K) * c.wait_avg,
             wait_max := (n : K) * c.wait_max, urllc_tot := (n : K) * c.urllc_tot,
             urllc_max := (n : K) * c.urllc_max, embb_tot := (n : K) * c.embb_tot } := by
  induction n with
  | zero => simp [boucleSimulations]
  | succ n ih =>
    rw [boucleSimulations, ih (fun i hi => h i (by omega)), h n (by omega)]
    simp only [res_sim.ajoute, Option.some.injEq, res_sim.mk.injEq]
    push_cast
    refine ⟨?_, ?_, ?_, ?_, ?_, ?_⟩ <;> ring

theorem evalueCandidat_const (log : K → K) (lambda_e lambda_u mu : K) (S : ℤ) (NbIter : K)
    (nb : ℕ) (hnb : nb ≠ 0) (rnd : ℤ → ℕ → ℕ → K) (fuelSimu : ℕ) (G : ℤ) (c : res_sim K)
    (h : ∀ i, i < nb →
      simu log lambda_e lambda_u mu S (G : K) NbIter (rnd G i) fuelSimu = some c) :
    evalueCandidat log lambda_e lambda_u mu S NbIter nb rnd fuelSimu G = some c := by
  have hK : (nb : K) ≠ 0 := Nat.cast_ne_zero.mpr hnb
  unfold evalueCandidat
  rw [boucleSimulations_const _ c nb h]
  simp only [Option.map_some', res_sim.divise, mul_div_cancel_left₀ _ hK]

theorem NB_SIM_ne_zero : NB_SIM ≠ 0 := by
  unfold NB_SIM
  omega

theorem transition_empty_S2_G0 (log : K → K) (U1 : K) :
    transition log 5 500 1 2 0 0 0 0 U1 (1 / 2) = (-1 / 505 * log U1, Etat.mk 1 0 0) := by
  simp [transition, candidats, indexChoisi, selection, param_expo]
  norm_num

theorem transition_empty_S1_G1 (log : K → K) (U1 : K) :
    transition log 5 500 1 1 1 0 0 0 U1 (1 / 2) = (-1 / 505 * log U1, Etat.mk 1 0 0) := by
  simp [transition, candidats, indexChoisi, selection, param_expo]
  norm_num

/-- The run of `simu` with `S = 2`, `G = 0`, `lambda_e = 5`, `lambda_u = 500`, `mu = 1`,
`NbIter = 1/2` and all draws `1/2` : one transition, `(0,0,0) → (1,0,0)`, never full. -/
theorem simu_run_short_S2_G0 (log : K → K) (h2 : log (1 / 2) ≤ -(1 / 2)) :
    simu log 5 500 1 2 0 (1 / 2) (fun _ => 1 / 2) 1 =
      some { loss := 0, wait_avg := 0, wait_max := 0, urllc_tot := 1, urllc_max := 1,
             embb_tot := 0 } := by
  have hh : (1 : K) / 2 / (5 + 500) = 1 / 1010 := by norm_num
  have g0 : (simuInit : Locals K).temps_total < 1 / 1010 := by
    simp only [simuInit]
    norm_num
  have g1 : ¬ (0 + -1 / 505 * log (1 / 2) < 1 / 1010) := by
    rw [not_lt]
    linarith
  simp only [simu, hh, simuLoop, if_pos g0, simuCorps, simuInit, transition_empty_S2_G0,
    if_neg g1, Option.map_some']
  simp [simuFin]

theorem boucleEnfant_spec (START END STEP NB : ℤ) (h2 : 1 ≤ STEP) (h3 : 1 ≤ NB)
    (fuel : ℕ) (m : ℤ) (hfuel : (END - START) / STEP - m + 1 ≤ fuel) :
    ∃ l, boucleEnfant START END STEP NB fuel (START + m * STEP) = some l ∧ l.Nodup ∧
      ∀ j, j ∈ l ↔ (m ≤ j ∧ j ≤ (END - START) / STEP ∧ NB ∣ (j - m)) := by
  have hpos : (0 : ℤ) < STEP := by omega
  have hiff : ∀ m : ℤ, START + m * STEP ≤ END ↔ m ≤ (END - START) / STEP := by
    intro m
    rw [Int.le_ediv_iff_mul_le hpos]
    constructor <;> intro h <;> linarith
  induction fuel generalizing m with
  | zero =>
    have hgt : ¬ START + m * STEP ≤ END := by
      rw [hiff]
      simp only [Nat.cast_zero] at hfuel
      omega
    refine ⟨[], by simp only [boucleEnfant, if_neg hgt], List.nodup_nil, ?_⟩
    intro j
    simp only [List.not_mem_nil, false_iff]
    rintro ⟨a, b, _⟩
    exact hgt ((hiff m).mpr (le_trans a b))
  | succ fuel ih =>
    by_cases hle : START + m * STEP ≤ END
    · have hm : m ≤ (END - START) / STEP := (hiff m).mp hle
      have hnext : START + m * STEP + NB * STEP = START + (m + NB) * STEP := by ring
      obtain ⟨l', hl', hnd, hmem⟩ := ih (m + NB) (by push_cast at hfuel; omega)
      have hidx : (START + m * STEP - START).tdiv STEP = m := by
        rw [add_sub_cancel_left]
        exact Int.mul_tdiv_cancel m (by omega)
      refine ⟨m :: l', ?_, ?_, ?_⟩
      · simp only [boucleEnfant, if_pos hle, hnext, hl', Option.map_some', hidx]
      · rw [List.nodup_cons]
        refine ⟨?_, hnd⟩
        intro hin
        have := ((hmem m).mp hin).1
        omega
      · intro j
        rw [List.mem_cons, hmem]
        constructor
        · rintro (rfl | ⟨a, b, ⟨k, hk⟩⟩)
          · exact ⟨le_refl _, hm, ⟨0, by ring⟩⟩
          · exact ⟨by omega, b, ⟨k + 1, by rw [mul_add, mul_one, ← hk]; ring⟩⟩
        · rintro ⟨a, b, ⟨k, hk⟩⟩
          rcases le_or_lt k 0 with hk0 | hk1
          · left
            have : NB * k ≤ 0 := mul_nonpos_of_nonneg_of_nonpos (by omega) hk0
            omega
          · right
            have : NB * 1 ≤ NB * k := mul_le_mul_of_nonneg_left (by omega) (by omega)
            refine ⟨by omega, b, ⟨k - 1, ?_⟩⟩
            rw [mul_sub, mul_one, ← hk]
            ring
    · refine ⟨[], by simp only [boucleEnfant, if_neg hle], List.nodup_nil, ?_⟩
      intro j
      simp only [List.not_mem_nil, false_iff]
      rintro ⟨a, b, _⟩
      exact hle ((hiff m).mpr (le_trans a b))

/-- C14. For `START ≤ END`, `STEP ≥ 1` and `NB_PROCESS ≥ 1`, with
`num_steps = (END - START) / STEP + 1` : the loop of each worker `p` in
`0..NB_PROCESS-1` ends, produces only indices in `0..num_steps-1`, and produces the index
`j` of that range exactly once when `p = j mod NB_PROCESS` and never otherwise; so every
slot is written by exactly one worker, once. -/
theorem sweep_grid_static_partition (START END STEP NB_PROCESS : ℤ) (h1 : START ≤ END)
    (h2 : 1 ≤ STEP) (h3 : 1 ≤ NB_PROCESS) (fuel : ℕ) (hfuel : END - START + 1 ≤ fuel) :
    (∀ p, 0 ≤ p → p < NB_PROCESS →
      ∃ l, indicesEnfant START END STEP NB_PROCESS fuel p = some l ∧
        (∀ j ∈ l, 0 ≤ j ∧ j < num_steps START END STEP) ∧
        (∀ j, 0 ≤ j → j < num_steps START END STEP →
          l.count j = if p = j % NB_PROCESS then 1 else 0)) ∧
    (∀ j, 0 ≤ j → j < num_steps START END STEP →
      0 ≤ j % NB_PROCESS ∧ j % NB_PROCESS < NB_PROCESS) := by
  have hpos : (0 : ℤ) < STEP := by omega
  have hd : 0 ≤ END - START := by omega
  have hns : num_steps START END STEP = (END - START) / STEP + 1 := by
    unfold num_steps
    rw [Int.tdiv_eq_ediv hd (by omega)]
  have hM : (END - START) / STEP ≤ END - START := Int.ediv_le_self _ hd
  constructor
  · intro p hp0 hpN
    obtain ⟨l, hl, hnd, hmem⟩ := boucleEnfant_spec START END STEP NB_PROCESS h2 h3 fuel p
      (by omega)
    refine ⟨l, hl, ?_, ?_⟩
    · intro j hj
      obtain ⟨a, b, _⟩ := (hmem j).mp hj
      rw [hns]
      exact ⟨by omega, by omega⟩
    · intro j hj0 hjn
      rw [List.count_eq_of_nodup hnd]
      rw [hns] at hjn
      have hiff : j ∈ l ↔ p = j % NB_PROCESS := by
        rw [hmem]
        constructor
        · rintro ⟨_, _, ⟨k, hk⟩⟩
          have hj : j = p + NB_PROCESS * k := by omega
          rw [hj, Int.add_mul_emod_self_left, Int.emod_eq_of_lt hp0 hpN]
        · intro hp
          have hdiv := Int.emod_add_ediv j NB_PROCESS
          have hq : 0 ≤ j / NB_PROCESS := Int.ediv_nonneg hj0 (by omega)
          have hq2 : 0 ≤ NB_PROCESS * (j / NB_PROCESS) := mul_nonneg (by omega) hq
          refine ⟨by omega, by omega, ⟨j / NB_PROCESS, ?_⟩⟩
          omega
      by_cases hin : j ∈ l
      · rw [if_pos hin, if_pos (hiff.mp hin)]
      · rw [if_neg hin, if_neg (fun h => hin (hiff.mpr h))]
  · intro j _ _
    exact ⟨Int.emod_nonneg j (by omega), Int.emod_lt_of_pos j (by omega)⟩

theorem forkLoop_getElem_some {σ : Type} (parent : σ) (n p : ℕ) (hp : p < n) :
    (forkLoop parent n)[p]? = some parent := by
  induction n with
  | zero => omega
  | succ n ih =>
    have hlen : ∀ k, (forkLoop parent k).length = k := by
      intro k
      induction k with
      | zero => rfl
      | succ k ihk => simp [forkLoop, ihk]
    rw [forkLoop]
    rcases Nat.lt_or_ge p n with hlt | hge
    · rw [List.getElem?_append_left (by rw [hlen]; exact hlt)]
      exact ih hlt
    · have : p = n := by omega
      subst this
      rw [List.getElem?_append_right (by rw [hlen])]
      simp [hlen]

/-- C15 (amended). The workers of the sweep are not seeded distinctly: `srand` is called
once, before the `fork` loop, so any two workers `p`, `q` start from the same generator
state, the one set by `srand(time(NULL))`, and each of them draws the same sequence of
values of `rand()`. -/
theorem workers_share_generator_state {σ : Type} (srand : ℕ → σ) (rand : σ → ℕ × σ) (t : ℕ)
    (nb p q : ℕ) (hp : p < nb) (hq : q < nb) :
    (etatsEnfants srand t nb)[p]? = some (srand t) ∧
    (etatsEnfants srand t nb)[q]? = some (srand t) ∧
    (∀ gp gq, (etatsEnfants srand t nb)[p]? = some gp →
      (etatsEnfants srand t nb)[q]? = some gq →
      gp = gq ∧ ∀ n, tirage rand gp n = tirage rand gq n) := by
  have ep := forkLoop_getElem_some (srand t) nb p hp
  have eq := forkLoop_getElem_some (srand t) nb q hq
  refine ⟨ep, eq, ?_⟩
  intro gp gq hgp hgq
  unfold etatsEnfants at hgp hgq
  rw [ep] at hgp
  rw [eq] at hgq
  simp only [Option.some.injEq] at hgp hgq
  subst hgp
  subst hgq
  exact ⟨rfl, fun _ => rfl⟩

/-! ## Concrete runs of the guard search -/

theorem evalueCandidat_S2_G0 (log : K → K) (h2 : log (1 / 2) ≤ -(1 / 2)) :
    evalueCandidat log 5 500 1 2 (1 / 2) NB_SIM (fun _ _ _ => 1 / 2) 1 0 =
      some { loss := 0, wait_avg := 0, wait_max := 0, urllc_tot := 1, urllc_max := 1,
             embb_tot := 0 } := by
  apply evalueCandidat_const _ _ _ _ _ _ _ NB_SIM_ne_zero
  intro i _
  simp only [Int.cast_zero]
  exact simu_run_short_S2_G0 log h2

theorem garde_run_S2 (log : K → K) (h2 : log (1 / 2) ≤ -(1 / 2)) (rm : res_sim K) :
    valeur_canaux_garde_1 log 5 500 1 2 (1 / 2) (1 / 100000) NB_SIM rm (fun _ _ _ => 1 / 2)
        1 1 =
      some (0, { loss := 0, wait_avg := 0, wait_max := 0, urllc_tot := 1, urllc_max := 1,
                 embb_tot := 0 }) := by
  unfold valeur_canaux_garde_1
  exact gardeLoop_find log 5 500 1 2 (1 / 2) (1 / 100000) NB_SIM _ 1 1 (-1) 1 rm 0 _
    (by norm_num) (by norm_num) (fun g h1 h2 => by omega) (evalueCandidat_S2_G0 log h2)
    (by norm_num) (by norm_num)

/-- C15 (the claim as stated fails). With the generator state taken to be the seed itself
and `time(NULL) = 1700000000`, the workers `0` and `1` of the `NB_PROCESS` workers start
from the same generator state. -/
theorem workers_zero_and_one_same_state :
    (0 : ℕ) ≠ 1 ∧
    ¬ ((etatsEnfants (fun s : ℕ => s) 1700000000 NB_PROCESS)[0]? ≠
      (etatsEnfants (fun s : ℕ => s) 1700000000 NB_PROCESS)[1]?) := by
  refine ⟨by decide, ?_⟩
  have e0 := forkLoop_getElem_some ((fun s : ℕ => s) 1700000000) NB_PROCESS 0
    (by unfold NB_PROCESS; omega)
  have e1 := forkLoop_getElem_some ((fun s : ℕ => s) 1700000000) NB_PROCESS 1
    (by unfold NB_PROCESS; omega)
  intro hne
  apply hne
  unfold etatsEnfants
  rw [e0, e1]

/-! ## Instances at concrete inputs (counters, guard, guard search, sweep) -/

theorem simuAfter_one_S1_G1 (log : K → K) :
    simuAfter log 5 500 1 1 ((1 : ℤ) : K) 1 (fun _ => 1 / 2) 1 =
      some { e := Etat.mk 1 0 0, cumul := 0, temps_total := -1 / 505 * log (1 / 2),
             t := -1 / 505 * log (1 / 2), wait_avg := 0, wait_max := 0, urllc_tot := 1,
             urllc_max := 1, embb_tot := 0 } := by
  have hh : (1 : K) / (5 + 500) = 1 / 505 := by norm_num
  have g0 : (simuInit : Locals K).temps_total < 1 / 505 := by
    simp only [simuInit]
    norm_num
  simp only [Int.cast_one, simuAfter, hh, simuSteps, if_pos g0, simuCorps, simuInit,
    transition_empty_S1_G1]
  simp

theorem embb_tot_counts_direct_arrivals_witness :
    ∃ res : res_sim ℚ,
      simu (fun u => u - 1) 5 500 1 1 0 1 (fun _ => 1 / 2) 2 = some res ∧
      ∃ n, n ≤ 2 ∧
        res.embb_tot = (compteTransitions estArriveeEmbbDirecte (fun u : ℚ => u - 1) 5 500 1 1 0
          1 (fun _ => 1 / 2) n : ℚ) ∧
        res.urllc_tot = (compteTransitions estArriveeUrllc (fun u : ℚ => u - 1) 5 500 1 1 0
          1 (fun _ => 1 / 2) n : ℚ) := by
  have hrun := simu_run_S1_G0 (fun u : ℚ => u - 1) (by norm_num) (by norm_num)
  obtain ⟨n, hn, _, h1, h2, _⟩ := embb_tot_counts_direct_arrivals (fun u : ℚ => u - 1) 5 500 1
    1 0 1 (fun _ => 1 / 2) 2 _ hrun
  exact ⟨_, hrun, n, hn, h1, h2⟩

theorem guard_search_returns_first_candidate_witness :
    (1 / 100000 : ℚ) < 1 ∧
    ∃ m : res_sim ℚ,
      valeur_canaux_garde_1 (fun u : ℚ => u - 1) 5 500 1 2 (1 / 2) (1 / 100000) NB_SIM
        { loss := 0, wait_avg := 0, wait_max := 0, urllc_tot := 0, urllc_max := 0,
          embb_tot := 0 } (fun _ _ _ => 1 / 2) 1 1 = some (0, m) ∧
      (0 : ℤ) ≤ 0 ∧
      (∃ r : ℕ → res_sim ℚ,
        (∀ i, i < NB_SIM →
          simu (fun u => u - 1) 5 500 1 2 ((0 : ℤ) : ℚ) (1 / 2) (fun _ => 1 / 2) 1 =
            some (r i)) ∧
        m = moyenneSpec r NB_SIM) ∧
      m.loss ≤ 1 / 100000 := by
  have hrun := garde_run_S2 (fun u : ℚ => u - 1) (by norm_num)
    { loss := 0, wait_avg := 0, wait_max := 0, urllc_tot := 0, urllc_max := 0, embb_tot := 0 }
  obtain ⟨h0, hmean, hle, _, _⟩ := guard_search_returns_first_candidate (fun u : ℚ => u - 1)
    5 500 1 2 (1 / 2) (1 / 100000) _ (fun _ _ _ => 1 / 2) 1 1 0 _ (by norm_num) hrun
  exact ⟨by norm_num, _, hrun, h0, hmean, hle⟩

theorem sweep_grid_static_partition_witness :
    (0 : ℤ) ≤ 10 ∧ (1 : ℤ) ≤ 5 ∧ (1 : ℤ) ≤ 2 ∧ (10 : ℤ) - 0 + 1 ≤ ((11 : ℕ) : ℤ) ∧
    num_steps 0 10 5 = 3 ∧
    indicesEnfant 0 10 5 2 11 0 = some [0, 2] ∧
    indicesEnfant 0 10 5 2 11 1 = some [1] ∧
    ((∀ p, 0 ≤ p → p < 2 →
      ∃ l, indicesEnfant 0 10 5 2 11 p = some l ∧
        (∀ j ∈ l, 0 ≤ j ∧ j < num_steps 0 10 5) ∧
        (∀ j, 0 ≤ j → j < num_steps 0 10 5 → l.count j = if p = j % 2 then 1 else 0)) ∧
    (∀ j, 0 ≤ j → j < num_steps 0 10 5 → 0 ≤ j % 2 ∧ j % 2 < 2)) :=
  ⟨by decide, by decide, by decide, by decide, by decide, by decide, by decide,
    sweep_grid_static_partition 0 10 5 2 (by decide) (by decide) (by decide) 11 (by decide)⟩

theorem workers_share_generator_state_witness :
    0 < NB_PROCESS ∧ 1 < NB_PROCESS ∧
    (etatsEnfants (fun s : ℕ => s) 1700000000 NB_PROCESS)[0]? = some 1700000000 ∧
    (etatsEnfants (fun s : ℕ => s) 1700000000 NB_PROCESS)[1]? = some 1700000000 ∧
    (∀ gp gq, (etatsEnfants (fun s : ℕ => s) 1700000000 NB_PROCESS)[0]? = some gp →
      (etatsEnfants (fun s : ℕ => s) 1700000000 NB_PROCESS)[1]? = some gq →
      gp = gq ∧ ∀ n, tirage (fun g : ℕ => (g % 32768, (1103515245 * g + 12345) % 2147483648))
        gp n = tirage (fun g : ℕ => (g % 32768, (1103515245 * g + 12345) % 2147483648)) gq n) :=
  ⟨by decide, by decide,
    workers_share_generator_state (fun s : ℕ => s)
      (fun g : ℕ => (g % 32768, (1103515245 * g + 12345) % 2147483648)) 1700000000 NB_PROCESS
      0 1 (by decide) (by decide)⟩

theorem urllc_only_keeps_embb_empty_witness :
    (1 : ℤ) ≤ 1 ∧ (0 : ℚ) ≤ 0 ∧ (0 : ℚ) ≤ ((1 : ℤ) : ℚ) ∧ (0 : ℚ) < 500 ∧ (0 : ℚ) < 1 ∧
    (∀ k : ℕ, (0 : ℚ) < (fun _ => 1 / 2) (2 * k + 1) ∧
      (fun _ => (1 / 2 : ℚ)) (2 * k + 1) < 1) ∧
    (∀ fuel res, simu (fun u : ℚ => u - 1) 0 500 1 1 0 1 (fun _ => 1 / 2) fuel = some res →
      res.embb_tot = 0 ∧ res.wait_avg = 0 ∧ res.wait_max = 0) :=
  ⟨by decide, le_refl _, by norm_num, by norm_num, by norm_num, fun _ => by norm_num,
    (urllc_only_keeps_embb_empty (fun u : ℚ => u - 1) 500 1 1 0 (by decide) (le_refl _)
      (by norm_num) (by norm_num) (by norm_num) 1 (fun _ => 1 / 2)
      (fun _ => by norm_num)).2.2⟩

theorem degenerate_guard_only_queues_witness :
    (0 : ℤ) ≤ 1 ∧
    ∃ v : Locals ℚ,
      simuAfter (fun u => u - 1) 5 500 1 1 ((1 : ℤ) : ℚ) 1 (fun _ => 1 / 2) 1 = some v ∧
      v.e.x2 = 0 ∧ v.embb_tot = 0 ∧
      Etat.mk v.e.x1 (v.e.x2 + 1) v.e.x3 ∉
        (candidats (5 : ℚ) 500 1 1 ((1 : ℤ) : ℚ) v.e.x1 v.e.x2 v.e.x3).map Prod.snd := by
  have hrun := simuAfter_one_S1_G1 (fun u : ℚ => u - 1)
  obtain ⟨a, b, c, _⟩ := (degenerate_guard_only_queues (fun u : ℚ => u - 1) 5 500 1 1
    (by decide) 1 (fun _ => 1 / 2)).1 1 _ hrun
  exact ⟨by decide, _, hrun, a, b, c⟩

theorem candidats_between_two_and_four_witness :
    (1 : ℤ) ≤ 1 ∧ (0 : ℚ) ≤ 0 ∧ (0 : ℚ) ≤ ((1 : ℤ) : ℚ) ∧ Etat.valide 1 (Etat.mk 1 0 0) ∧
    2 ≤ (candidats (5 : ℚ) 500 1 1 0 1 0 0).length ∧
    (candidats (5 : ℚ) 500 1 1 0 1 0 0).length ≤ 4 :=
  ⟨by decide, le_refl _, by norm_num, by decide,
    (candidats_between_two_and_four (5 : ℚ) 500 1 1 0 (by decide) (le_refl _) (by norm_num)
      1 0 0 (by decide)).1,
    (candidats_between_two_and_four (5 : ℚ) 500 1 1 0 (by decide) (le_refl _) (by norm_num)
      1 0 0 (by decide)).2.1⟩

theorem embb_never_in_guard_channel_witness :
    (0 : ℤ) ≤ 1 ∧ (1 : ℤ) ≤ 1 ∧
    ∃ v : Locals ℚ,
      simuAfter (fun u => u - 1) 5 500 1 1 ((1 : ℤ) : ℚ) 1 (fun _ => 1 / 2) 1 = some v ∧
      v.e.x2 ≤ 1 - 1 ∧ v.e.x1 + v.e.x2 > 1 - 1 := by
  have hrun := simuAfter_one_S1_G1 (fun u : ℚ => u - 1)
  exact ⟨by decide, by decide, _, hrun,
    (embb_never_in_guard_channel (fun u : ℚ => u - 1) 5 500 1 1 1 (by decide) (by decide) 1
      (fun _ => 1 / 2) 1 _ hrun).1, by decide⟩

theorem guard_beyond_S_changes_nothing_witness :
    (((1 : ℤ) : ℚ) ≤ 2) ∧ (0 : ℤ) ≤ 0 ∧
    (∀ U1 U2 : ℚ, transition (fun u => u - 1) 5 500 1 1 2 0 0 0 U1 U2 =
      transition (fun u => u - 1) 5 500 1 1 ((1 : ℤ) : ℚ) 0 0 0 U1 U2) ∧
    (∀ (NbIter : ℚ) (rnd : ℕ → ℚ) (fuel : ℕ),
      simu (fun u => u - 1) 5 500 1 1 2 NbIter rnd fuel =
        simu (fun u => u - 1) 5 500 1 1 ((1 : ℤ) : ℚ) NbIter rnd fuel) :=
  ⟨by norm_num, le_refl _,
    guard_beyond_S_changes_nothing (fun u : ℚ => u - 1) 5 500 1 1 2 (by norm_num) 0 0 0
      (le_refl _) (le_refl _)⟩

/-! ## A fractional guard -/

theorem transition_empty_S1_Gdemi (log : K → K) (U1 : K) :
    transition log 5 1 1 1 (1 / 2) 0 0 0 U1 (1 / 2) = (-1 / 6 * log U1, Etat.mk 0 1 0) := by
  simp [transition, candidats, indexChoisi, selection, param_expo]
  norm_num

theorem simuAfter_one_S1_Gdemi (log : K → K) :
    simuAfter log 5 1 1 1 (1 / 2) 1 (fun _ => 1 / 2) 1 =
      some { e := Etat.mk 0 1 0, cumul := 0, temps_total := -1 / 6 * log (1 / 2),
             t := -1 / 6 * log (1 / 2), wait_avg := 0, wait_max := 0, urllc_tot := 0,
             urllc_max := 0, embb_tot := 1 } := by
  have hh : (1 : K) / (5 + 1) = 1 / 6 := by norm_num
  have g0 : (simuInit : Locals K).temps_total < 1 / 6 := by
    simp only [simuInit]
    norm_num
  simp only [simuAfter, hh, simuSteps, if_pos g0, simuCorps, simuInit,
    transition_empty_S1_Gdemi]
  simp

/-- C19 (the claim as stated fails).  The parameter `G` of `simu` is a `double`.  With
`S = 1`, `G = 1/2` (so `0 ≤ G ≤ S`), `lambda_e = 5`, `lambda_u = 1`, `mu = 1`, `NbIter = 1`
and all draws `1/2`, the test `x1 + x2 < S - G` of line 75 is `0 < 1/2`, the direct eMBB
arrival is the second of two candidates and is selected (`1/2 > 1/6`): the first state
visited after `(0,0,0)` is `(0,1,0)`, where `x2 = 1` is not `≤ S - G = 1/2`. -/
theorem embb_enters_fractional_guard :
    (0 : ℝ) ≤ 1 / 2 ∧ (1 / 2 : ℝ) ≤ ((1 : ℤ) : ℝ) ∧
    ∃ v : Locals ℝ,
      simuAfter Real.log 5 1 1 1 (1 / 2) 1 (fun _ => 1 / 2) 1 = some v ∧
      v.e = Etat.mk 0 1 0 ∧
      ¬ ((v.e.x2 : ℝ) ≤ ((1 : ℤ) : ℝ) - 1 / 2) := by
  refine ⟨by norm_num, by norm_num, _, simuAfter_one_S1_Gdemi Real.log, rfl, ?_⟩
  norm_num

end UR3

namespace Sim

/-! ## The arrival schedule -/

theorem arrival_eq (time n : ℕ) (hn : n < 2 ^ 32) :
    urllc_arrival time n = n / 10 + (if time % 10 = 0 then n % 10 else 0) ∧
      embb_arrival time n = n / 10 + (if time % 10 = 0 then n % 10 else 0) := by
  have hlt : n / 10 + (if time % 10 = 0 then n % 10 else 0) < 2 ^ 32 := by
    split_ifs <;> omega
  unfold urllc_arrival embb_arrival
  exact ⟨Nat.mod_eq_of_lt hlt, Nat.mod_eq_of_lt hlt⟩

theorem sum_ten_arrivals (t n : ℕ) :
    ∑ k in Finset.range 10, (n / 10 + (if (t + k) % 10 = 0 then n % 10 else 0)) = n := by
  have hk : ∀ k, (t + k) % 10 = (t % 10 + k) % 10 := fun k => by omega
  have hr : t % 10 < 10 := Nat.mod_lt _ (by norm_num)
  simp only [Finset.sum_range_succ, Finset.sum_range_zero, hk]
  interval_cases h : t % 10 <;> norm_num <;> omega

/-- C23. For a UE count `n` and a start time `t` such that `t + 9` does not wrap (both
`uint32_t`), the values of `urllc_arrival` over the ten steps `t, ..., t + 9` add up to
`n`, and so do those of `embb_arrival`; every step receives `n / 10` packets, plus the
remainder `n mod 10` at the step whose time is a multiple of `10`, and exactly one of the
ten steps is such. -/
theorem arrivals_over_ten_steps (n t : ℕ) (hn : n < 2 ^ 32) (ht : t + 9 < 2 ^ 32) :
    (∑ k in Finset.range 10, urllc_arrival (t + k) n) = n ∧
    (∑ k in Finset.range 10, embb_arrival (t + k) n) = n ∧
    (∀ k, k < 10 →
      urllc_arrival (t + k) n = n / 10 + (if (t + k) % 10 = 0 then n % 10 else 0) ∧
      embb_arrival (t + k) n = n / 10 + (if (t + k) % 10 = 0 then n % 10 else 0)) ∧
    (∃! k, k < 10 ∧ (t + k) % 10 = 0) := by
  refine ⟨?_, ?_, fun k _ => arrival_eq (t + k) n hn, ?_⟩
  · rw [Finset.sum_congr rfl (fun k _ => (arrival_eq (t + k) n hn).1)]
    exact sum_ten_arrivals t n
  · rw [Finset.sum_congr rfl (fun k _ => (arrival_eq (t + k) n hn).2)]
    exact sum_ten_arrivals t n
  · refine ⟨(10 - t % 10) % 10, ⟨by omega, by omega⟩, ?_⟩
    rintro y ⟨h1, h2⟩
    omega

/-! ## URLLC packets in treatment -/

theorem serveur_urllc (params : sim_params) (v v' : Locaux) (s s' : packet)
    (h : serveur params v s = some (v', s')) (hG : v.urllc_e ≤ params.G) :
    v'.urllc_e ≤ params.G ∧
      nbUrllc [s'] + v'.urllc_o + v.urllc_e = nbUrllc [s] + v'.urllc_e + v.urllc_o := by
  obtain ⟨ty, cy⟩ := s
  unfold serveur at h
  cases ty <;> simp only at h
  · split_ifs at h with h1 h2 h3
    · simp only [Option.some.injEq, Prod.mk.injEq] at h
      obtain ⟨rfl, rfl⟩ := h
      simp [nbUrllc]
      omega
    · cases hq : v.q with
      | nil => simp [hq] at h
      | cons old suite =>
        simp only [hq, Option.some.injEq, Prod.mk.injEq] at h
        obtain ⟨rfl, rfl⟩ := h
        simp [nbUrllc]
        omega
    · simp only [Option.some.injEq, Prod.mk.injEq] at h
      obtain ⟨rfl, rfl⟩ := h
      simp [nbUrllc]
      omega
    · simp only [Option.some.injEq, Prod.mk.injEq] at h
      obtain ⟨rfl, rfl⟩ := h
      simp [nbUrllc]
      omega
  · split_ifs at h <;> simp only [Option.some.injEq, Prod.mk.injEq] at h <;>
      obtain ⟨rfl, rfl⟩ := h <;> simp [nbUrllc] <;> omega
  · split_ifs at h <;> simp only [Option.some.injEq, Prod.mk.injEq] at h <;>
      obtain ⟨rfl, rfl⟩ := h <;> simp [nbUrllc] <;> omega

theorem nbUrllc_cons (s : packet) (l : List packet) :
    nbUrllc (s :: l) = nbUrllc [s] + nbUrllc l := by
  unfold nbUrllc
  rw [List.countP_cons, List.countP_cons, List.countP_nil]
  omega

theorem nbUrllc_append (l l' : List packet) : nbUrllc (l ++ l') = nbUrllc l + nbUrllc l' := by
  unfold nbUrllc
  exact List.countP_append _ _ _

theorem boucleServeurs_urllc (params : sim_params) (l : List packet) (v v' : Locaux)
    (l' : List packet) (h : boucleServeurs params v l = some (v', l'))
    (hG : v.urllc_e ≤ params.G) :
    v'.urllc_e ≤ params.G ∧
      nbUrllc l' + v'.urllc_o + v.urllc_e = nbUrllc l + v'.urllc_e + v.urllc_o := by
  induction l generalizing v v' l' with
  | nil =>
    simp only [boucleServeurs, Option.some.injEq, Prod.mk.injEq] at h
    obtain ⟨rfl, rfl⟩ := h
    exact ⟨hG, by omega⟩
  | cons s reste ih =>
    simp only [boucleServeurs] at h
    cases h1 : serveur params v s with
    | none => simp [h1] at h
    | some r1 =>
      obtain ⟨v1, s1⟩ := r1
      simp only [h1] at h
      cases h2 : boucleServeurs params v1 reste with
      | none => simp [h2] at h
      | some r2 =>
        obtain ⟨v2, l2⟩ := r2
        simp only [h2, Option.some.injEq, Prod.mk.injEq] at h
        obtain ⟨rfl, rfl⟩ := h
        obtain ⟨a1, a2⟩ := serveur_urllc params v v1 s s1 h1 hG
        obtain ⟨b1, b2⟩ := ih v1 v2 l2 h2 a1
        refine ⟨b1, ?_⟩
        rw [nbUrllc_cons s1 l2, nbUrllc_cons s reste]
        omega

theorem transition_urllc (time : ℕ) (params : sim_params) (hG : params.G < 2 ^ 32)
    (servers : List packet) (q : List ℕ) (st : Etat3) (out : Sortie)
    (h : transition time params servers q st = some out) (h0 : st.s0 ≤ params.G)
    (hcount : st.s0 = nbUrllc servers) :
    out.out_state.s0 ≤ params.G ∧ out.out_state.s0 = nbUrllc out.servers := by
  unfold transition at h
  split at h
  · simp at h
  · rename_i v srv hb
    simp only [Option.some.injEq] at h
    subst h
    obtain ⟨a1, a2⟩ := boucleServeurs_urllc params _ _ v srv hb h0
    simp only at a1 a2 ⊢
    have hsplit : nbUrllc servers =
        nbUrllc (servers.take params.S) + nbUrllc (servers.drop params.S) := by
      rw [← nbUrllc_append, List.take_append_drop]
    rw [nbUrllc_append]
    have hsub : sub32 v.urllc_e v.urllc_o = v.urllc_e - v.urllc_o := by
      unfold sub32
      have : v.urllc_e + 2 ^ 32 - v.urllc_o = (v.urllc_e - v.urllc_o) + 2 ^ 32 := by omega
      rw [this, Nat.add_mod_right, Nat.mod_eq_of_lt (by omega)]
    rw [hsub]
    omega

/-- C22. Starting `simulation` from state `(0,0,0)` with all servers empty (and `G` a
`uint32_t`), after every call of `transition` that the loop makes, the number
`out_state[0]` of URLLC packets in treatment is at most `G` and equals the number of
servers whose type is `URLLC`. -/
theorem urllc_in_treatment_at_most_G (params : sim_params) (hG : params.G < 2 ^ 32)
    (servers0 : List packet) (hempty : ∀ s ∈ servers0, s.type = p_type.NONE) (q0 : List ℕ)
    (k : ℕ) (σ : SimVars) (h : simulationAfter params servers0 q0 k = some σ) :
    σ.state.s0 ≤ params.G ∧ σ.state.s0 = nbUrllc σ.servers := by
  induction k generalizing σ with
  | zero =>
    simp only [simulationAfter, Option.some.injEq] at h
    subst h
    refine ⟨Nat.zero_le _, ?_⟩
    simp only [nbUrllc]
    symm
    rw [List.countP_eq_zero]
    intro s hs
    simp [hempty s hs]
  | succ k ih =>
    simp only [simulationAfter] at h
    cases hk : simulationAfter params servers0 q0 k with
    | none => simp [hk] at h
    | some σ0 =>
      simp only [hk, simulationCorps] at h
      cases ht : transition k params σ0.servers σ0.q σ0.state with
      | none => simp [ht] at h
      | some out =>
        simp only [ht, Option.some.injEq] at h
        subst h
        obtain ⟨i1, i2⟩ := ih σ0 hk
        exact transition_urllc k params hG σ0.servers σ0.q σ0.state out ht i1 i2

/-! ## The eMBB queue -/

theorem serveur_embb (params : sim_params) (v v' : Locaux) (s s' : packet)
    (h : serveur params v s = some (v', s')) :
    v'.q.length + v'.embb_q_leave = v.q.length + v.embb_q_leave ∧
    v'.embb_q + v'.embb_q_leave = v.embb_q + v.embb_q_leave ∧
    nbNouveauxEmbb [s] [s'] + v'.embb_a + v.embb_q_leave = v.embb_a + v'.embb_q_leave ∧
    v'.embb_a ≤ v.embb_a ∧ v.embb_q_leave ≤ v'.embb_q_leave := by
  obtain ⟨ty, cy⟩ := s
  unfold serveur at h
  cases ty <;> simp only at h
  · split_ifs at h with h1 h2 h3
    · simp only [Option.some.injEq, Prod.mk.injEq] at h
      obtain ⟨rfl, rfl⟩ := h
      simp [nbNouveauxEmbb]
    · cases hq : v.q with
      | nil => simp [hq] at h
      | cons old suite =>
        simp only [hq, Option.some.injEq, Prod.mk.injEq] at h
        obtain ⟨rfl, rfl⟩ := h
        simp [nbNouveauxEmbb]
        omega
    · simp only [Option.some.injEq, Prod.mk.injEq] at h
      obtain ⟨rfl, rfl⟩ := h
      simp [nbNouveauxEmbb]
      omega
    · simp only [Option.some.injEq, Prod.mk.injEq] at h
      obtain ⟨rfl, rfl⟩ := h
      simp [nbNouveauxEmbb]
  · split_ifs at h <;> simp only [Option.some.injEq, Prod.mk.injEq] at h <;>
      obtain ⟨rfl, rfl⟩ := h <;> simp [nbNouveauxEmbb]
  · split_ifs at h <;> simp only [Option.some.injEq, Prod.mk.injEq] at h <;>
      obtain ⟨rfl, rfl⟩ := h <;> simp [nbNouveauxEmbb]

theorem boucleServeurs_embb (params : sim_params) (l : List packet) (v v' : Locaux)
    (l' : List packet) (h : boucleServeurs params v l = some (v', l')) :
    l'.length = l.length ∧
    v'.q.length + v'.embb_q_leave = v.q.length + v.embb_q_leave ∧
    v'.embb_q + v'.embb_q_leave = v.embb_q + v.embb_q_leave ∧
    nbNouveauxEmbb l l' + v'.embb_a + v.embb_q_leave = v.embb_a + v'.embb_q_leave ∧
    v'.embb_a ≤ v.embb_a ∧ v.embb_q_leave ≤ v'.embb_q_leave := by
  induction l generalizing v v' l' with
  | nil =>
    simp only [boucleServeurs, Option.some.injEq, Prod.mk.injEq] at h
    obtain ⟨rfl, rfl⟩ := h
    simp [nbNouveauxEmbb]
  | cons s reste ih =>
    simp only [boucleServeurs] at h
    cases h1 : serveur params v s with
    | none => simp [h1] at h
    | some r1 =>
      obtain ⟨v1, s1⟩ := r1
      simp only [h1] at h
      cases h2 : boucleServeurs params v1 reste with
      | none => simp [h2] at h
      | some r2 =>
        obtain ⟨v2, l2⟩ := r2
        simp only [h2, Option.some.injEq, Prod.mk.injEq] at h
        obtain ⟨rfl, rfl⟩ := h
        obtain ⟨a1, a2, a3, a4, a5⟩ := serveur_embb params v v1 s s1 h1
        obtain ⟨b0, b1, b2, b3, b4, b5⟩ := ih v1 v2 l2 h2
        have hn : nbNouveauxEmbb (s :: reste) (s1 :: l2) =
            nbNouveauxEmbb [s] [s1] + nbNouveauxEmbb reste l2 := by
          simp [nbNouveauxEmbb]
        refine ⟨by simp [b0], by omega, by omega, ?_, by omega, by omega⟩
        rw [hn]
        omega

theorem boucleServeurs_some (params : sim_params) (hu : 0 < params.mu_u)
    (he : 0 < params.mu_e) (l : List packet) (v : Locaux) (hq : v.q.length = v.embb_q) :
    ∃ r, boucleServeurs params v l = some r := by
  induction l generalizing v with
  | nil => exact ⟨_, rfl⟩
  | cons s reste ih =>
    have hs : ∃ r, serveur params v s = some r := by
      obtain ⟨ty, cy⟩ := s
      unfold serveur
      cases ty <;> simp only
      · split_ifs with h1 h2 h3
        · exact ⟨_, rfl⟩
        · cases hq' : v.q with
          | nil =>
            rw [hq'] at hq
            simp at hq
            omega
          | cons old suite => exact ⟨_, rfl⟩
        · exact ⟨_, rfl⟩
        · exact ⟨_, rfl⟩
      · split_ifs
        · omega
        · exact ⟨_, rfl⟩
        · exact ⟨_, rfl⟩
      · split_ifs
        · omega
        · exact ⟨_, rfl⟩
        · exact ⟨_, rfl⟩
    obtain ⟨⟨v1, s1⟩, h1⟩ := hs
    obtain ⟨a1, a2, _⟩ := serveur_embb params v v1 s s1 h1
    obtain ⟨⟨v2, l2⟩, h2⟩ := ih v1 (by omega)
    exact ⟨(v2, s1 :: l2), by simp only [boucleServeurs, h1, h2]⟩

theorem remplir_spec (max_q a qn : ℕ) (l : List ℕ) :
    (remplir max_q a qn l).1 ≤ a ∧
    (remplir max_q a qn l).2.1 + (remplir max_q a qn l).1 = qn + a ∧
    (remplir max_q a qn l).2.2.length + (remplir max_q a qn l).1 = l.length + a ∧
    (qn ≤ max_q → (remplir max_q a qn l).2.1 ≤ max_q) := by
  induction a generalizing qn l with
  | zero => simp [remplir]
  | succ a ih =>
    simp only [remplir]
    split_ifs with hlt
    · obtain ⟨i1, i2, i3, i4⟩ := ih (qn + 1) (l ++ [0])
      simp only [List.length_append, List.length_singleton] at i3
      exact ⟨by omega, by omega, by omega, fun _ => i4 (by omega)⟩
    · exact ⟨le_refl _, rfl, rfl, fun h => h⟩

theorem nbNouveauxEmbb_append (l1 l1' l2 l2' : List packet) (h : l1.length = l1'.length) :
    nbNouveauxEmbb (l1 ++ l2) (l1' ++ l2') = nbNouveauxEmbb l1 l1' + nbNouveauxEmbb l2 l2' := by
  induction l1 generalizing l1' with
  | nil =>
    cases l1' with
    | nil => simp [nbNouveauxEmbb]
    | cons b l => simp at h
  | cons a l ih =>
    cases l1' with
    | nil => simp at h
    | cons b l' =>
      have hl : l.length = l'.length := by simpa using h
      rw [List.cons_append, List.cons_append]
      simp only [nbNouveauxEmbb]
      rw [ih l' hl]
      omega

theorem nbNouveauxEmbb_self (l : List packet) : nbNouveauxEmbb l l = 0 := by
  induction l with
  | nil => rfl
  | cons a l ih =>
    simp only [nbNouveauxEmbb, ih, add_zero, ite_eq_right_iff]
    rintro ⟨h1, h2⟩
    rw [h1] at h2
    exact absurd h2 (by decide)

theorem transition_some (time : ℕ) (params : sim_params) (hu : 0 < params.mu_u)
    (he : 0 < params.mu_e) (servers : List packet) (q : List ℕ) (st : Etat3)
    (hlen : q.length = st.s2) : ∃ out, transition time params servers q st = some out := by
  obtain ⟨⟨v, srv⟩, hb⟩ := boucleServeurs_some params hu he (servers.take params.S)
    { urllc_a := urllc_arrival time params.sn_u, urllc_e := st.s0, urllc_o := 0,
      embb_a := embb_arrival time params.sn_e, embb_e := st.s1, embb_o := 0,
      embb_q := st.s2, embb_q_leave := 0, embb_q_time := 0, q := q } hlen
  simp only [transition, hb]
  exact ⟨_, rfl⟩

theorem transition_embb (time : ℕ) (params : sim_params) (servers : List packet)
    (q : List ℕ) (st : Etat3) (hq : st.s2 ≤ params.max_q) (hlen : q.length = st.s2)
    (out : Sortie) (h : transition time params servers q st = some out) :
    out.out_state.s2 ≤ params.max_q ∧ out.q.length = out.out_state.s2 ∧
    ∃ D Q, nbNouveauxEmbb servers out.servers = out.res.embb_leaving_q + D ∧
      out.q.length + out.res.embb_leaving_q = q.length + Q ∧
      embb_arrival time params.sn_e = D + Q + out.res.embb_lost := by
  unfold transition at h
  split at h
  · simp at h
  · rename_i v srv hb
    simp only [Option.some.injEq] at h
    subst h
    obtain ⟨b0, b1, b2, b3, b4, b5⟩ := boucleServeurs_embb params _ _ v srv hb
    simp only at b1 b2 b3 b4 b5
    obtain ⟨r1, r2, r3, r4⟩ := remplir_spec params.max_q v.embb_a v.embb_q
      (v.q.map (fun t => (t + 1) % 2 ^ 32))
    simp only [List.length_map] at r3
    simp only
    have hn : nbNouveauxEmbb servers (srv ++ servers.drop params.S) =
        nbNouveauxEmbb (servers.take params.S) srv := by
      have := nbNouveauxEmbb_append (servers.take params.S) srv (servers.drop params.S)
        (servers.drop params.S) b0.symm
      rw [List.take_append_drop, nbNouveauxEmbb_self, add_zero] at this
      exact this
    refine ⟨r4 (by omega), by omega,
      embb_arrival time params.sn_e - v.embb_a,
      v.embb_a - (remplir params.max_q v.embb_a v.embb_q
        (v.q.map (fun t => (t + 1) % 2 ^ 32))).1, ?_, ?_, ?_⟩
    · rw [hn]
      omega
    · omega
    · omega

/-- C21. If `in_state[2] ≤ max_q` and the queue holds `in_state[2]` entries, then after a
call of `transition` that returns, `out_state[2] ≤ max_q`, the queue holds `out_state[2]`
entries, and the eMBB arrivals of the step are the `D` arrivals put directly in a server
(the servers newly holding an eMBB packet, less those fed from the queue), the `Q`
arrivals appended to the queue and the `embb_lost` reported; with non-zero rates the call
does return.  Hence, from an empty queue, every step of `simulation` returns, with a queue
of `state[2] ≤ max_q` entries. -/
theorem embb_queue_never_exceeds_max (time : ℕ) (params : sim_params) (servers : List packet)
    (q : List ℕ) (in_state : Etat3) (hq : in_state.s2 ≤ params.max_q)
    (hlen : q.length = in_state.s2) :
    (∀ out, transition time params servers q in_state = some out →
      out.out_state.s2 ≤ params.max_q ∧ out.q.length = out.out_state.s2 ∧
      ∃ D Q, nbNouveauxEmbb servers out.servers = out.res.embb_leaving_q + D ∧
        out.q.length + out.res.embb_leaving_q = q.length + Q ∧
        embb_arrival time params.sn_e = D + Q + out.res.embb_lost) ∧
    (0 < params.mu_u → 0 < params.mu_e →
      ∃ out, transition time params servers q in_state = some out) ∧
    (∀ servers0 k σ, simulationAfter params servers0 [] k = some σ →
      σ.state.s2 ≤ params.max_q ∧ σ.q.length = σ.state.s2) ∧
    (0 < params.mu_u → 0 < params.mu_e →
      ∀ servers0 k, ∃ σ, simulationAfter params servers0 [] k = some σ) := by
  have hsim : ∀ servers0 k σ, simulationAfter params servers0 [] k = some σ →
      σ.state.s2 ≤ params.max_q ∧ σ.q.length = σ.state.s2 := by
    intro servers0 k
    induction k with
    | zero =>
      intro σ h
      simp only [simulationAfter, Option.some.injEq] at h
      subst h
      exact ⟨Nat.zero_le _, rfl⟩
    | succ k ih =>
      intro σ h
      simp only [simulationAfter] at h
      cases hk : simulationAfter params servers0 [] k with
      | none => simp [hk] at h
      | some σ0 =>
        simp only [hk, simulationCorps] at h
        cases ht : transition k params σ0.servers σ0.q σ0.state with
        | none => simp [ht] at h
        | some out =>
          simp only [ht, Option.some.injEq] at h
          subst h
          obtain ⟨i1, i2⟩ := ih σ0 hk
          obtain ⟨a1, a2, _⟩ := transition_embb k params σ0.servers σ0.q σ0.state i1 i2 out ht
          exact ⟨a1, a2⟩
  refine ⟨fun out h => transition_embb time params servers q in_state hq hlen out h,
    fun hu he => transition_some time params hu he servers q in_state hlen, hsim, ?_⟩
  intro hu he servers0 k
  induction k with
  | zero => exact ⟨_, rfl⟩
  | succ k ih =>
    obtain ⟨σ0, hk⟩ := ih
    obtain ⟨_, i2⟩ := hsim servers0 k σ0 hk
    obtain ⟨out, ht⟩ := transition_some k params hu he σ0.servers σ0.q σ0.state i2
    simp only [simulationAfter, hk, simulationCorps, ht]
    exact ⟨_, rfl⟩

/-! ## Instances at concrete inputs -/

theorem transition_exemple :
    transition 0 paramsExemple
        [{ type := p_type.NONE, cycles := 0 }, { type := p_type.NONE, cycles := 0 }] []
        { s0 := 0, s1 := 0, s2 := 0 } =
      some { servers := [{ type := p_type.URLLC, cycles := 0 },
                         { type := p_type.EMBB, cycles := 0 }],
             q := [0],
             out_state := { s0 := 1, s1 := 1, s2 := 1 },
             res := { urllc_lost := 1, embb_lost := 2, urllc_transmited := 0,
                      embb_transmited := 0, embb_leaving_q := 0, total_wait := 0 } } := by
  decide

theorem simulationAfter_exemple :
    simulationAfter paramsExemple
        [{ type := p_type.NONE, cycles := 0 }, { type := p_type.NONE, cycles := 0 }] [] 3 =
      some { servers := [{ type := p_type.NONE, cycles := 0 },
                         { type := p_type.EMBB, cycles := 2 }],
             q := [2],
             state := { s0 := 0, s1 := 1, s2 := 1 },
             sim_results := { urllc_lost := 5, embb_lost := 8, urllc_transmited := 1,
                              embb_transmited := 0, embb_leaving_q := 0, total_wait := 0 } } := by
  decide

theorem embb_queue_never_exceeds_max_witness :
    (Etat3.mk 0 0 0).s2 ≤ paramsExemple.max_q ∧
    ([] : List ℕ).length = (Etat3.mk 0 0 0).s2 ∧
    ∃ out, transition 0 paramsExemple
        [{ type := p_type.NONE, cycles := 0 }, { type := p_type.NONE, cycles := 0 }] []
        { s0 := 0, s1 := 0, s2 := 0 } = some out ∧
      out.out_state.s2 ≤ paramsExemple.max_q ∧ out.q.length = out.out_state.s2 ∧
      embb_arrival 0 paramsExemple.sn_e = 4 ∧ out.res.embb_lost = 2 :=
  ⟨by decide, rfl, _, transition_exemple,
    ((embb_queue_never_exceeds_max 0 paramsExemple
      [{ type := p_type.NONE, cycles := 0 }, { type := p_type.NONE, cycles := 0 }] []
      { s0 := 0, s1 := 0, s2 := 0 } (by decide) rfl).1 _ transition_exemple).1,
    ((embb_queue_never_exceeds_max 0 paramsExemple
      [{ type := p_type.NONE, cycles := 0 }, { type := p_type.NONE, cycles := 0 }] []
      { s0 := 0, s1 := 0, s2 := 0 } (by decide) rfl).1 _ transition_exemple).2.1,
    by decide, by decide⟩

theorem urllc_in_treatment_at_most_G_witness :
    paramsExemple.G < 2 ^ 32 ∧
    (∀ s ∈ [({ type := p_type.NONE, cycles := 0 } : packet),
        { type := p_type.NONE, cycles := 0 }], s.type = p_type.NONE) ∧
    ∃ σ, simulationAfter paramsExemple
        [{ type := p_type.NONE, cycles := 0 }, { type := p_type.NONE, cycles := 0 }] [] 3 =
        some σ ∧
      σ.state.s0 ≤ paramsExemple.G ∧ σ.state.s0 = nbUrllc σ.servers :=
  ⟨by decide, by decide, _, simulationAfter_exemple,
    urllc_in_treatment_at_most_G paramsExemple (by decide) _ (by decide) [] 3 _
      simulationAfter_exemple⟩

theorem arrivals_over_ten_steps_witness :
    (25 : ℕ) < 2 ^ 32 ∧ 7 + 9 < 2 ^ 32 ∧
    (∑ k in Finset.range 10, urllc_arrival (7 + k) 25) = 25 ∧
    (∑ k in Finset.range 10, embb_arrival (7 + k) 25) = 25 ∧
    urllc_arrival (7 + 3) 25 = 7 ∧ urllc_arrival (7 + 4) 25 = 2 :=
  ⟨by norm_num, by norm_num, (arrivals_over_ten_steps 25 7 (by norm_num) (by norm_num)).1,
    (arrivals_over_ten_steps 25 7 (by norm_num) (by norm_num)).2.1, by decide, by decide⟩

end Sim

namespace UR3IEEE

variable {K : Type} [LinearOrderedField K]

/-! ## Runs of the program with a draw equal to `0` -/

theorem add_nan_ieee (a : Dbl K) : a.add Dbl.nan = Dbl.nan := by
  cases a <;> rfl

theorem transition_zero_draw_S10_ieee (logPos : K → K) :
    transition logPos (Dbl.fin 0) (Dbl.fin 500) (Dbl.fin 1) 10 (Dbl.fin 0) 0 0 0 0 (1 / 2) =
      (Dbl.pinf, UR3.Etat.mk 1 0 0) := by
  simp [transition, candidats, indexChoisi, selection, param_expo, Dbl.ofInt, Dbl.sub,
    Dbl.neg, Dbl.add, Dbl.mul, Dbl.div, Dbl.lt, Dbl.le, Dbl.log]
  norm_num

theorem transition_zero_draw_S1_ieee (logPos : K → K) :
    transition logPos (Dbl.fin 5) (Dbl.fin 500) (Dbl.fin 1) 1 (Dbl.fin 0) 0 0 0 0 (1 / 2) =
      (Dbl.pinf, UR3.Etat.mk 1 0 0) := by
  simp [transition, candidats, indexChoisi, selection, param_expo, Dbl.ofInt, Dbl.sub,
    Dbl.neg, Dbl.add, Dbl.mul, Dbl.div, Dbl.lt, Dbl.le, Dbl.log]
  norm_num

theorem transition_half_draw_S1_ieee (logPos : K → K) :
    transition logPos (Dbl.fin 5) (Dbl.fin 500) (Dbl.fin 1) 1 (Dbl.fin 0) 0 0 0 (1 / 2)
        (1 / 2) =
      (Dbl.fin (-1 / 505 * logPos (1 / 2)), UR3.Etat.mk 1 0 0) := by
  simp [transition, candidats, indexChoisi, selection, param_expo, Dbl.ofInt, Dbl.sub,
    Dbl.neg, Dbl.add, Dbl.mul, Dbl.div, Dbl.lt, Dbl.le, Dbl.log]
  norm_num

theorem horizon_S10_ieee :
    (Dbl.fin (5000 : K)).div ((Dbl.fin 0).add (Dbl.fin 500)) = Dbl.fin 10 := by
  simp [Dbl.div, Dbl.add]
  norm_num

theorem horizon_S1_ieee :
    (Dbl.fin (1 / 2 : K)).div ((Dbl.fin 5).add (Dbl.fin 500)) = Dbl.fin (1 / 1010) := by
  simp [Dbl.div, Dbl.add]
  norm_num

/-- The run of `simu` on Scenario A (`S = 10`, `G = 0`, `lambda_u = 500`, `lambda_e = 0`,
`mu = 1`, `NbIter = 5000`) when the first value of `rand()` is `0` : the first holding
time is `+inf`, the loop ends after one transition and the returned `wait_avg` is NaN. -/
theorem simu_run_zero_draw_S10_ieee (logPos : K → K) :
    simu logPos (Dbl.fin 0) (Dbl.fin 500) (Dbl.fin 1) 10 (Dbl.fin 0) (Dbl.fin 5000)
        tiragesZero 1 =
      some { loss := Dbl.fin 0, wait_avg := Dbl.nan, wait_max := Dbl.fin 0,
             urllc_tot := Dbl.fin 1, urllc_max := Dbl.fin 1, embb_tot := Dbl.fin 0 } := by
  have t0 : (tiragesZero (2 * 0) : K) = 0 := by simp [tiragesZero]
  have t1 : (tiragesZero (2 * 0 + 1) : K) = 1 / 2 := by simp [tiragesZero]
  simp only [simu, horizon_S10_ieee, simuLoop, simuCorps, simuInit, simuFin, t0, t1,
    transition_zero_draw_S10_ieee]
  simp [simuFin, Dbl.ofInt, Dbl.sub, Dbl.neg, Dbl.add, Dbl.mul, Dbl.div, Dbl.lt, Dbl.le, Dbl.gt]

/-- The run of `simu` with `S = 1`, `G = 0`, `lambda_e = 5`, `lambda_u = 500`, `mu = 1`,
`NbIter = 1/2` when the first value of `rand()` is `0` : one transition of holding time
`+inf` into the full state `(1,0,0)`, and the returned loss is NaN. -/
theorem simu_run_zero_draw_S1_ieee (logPos : K → K) :
    simu logPos (Dbl.fin 5) (Dbl.fin 500) (Dbl.fin 1) 1 (Dbl.fin 0) (Dbl.fin (1 / 2))
        tiragesZero 1 =
      some { loss := Dbl.nan, wait_avg := Dbl.nan, wait_max := Dbl.fin 0,
             urllc_tot := Dbl.fin 1, urllc_max := Dbl.fin 1, embb_tot := Dbl.fin 0 } := by
  have t0 : (tiragesZero (2 * 0) : K) = 0 := by simp [tiragesZero]
  have t1 : (tiragesZero (2 * 0 + 1) : K) = 1 / 2 := by simp [tiragesZero]
  simp only [simu, horizon_S1_ieee, simuLoop, simuCorps, simuInit, simuFin, t0, t1,
    transition_zero_draw_S1_ieee]
  simp [simuFin, Dbl.ofInt, Dbl.sub, Dbl.neg, Dbl.add, Dbl.mul, Dbl.div, Dbl.lt, Dbl.le, Dbl.gt]

/-- The run of `simu` with `S = 1`, `G = 0`, `lambda_e = 5`, `lambda_u = 500`, `mu = 1`,
`NbIter = 1/2` and all draws `1/2` : one transition, `(0,0,0) → (1,0,0)`, and the loss
`1`. -/
theorem simu_run_half_draw_S1_ieee (logPos : K → K) (h2 : logPos (1 / 2) ≤ -(1 / 2)) :
    simu logPos (Dbl.fin 5) (Dbl.fin 500) (Dbl.fin 1) 1 (Dbl.fin 0) (Dbl.fin (1 / 2))
        (fun _ => 1 / 2) 1 =
      some { loss := Dbl.fin 1, wait_avg := Dbl.fin 0, wait_max := Dbl.fin 0,
             urllc_tot := Dbl.fin 1, urllc_max := Dbl.fin 1, embb_tot := Dbl.fin 0 } := by
  have g1 : ¬ (-1 / 505 * logPos (1 / 2) < 1 / 1010) := by
    rw [not_lt]
    linarith
  have g1b : ¬ (-1 / 505 * logPos 2⁻¹ < 1010⁻¹) := by
    simpa using g1
  simp only [simu, horizon_S1_ieee, simuLoop, simuCorps, simuInit, simuFin,
    transition_half_draw_S1_ieee]
  simp [simuFin, Dbl.ofInt, Dbl.sub, Dbl.neg, Dbl.add, Dbl.mul, Dbl.div, Dbl.lt, Dbl.le, Dbl.gt, g1b]

theorem boucleSimulations_nan_ieee (appel : ℕ → Option (UR3.res_sim (Dbl K))) (n : ℕ)
    (c0 : UR3.res_sim (Dbl K)) (h0 : appel 0 = some c0) (hc : c0.loss = Dbl.nan)
    (hall : ∀ i, i < n → ∃ r, appel i = some r) (hn : 0 < n) :
    ∃ acc, boucleSimulations appel n = some acc ∧ acc.loss = Dbl.nan := by
  induction n with
  | zero => omega
  | succ n ih =>
    rcases Nat.eq_zero_or_pos n with hz | hpos
    · subst hz
      simp only [boucleSimulations, h0]
      refine ⟨_, rfl, ?_⟩
      simp only [ajoute, hc]
      rfl
    · obtain ⟨acc, hacc, hl⟩ := ih (fun i hi => hall i (by omega)) hpos
      obtain ⟨r, hr⟩ := hall n (by omega)
      refine ⟨ajoute acc r, ?_, ?_⟩
      · simp only [boucleSimulations, hacc, hr]
      · simp only [ajoute, hl]
        rfl

theorem tiragesUnZero_first :
    (tiragesUnZero 0 0 : ℕ → K) = tiragesZero := by
  funext k
  simp [tiragesUnZero, tiragesZero]

theorem tiragesUnZero_other (i : ℕ) (hi : 0 < i) :
    (tiragesUnZero 0 i : ℕ → K) = fun _ => 1 / 2 := by
  funext k
  have : i ≠ 0 := by omega
  simp [tiragesUnZero, this]

theorem simu_other_calls_ieee (logPos : K → K) (h2 : logPos (1 / 2) ≤ -(1 / 2)) (i : ℕ)
    (hi : 0 < i) :
    simu logPos (Dbl.fin 5) (Dbl.fin 500) (Dbl.fin 1) 1 (Dbl.ofInt 0) (Dbl.fin (1 / 2))
        (tiragesUnZero 0 i) 1 =
      some { loss := Dbl.fin 1, wait_avg := Dbl.fin 0, wait_max := Dbl.fin 0,
             urllc_tot := Dbl.fin 1, urllc_max := Dbl.fin 1, embb_tot := Dbl.fin 0 } := by
  have hG : (Dbl.ofInt 0 : Dbl K) = Dbl.fin 0 := by simp [Dbl.ofInt]
  rw [tiragesUnZero_other i hi, hG]
  exact simu_run_half_draw_S1_ieee logPos h2

theorem simu_first_call_ieee (logPos : K → K) :
    simu logPos (Dbl.fin 5) (Dbl.fin 500) (Dbl.fin 1) 1 (Dbl.ofInt 0) (Dbl.fin (1 / 2))
        (tiragesUnZero 0 0) 1 =
      some { loss := Dbl.nan, wait_avg := Dbl.nan, wait_max := Dbl.fin 0,
             urllc_tot := Dbl.fin 1, urllc_max := Dbl.fin 1, embb_tot := Dbl.fin 0 } := by
  have hG : (Dbl.ofInt 0 : Dbl K) = Dbl.fin 0 := by simp [Dbl.ofInt]
  rw [tiragesUnZero_first, hG]
  exact simu_run_zero_draw_S1_ieee logPos

/-- The guard search with `S = 1`, `lambda_e = 5`, `lambda_u = 500`, `mu = 1`,
`NbIter = 1/2`, `seuil = 1e-5` on the draws `tiragesUnZero` : the sum of the losses of
candidate `0` contains a NaN, the average is NaN and the loop is left with `G = 0`. -/
theorem garde_run_nan_ieee (logPos : K → K) (h2 : logPos (1 / 2) ≤ -(1 / 2)) (nb_sim : ℕ)
    (hn : 0 < nb_sim) (rm : UR3.res_sim (Dbl K)) :
    ∃ m : UR3.res_sim (Dbl K),
      valeur_canaux_garde_1 logPos (Dbl.fin 5) (Dbl.fin 500) (Dbl.fin 1) 1 (Dbl.fin (1 / 2))
        (Dbl.fin (1 / 100000)) nb_sim rm tiragesUnZero 1 1 = some (0, m) ∧
      m.loss = Dbl.nan := by
  obtain ⟨acc, hacc, hl⟩ := boucleSimulations_nan_ieee
    (fun i => simu logPos (Dbl.fin 5) (Dbl.fin 500) (Dbl.fin 1) 1 (Dbl.ofInt 0)
      (Dbl.fin (1 / 2)) (tiragesUnZero 0 i) 1) nb_sim _ (simu_first_call_ieee logPos) rfl
    (fun i _ => by
      rcases Nat.eq_zero_or_pos i with hz | hp
      · subst hz
        exact ⟨_, simu_first_call_ieee logPos⟩
      · exact ⟨_, simu_other_calls_ieee logPos h2 i hp⟩)
    hn
  have e0 : (-1 + 1 : ℤ) = 0 := by norm_num
  have hev : evalueCandidat logPos (Dbl.fin 5) (Dbl.fin 500) (Dbl.fin 1) 1 (Dbl.fin (1 / 2))
      nb_sim tiragesUnZero 1 (-1 + 1) = some (divise acc (Dbl.fin (nb_sim : K))) := by
    rw [e0]
    simp only [evalueCandidat, hacc, Option.map_some']
  have hml : (divise acc (Dbl.fin (nb_sim : K))).loss = Dbl.nan := by
    simp only [divise, hl]
    rfl
  have ha : (Dbl.fin (1 : K)).gt (Dbl.fin (1 / 100000)) = true := by
    simp [Dbl.gt, Dbl.lt]
    norm_num
  refine ⟨divise acc (Dbl.fin (nb_sim : K)), ?_, hml⟩
  simp only [valeur_canaux_garde_1, gardeLoop, ha, if_true, hev, hml]
  simp [Dbl.gt, Dbl.lt, e0]

/-- C16 (evaluation of the code where the claim fails).  Scenario A, `S = 10`, `G = 0`,
`lambda_u = 500`, `lambda_e = 0`, `mu = 1`, `NbIter = 5000`, the first value of `rand()`
being `0` and every later draw `1/2` (so every `U2` is in `(0,1)`): the first holding time
is `-1/500 * log(0) = +inf`, line 136 adds `e[2] * t = 0 * inf`, which is NaN, and `simu`
returns after one transition with `wait_avg` NaN, not `0`. -/
theorem urllc_only_wait_avg_is_nan :
    (∀ k, (0 : ℝ) < tiragesZero (2 * k + 1) ∧ (tiragesZero (2 * k + 1) : ℝ) < 1) ∧
    ∃ res : UR3.res_sim (Dbl ℝ),
      simu Real.log (Dbl.fin 0) (Dbl.fin 500) (Dbl.fin 1) 10 (Dbl.fin 0) (Dbl.fin 5000)
        tiragesZero 1 = some res ∧
      res.wait_avg = Dbl.nan ∧ res.wait_avg ≠ Dbl.fin 0 := by
  refine ⟨?_, _, simu_run_zero_draw_S10_ieee Real.log, rfl, ?_⟩
  · intro k
    simp [tiragesZero]
    norm_num
  · intro h
    cases h

/-- C12 (evaluation of the code where the claim fails).  `S = 1`, `lambda_e = 5`,
`lambda_u = 500`, `mu = 1`, `NbIter = 1/2`, `seuil = 1e-5`, all draws `1/2` except the
first draw of the first trajectory of candidate `0`, which is `0`.  That trajectory
returns a NaN loss (`inf - inf` at line 161), each of the `NB_SIM - 1` others returns the
loss `1`; the sum, hence the average, is NaN, the test `a > seuil` of line 197 is false
and the function returns `G = 0` with a loss that is not `<= seuil`. -/
theorem guard_search_returns_nan_loss :
    (∀ i, 0 < i → i < UR3.NB_SIM →
      ∃ r : UR3.res_sim (Dbl ℝ),
        simu Real.log (Dbl.fin 5) (Dbl.fin 500) (Dbl.fin 1) 1 (Dbl.ofInt 0) (Dbl.fin (1 / 2))
          (tiragesUnZero 0 i) 1 = some r ∧
        r.loss = Dbl.fin 1 ∧ r.loss.gt (Dbl.fin (1 / 100000)) = true) ∧
    ∃ m : UR3.res_sim (Dbl ℝ),
      valeur_canaux_garde_1 Real.log (Dbl.fin 5) (Dbl.fin 500) (Dbl.fin 1) 1 (Dbl.fin (1 / 2))
        (Dbl.fin (1 / 100000)) UR3.NB_SIM
        { loss := Dbl.fin 0, wait_avg := Dbl.fin 0, wait_max := Dbl.fin 0,
          urllc_tot := Dbl.fin 0, urllc_max := Dbl.fin 0, embb_tot := Dbl.fin 0 }
        tiragesUnZero 1 1 = some (0, m) ∧
      m.loss = Dbl.nan ∧ m.loss.le (Dbl.fin (1 / 100000)) = false := by
  have hlog : Real.log (1 / 2) ≤ -(1 / 2) := le_of_lt UR3.real_log_half_bounds.2
  constructor
  · intro i hi _
    refine ⟨_, simu_other_calls_ieee Real.log hlog i hi, rfl, ?_⟩
    simp [Dbl.gt, Dbl.lt]
    norm_num
  · obtain ⟨m, hm, hl⟩ := garde_run_nan_ieee Real.log hlog UR3.NB_SIM
      (Nat.pos_of_ne_zero UR3.NB_SIM_ne_zero)
      { loss := Dbl.fin 0, wait_avg := Dbl.fin 0, wait_max := Dbl.fin 0,
        urllc_tot := Dbl.fin 0, urllc_max := Dbl.fin 0, embb_tot := Dbl.fin 0 }
    refine ⟨m, hm, hl, ?_⟩
    rw [hl]
    rfl

end UR3IEEE
